import Mathlib

/-!
# simple-bank: the in-memory ledger engine

A shallow embedding of `internal/api/services/bank.go`, `search.go`,
`internal/proto` and `internal/utils` of the repository, followed by the
properties proved about it.

Conventions of the embedding
* Go `int` is `Int`; every arithmetic result is passed through `wrapInt`
  (two's complement, 64 bits).  Go `uint64` is `Nat` reduced `% 2^64`.
* Go `map[K]V` is a total function `K → Option V`; `m[k] = v` is
  `Function.update m k (some v)`.
* The effects of a call are inputs: `Env.rand` is what `crypto/rand.Read`
  delivers (or `none` when it fails) and `Env.now i` is the value of the
  `i`-th `time.Now().Unix()` evaluated by the call.
* Every engine method returns its Go result together with the ledger state
  after the call.  The calls are executed one at a time (the locks of the Go
  code are not represented).
-/

/-! ## Go integers -/

/-- Smallest value of a 64-bit Go `int`. -/
def minInt : Int := -9223372036854775808

/-- Largest value of a 64-bit Go `int`. -/
def maxInt : Int := 9223372036854775807

/-- The value is representable as a 64-bit Go `int`. -/
def isInt (x : Int) : Prop := minInt ≤ x ∧ x ≤ maxInt

instance (x : Int) : Decidable (isInt x) := by
  unfold isInt; exact inferInstance

/-- Two's complement wrap-around of a mathematical integer to a 64-bit Go `int`. -/
def wrapInt (x : Int) : Int :=
  (x + 9223372036854775808) % 18446744073709551616 - 9223372036854775808

/-- Wrap-around of a natural number to a Go `uint64`. -/
def wrapUint64 (x : Nat) : Nat := x % 18446744073709551616

/-! ## Go standard library: `strings.Trim` with a one-byte cutset, `base64.URLEncoding` -/

namespace strings

/-- Go `strings.trimLeftByte`: drop the leading occurrences of `c`. -/
def trimLeftByte (s : List Char) (c : Char) : List Char :=
  s.dropWhile (fun x => x == c)

/-- Go `strings.trimRightByte`: drop the trailing occurrences of `c`. -/
def trimRightByte (s : List Char) (c : Char) : List Char :=
  s.rdropWhile (fun x => x == c)

/-- Go `strings.Trim(s, cutset)` for a cutset of one ASCII character, the only
way the repository calls it. -/
def Trim (s : String) (c : Char) : String :=
  String.mk (trimLeftByte (trimRightByte s.data c) c)

end strings

namespace base64

/-- The alphabet of Go `base64.URLEncoding`. -/
def encodeURL : List Char :=
  "ABCDEFGHIJKLMNOPQRSTUVWXYZabcdefghijklmnopqrstuvwxyz0123456789-_".data

/-- The character of a 6-bit value. -/
def encodeChar (v : Nat) : Char := encodeURL.getD (v % 64) 'A'

/-- Go `base64.URLEncoding.EncodeToString` (standard padding `=`), on the list
of byte values. -/
def EncodeToChars : List Nat → List Char
  | b0 :: b1 :: b2 :: rest =>
      let val := b0 * 65536 + b1 * 256 + b2
      encodeChar (val / 262144) :: encodeChar (val / 4096) :: encodeChar (val / 64)
        :: encodeChar val :: EncodeToChars rest
  | [b0, b1] =>
      let val := b0 * 65536 + b1 * 256
      [encodeChar (val / 262144), encodeChar (val / 4096), encodeChar (val / 64), '=']
  | [b0] =>
      let val := b0 * 65536
      [encodeChar (val / 262144), encodeChar (val / 4096), '=', '=']
  | [] => []

/-- Go `base64.URLEncoding.EncodeToString`. -/
def EncodeToString (src : List Nat) : String := String.mk (EncodeToChars src)

/-- The characters A-Z, a-z, 0-9, '-' and '_'. -/
def isURLChar (c : Char) : Bool :=
  (decide ('A' ≤ c) && decide (c ≤ 'Z')) || (decide ('a' ≤ c) && decide (c ≤ 'z')) ||
    (decide ('0' ≤ c) && decide (c ≤ '9')) || c == '-' || c == '_'

end base64

/-! ## Package `proto` -/

namespace proto

/-- Go `proto.TransactionStatePending`. -/
def TransactionStatePending : Int := 0
/-- Go `proto.TransactionStateSuccess`. -/
def TransactionStateSuccess : Int := 1
/-- Go `proto.TransactionStateFailed`. -/
def TransactionStateFailed : Int := 2

/-- Go `proto.User`. -/
structure User where
  Account : String
  Password : String
  Name : String
  Balance : Int
  Nonce : String
  CreatedAt : Int
  UpdatedAt : Int
  deriving DecidableEq, Repr

/-- Go `proto.Transaction`. -/
structure Transaction where
  ID : Nat
  From : String
  To : String
  Amount : Int
  State : Int
  CreatedAt : Int
  deriving DecidableEq, Repr

end proto

/-! ## Package `utils` -/

/-- The errors of the engine: the sentinel values of `services/bank.go` and the
error built by `utils.GenerateNonce` ("could not generate nonce"). -/
inductive Error where
  | ErrEmptyAccount
  | ErrAccountExist
  | ErrAccountNotExist
  | ErrEmptyPwd
  | ErrEmptyNonce
  | ErrVerify
  | ErrNegativeBalance
  | ErrBalanceNotEnough
  | ErrFromAccount
  | ErrToAccount
  | ErrGenerateNonce
  deriving DecidableEq, Repr

/-- The effects a call observes: the outcome of `crypto/rand.Read` and the
successive readings of the clock. -/
structure Env where
  rand : Option (List Nat)
  now : Nat → Int

namespace utils

/-- Go `utils.IsEmpty`: `strings.Trim(s, " ") == ""`. -/
def IsEmpty (s : String) : Bool := strings.Trim s ' ' == ""

/-- The buffer `make([]byte, n)` after `rand.Read` has filled it from the
delivered bytes: exactly `n` bytes, each below 256. -/
def fillBytes (n : Nat) (src : List Nat) : List Nat :=
  (List.range n).map (fun i => src.getD i 0 % 256)

/-- Go `utils.GenerateNonce`: `n` random bytes, URL-safe base64 encoded; the
error when the entropy source fails. -/
def GenerateNonce (n : Nat) (rand : Option (List Nat)) : Except Error String :=
  match rand with
  | none => .error .ErrGenerateNonce
  | some src => .ok (base64.EncodeToString (fillBytes n src))

end utils

/-! ## Package `services` -/

namespace services

/-- Go `services.NonceLen`. -/
def NonceLen : Nat := 10

/-- Go `services.search`: the per-account index (`sync.Map` from account to
`[]uint64`). -/
structure search where
  index : String → Option (List Nat)

/-- Go `NewSearch`. -/
def NewSearch : search := ⟨fun _ => none⟩

/-- Go `(*search).Add`. -/
def search.Add (s : search) (account : String) (txID : Nat) : search :=
  match s.index account with
  | some ids => ⟨Function.update s.index account (some (ids ++ [txID]))⟩
  | none => ⟨Function.update s.index account (some [txID])⟩

/-- Go `(*search).Get`. -/
def search.Get (s : search) (account : String) : List Nat :=
  match s.index account with
  | some ids => ids
  | none => []

/-- Go `services.bank`: the ledger state. -/
structure bank where
  users : String → Option proto.User
  txs : Nat → Option proto.Transaction
  count : Nat
  search : search

/-- Go `NewBank`: the state built on first use. -/
def NewBank : bank :=
  { users := fun _ => none, txs := fun _ => none, count := 1, search := NewSearch }

/-- Go `(*bank).CreateAccount`. -/
def bank.CreateAccount (b : bank) (env : Env) (user : proto.User) :
    Except Error proto.User × bank :=
  if utils.IsEmpty user.Account then (.error .ErrEmptyAccount, b)
  else if utils.IsEmpty user.Password then (.error .ErrEmptyPwd, b)
  else
    let user := if utils.IsEmpty user.Name then { user with Name := "anonymous" } else user
    if user.Balance ≤ 0 then (.error .ErrNegativeBalance, b)
    else match utils.GenerateNonce NonceLen env.rand with
      | .error err => (.error err, b)
      | .ok nonce =>
        let user := { user with Nonce := nonce, CreatedAt := env.now 0, UpdatedAt := env.now 1 }
        match b.users user.Account with
        | some _ => (.error .ErrAccountExist, b)
        | none => (.ok user, { b with users := Function.update b.users user.Account (some user) })

/-- Go `(*bank).Deposit`. -/
def bank.Deposit (b : bank) (env : Env) (tx : proto.Transaction) (nonce : String) :
    Except Error (proto.Transaction × String) × bank :=
  if !utils.IsEmpty tx.From then (.error .ErrFromAccount, b)
  else if utils.IsEmpty tx.To then (.error .ErrToAccount, b)
  else if tx.Amount ≤ 0 then (.error .ErrNegativeBalance, b)
  else if utils.IsEmpty nonce then (.error .ErrEmptyNonce, b)
  else match b.users tx.To with
    | none => (.error .ErrVerify, b)
    | some user =>
      if user.Nonce ≠ nonce then (.error .ErrVerify, b)
      else match utils.GenerateNonce NonceLen env.rand with
        | .error err => (.error err, b)
        | .ok newNonce =>
          let user := { user with
            Balance := wrapInt (user.Balance + tx.Amount), Nonce := newNonce,
            UpdatedAt := env.now 0 }
          let tx := { tx with
            ID := b.count, CreatedAt := env.now 1, State := proto.TransactionStateSuccess }
          (.ok (tx, newNonce),
            { users := Function.update b.users user.Account (some user)
              txs := Function.update b.txs tx.ID (some tx)
              count := wrapUint64 (b.count + 1)
              search := b.search.Add user.Account tx.ID })

/-- Go `(*bank).Withdraw`. -/
def bank.Withdraw (b : bank) (env : Env) (tx : proto.Transaction) (nonce : String) :
    Except Error (proto.Transaction × String) × bank :=
  if utils.IsEmpty tx.From then (.error .ErrFromAccount, b)
  else if !utils.IsEmpty tx.To then (.error .ErrToAccount, b)
  else if tx.Amount ≤ 0 then (.error .ErrNegativeBalance, b)
  else if utils.IsEmpty nonce then (.error .ErrEmptyNonce, b)
  else match b.users tx.From with
    | none => (.error .ErrVerify, b)
    | some user =>
      if user.Nonce ≠ nonce then (.error .ErrVerify, b)
      else if user.Balance < tx.Amount then (.error .ErrBalanceNotEnough, b)
      else match utils.GenerateNonce NonceLen env.rand with
        | .error err => (.error err, b)
        | .ok newNonce =>
          let user := { user with
            Balance := wrapInt (user.Balance - tx.Amount), Nonce := newNonce,
            UpdatedAt := env.now 0 }
          let tx := { tx with
            ID := b.count, CreatedAt := env.now 1, State := proto.TransactionStateSuccess }
          (.ok (tx, newNonce),
            { users := Function.update b.users user.Account (some user)
              txs := Function.update b.txs tx.ID (some tx)
              count := wrapUint64 (b.count + 1)
              search := b.search.Add user.Account tx.ID })

/-- Go `(*bank).Transaction`: the transfer. -/
def bank.Transaction (b : bank) (env : Env) (tx : proto.Transaction) (nonce : String) :
    Except Error (proto.Transaction × String) × bank :=
  if utils.IsEmpty tx.From then (.error .ErrFromAccount, b)
  else if utils.IsEmpty tx.To then (.error .ErrToAccount, b)
  else if tx.Amount ≤ 0 then (.error .ErrNegativeBalance, b)
  else if utils.IsEmpty nonce then (.error .ErrEmptyNonce, b)
  else match b.users tx.From, b.users tx.To with
    | some fromUser, some toUser =>
      if fromUser.Nonce ≠ nonce then (.error .ErrVerify, b)
      else if fromUser.Balance < tx.Amount then (.error .ErrBalanceNotEnough, b)
      else match utils.GenerateNonce NonceLen env.rand with
        | .error err => (.error err, b)
        | .ok newNonce =>
          let toUser := { toUser with
            Balance := wrapInt (toUser.Balance + tx.Amount), UpdatedAt := env.now 0 }
          let fromUser := { fromUser with
            Balance := wrapInt (fromUser.Balance - tx.Amount), Nonce := newNonce,
            UpdatedAt := env.now 1 }
          let tx := { tx with
            ID := b.count, CreatedAt := env.now 2, State := proto.TransactionStateSuccess }
          (.ok (tx, newNonce),
            { users := Function.update
                (Function.update b.users fromUser.Account (some fromUser))
                toUser.Account (some toUser)
              txs := Function.update b.txs tx.ID (some tx)
              count := wrapUint64 (b.count + 1)
              search := (b.search.Add fromUser.Account tx.ID).Add toUser.Account tx.ID })
    | _, _ => (.error .ErrVerify, b)

/-- Go `(*bank).GetNonce`. -/
def bank.GetNonce (b : bank) (env : Env) (account pwd : String) :
    Except Error String × bank :=
  if utils.IsEmpty account then (.error .ErrEmptyAccount, b)
  else if utils.IsEmpty pwd then (.error .ErrEmptyPwd, b)
  else match b.users account with
    | none => (.error .ErrVerify, b)
    | some user =>
      if user.Password ≠ pwd then (.error .ErrVerify, b)
      else match utils.GenerateNonce NonceLen env.rand with
        | .error err => (.error err, b)
        | .ok nonce =>
          let user := { user with Nonce := nonce, UpdatedAt := env.now 0 }
          (.ok nonce, { b with users := Function.update b.users account (some user) })

/-- Go `(*bank).GetBalance`. -/
def bank.GetBalance (b : bank) (account : String) : Except Error Int :=
  if utils.IsEmpty account then .error .ErrEmptyAccount
  else match b.users account with
    | none => .error .ErrAccountNotExist
    | some user => .ok user.Balance

/-- Go `(*bank).GetTransactions`: the response slice and the error. -/
def bank.GetTransactions (b : bank) (account : String) :
    List proto.Transaction × Option Error :=
  if utils.IsEmpty account then ([], some .ErrEmptyAccount)
  else match b.users account with
    | none => ([], some .ErrAccountNotExist)
    | some _ =>
      let ids := b.search.Get account
      (ids.filterMap b.txs, none)

end services

/-! ## Calls, outcomes and state predicates -/

namespace services

/-- The Go `err` result of a call: `none` is `nil`. -/
def errOf {α : Type} : Except Error α → Option Error
  | .error e => some e
  | .ok _ => none

/-- One call of a state-changing engine method, with its arguments. -/
inductive Call where
  | createAccount (user : proto.User)
  | getNonce (account pwd : String)
  | deposit (tx : proto.Transaction) (nonce : String)
  | withdraw (tx : proto.Transaction) (nonce : String)
  | transaction (tx : proto.Transaction) (nonce : String)

/-- Run one call: the error it returns and the state it leaves. -/
def bank.call (b : bank) (env : Env) : Call → Option Error × bank
  | .createAccount user => (errOf (b.CreateAccount env user).1, (b.CreateAccount env user).2)
  | .getNonce account pwd => (errOf (b.GetNonce env account pwd).1, (b.GetNonce env account pwd).2)
  | .deposit tx nonce => (errOf (b.Deposit env tx nonce).1, (b.Deposit env tx nonce).2)
  | .withdraw tx nonce => (errOf (b.Withdraw env tx nonce).1, (b.Withdraw env tx nonce).2)
  | .transaction tx nonce =>
      (errOf (b.Transaction env tx nonce).1, (b.Transaction env tx nonce).2)

/-- Every account balance is at least zero. -/
def bank.nonNegative (b : bank) : Prop :=
  ∀ a u, b.users a = some u → 0 ≤ u.Balance

/-- Every account balance is a value of the Go type `int`. -/
def bank.balancesInt (b : bank) : Prop :=
  ∀ a u, b.users a = some u → isInt u.Balance

/-- Every account record is stored under its own identifier: the way
`CreateAccount` inserts records and every later write keeps them. -/
def bank.keyed (b : bank) : Prop :=
  ∀ a u, b.users a = some u → u.Account = a

/-- The balance of an account as a number: zero when the account does not
exist. -/
def bank.balanceAt (b : bank) (account : String) : Int :=
  match b.users account with
  | some u => u.Balance
  | none => 0

/-- The nonce currently stored on an account, if the account exists. -/
def bank.nonceOf (b : bank) (account : String) : Option String :=
  (b.users account).map (fun u => u.Nonce)

/-- The credit made by the call does not leave the range of `int`: for a
deposit and a transfer, the balance of the record found under `To` plus the
amount is at most `maxInt`. -/
def Call.creditFits (b : bank) : Call → Prop
  | .deposit tx _ => ∀ u, b.users tx.To = some u → u.Balance + tx.Amount ≤ maxInt
  | .transaction tx _ => ∀ u, b.users tx.To = some u → u.Balance + tx.Amount ≤ maxInt
  | _ => True

end services

/-! ## Sequences of calls -/

namespace services

/-- The transaction a successful money movement returns; `none` for a failing
call and for the calls that move no money. -/
def bank.committed (b : bank) (env : Env) : Call → Option proto.Transaction
  | .deposit tx nonce =>
      match (b.Deposit env tx nonce).1 with
      | .ok r => some r.1
      | .error _ => none
  | .withdraw tx nonce =>
      match (b.Withdraw env tx nonce).1 with
      | .ok r => some r.1
      | .error _ => none
  | .transaction tx nonce =>
      match (b.Transaction env tx nonce).1 with
      | .ok r => some r.1
      | .error _ => none
  | .createAccount _ => none
  | .getNonce _ _ => none

/-- One call of any of the seven engine methods.  `GetBalance` and
`GetTransactions` take read locks only and assign to no field of the ledger. -/
inductive Op where
  | call (c : Call)
  | getBalance (account : String)
  | getTransactions (account : String)

/-- The ledger state after one engine call. -/
def bank.step (b : bank) (env : Env) : Op → bank
  | .call c => (b.call env c).2
  | .getBalance _ => b
  | .getTransactions _ => b

/-- The transaction committed by one engine call, if it is a successful money
movement. -/
def bank.stepTx (b : bank) (env : Env) : Op → Option proto.Transaction
  | .call c => b.committed env c
  | .getBalance _ => none
  | .getTransactions _ => none

/-- The ledger state after a sequence of engine calls executed one after the
other, each with its own environment. -/
def bank.run (b : bank) : List (Env × Op) → bank
  | [] => b
  | eo :: rest => (b.step eo.1 eo.2).run rest

/-- The transactions returned by the successful money movements of a sequence
of calls, in the order of the calls. -/
def bank.trace (b : bank) : List (Env × Op) → List proto.Transaction
  | [] => []
  | eo :: rest => (b.stepTx eo.1 eo.2).toList ++ (b.step eo.1 eo.2).trace rest

/-- The transaction names the account as its source or its destination. -/
def names (a : String) (t : proto.Transaction) : Bool :=
  decide (t.From = a) || decide (t.To = a)

/-- The identifiers a committed transaction appends to the index sequence of
account `a`: one for the source, then one for the destination. -/
def touches (a : String) (t : proto.Transaction) : List Nat :=
  (if t.From = a then [t.ID] else []) ++ (if t.To = a then [t.ID] else [])

/-- The ledger is consistent with the list `T` of the transactions committed so
far: records sit under their own non-empty identifiers, the counter and the
identifiers follow the number of commits modulo 2^64, the log holds the
commits under the keys 1, 2, ... while fewer than 2^64 were made, and the index
sequence of every non-empty identifier lists what the commits appended. -/
structure bank.Consistent (T : List proto.Transaction) (b : bank) : Prop where
  keyed : b.keyed
  named : ∀ a u, b.users a = some u → utils.IsEmpty a = false
  count_eq : b.count = (T.length + 1) % 18446744073709551616
  ids : ∀ i t, T[i]? = some t → t.ID = (i + 1) % 18446744073709551616
  log : T.length < 18446744073709551616 →
    ∀ k, b.txs k = if k = 0 then none else T[k - 1]?
  index : ∀ a, utils.IsEmpty a = false → b.search.Get a = T.flatMap (touches a)

end services

/-! ## The two phases of a call and interleaved execution

Every state-changing method of `bank.go` runs in two critical sections.  The
first ends where the method releases the read lock (`b.users.RUnlock()`), or,
for `CreateAccount`, where it has validated its argument; the second starts
where it takes the write lock (`b.users.Lock()`, and `b.txs.Lock()` for the
money movements) and lasts to the return.  Between the two the method holds
only its local copies of the records it read.  `bank.begin` is the first
section, `bank.finish` the second; an interleaved execution runs the sections
of several calls in any order that keeps each call's own order. -/

namespace services

/-- What a call holds between its two sections: the request and the local
copies of the records it read. -/
inductive Pending where
  | createAccount (user : proto.User)
  | getNonce (account : String) (user : proto.User)
  | deposit (tx : proto.Transaction) (user : proto.User)
  | withdraw (tx : proto.Transaction) (user : proto.User)
  | transaction (tx : proto.Transaction) (fromUser toUser : proto.User)

/-- The value a state-changing call returns on success. -/
inductive Reply where
  | account (user : proto.User)
  | nonce (nonce : String)
  | moved (tx : proto.Transaction) (nonce : String)

/-- The first section of a call: the checks, on the ledger as it is then. -/
def bank.begin (b : bank) (env : Env) : Call → Except Error Pending
  | .createAccount user =>
    if utils.IsEmpty user.Account then .error .ErrEmptyAccount
    else if utils.IsEmpty user.Password then .error .ErrEmptyPwd
    else
      let user := if utils.IsEmpty user.Name then { user with Name := "anonymous" } else user
      if user.Balance ≤ 0 then .error .ErrNegativeBalance
      else match utils.GenerateNonce NonceLen env.rand with
        | .error err => .error err
        | .ok nonce =>
          .ok (.createAccount
            { user with Nonce := nonce, CreatedAt := env.now 0, UpdatedAt := env.now 1 })
  | .getNonce account pwd =>
    if utils.IsEmpty account then .error .ErrEmptyAccount
    else if utils.IsEmpty pwd then .error .ErrEmptyPwd
    else match b.users account with
      | none => .error .ErrVerify
      | some user =>
        if user.Password ≠ pwd then .error .ErrVerify
        else .ok (.getNonce account user)
  | .deposit tx nonce =>
    if !utils.IsEmpty tx.From then .error .ErrFromAccount
    else if utils.IsEmpty tx.To then .error .ErrToAccount
    else if tx.Amount ≤ 0 then .error .ErrNegativeBalance
    else if utils.IsEmpty nonce then .error .ErrEmptyNonce
    else match b.users tx.To with
      | none => .error .ErrVerify
      | some user =>
        if user.Nonce ≠ nonce then .error .ErrVerify
        else .ok (.deposit tx user)
  | .withdraw tx nonce =>
    if utils.IsEmpty tx.From then .error .ErrFromAccount
    else if !utils.IsEmpty tx.To then .error .ErrToAccount
    else if tx.Amount ≤ 0 then .error .ErrNegativeBalance
    else if utils.IsEmpty nonce then .error .ErrEmptyNonce
    else match b.users tx.From with
      | none => .error .ErrVerify
      | some user =>
        if user.Nonce ≠ nonce then .error .ErrVerify
        else if user.Balance < tx.Amount then .error .ErrBalanceNotEnough
        else .ok (.withdraw tx user)
  | .transaction tx nonce =>
    if utils.IsEmpty tx.From then .error .ErrFromAccount
    else if utils.IsEmpty tx.To then .error .ErrToAccount
    else if tx.Amount ≤ 0 then .error .ErrNegativeBalance
    else if utils.IsEmpty nonce then .error .ErrEmptyNonce
    else match b.users tx.From, b.users tx.To with
      | some fromUser, some toUser =>
        if fromUser.Nonce ≠ nonce then .error .ErrVerify
        else if fromUser.Balance < tx.Amount then .error .ErrBalanceNotEnough
        else .ok (.transaction tx fromUser toUser)
      | _, _ => .error .ErrVerify

/-- The second section of a call: under the write lock, on the ledger as it is
then and on the local copies read in the first section. -/
def bank.finish (b : bank) (env : Env) : Pending → Except Error Reply × bank
  | .createAccount user =>
    match b.users user.Account with
    | some _ => (.error .ErrAccountExist, b)
    | none =>
      (.ok (.account user), { b with users := Function.update b.users user.Account (some user) })
  | .getNonce account user =>
    match utils.GenerateNonce NonceLen env.rand with
    | .error err => (.error err, b)
    | .ok nonce =>
      let user := { user with Nonce := nonce, UpdatedAt := env.now 0 }
      (.ok (.nonce nonce), { b with users := Function.update b.users account (some user) })
  | .deposit tx user =>
    match utils.GenerateNonce NonceLen env.rand with
    | .error err => (.error err, b)
    | .ok newNonce =>
      let user := { user with
        Balance := wrapInt (user.Balance + tx.Amount), Nonce := newNonce,
        UpdatedAt := env.now 0 }
      let tx := { tx with
        ID := b.count, CreatedAt := env.now 1, State := proto.TransactionStateSuccess }
      (.ok (.moved tx newNonce),
        { users := Function.update b.users user.Account (some user)
          txs := Function.update b.txs tx.ID (some tx)
          count := wrapUint64 (b.count + 1)
          search := b.search.Add user.Account tx.ID })
  | .withdraw tx user =>
    match utils.GenerateNonce NonceLen env.rand with
    | .error err => (.error err, b)
    | .ok newNonce =>
      let user := { user with
        Balance := wrapInt (user.Balance - tx.Amount), Nonce := newNonce,
        UpdatedAt := env.now 0 }
      let tx := { tx with
        ID := b.count, CreatedAt := env.now 1, State := proto.TransactionStateSuccess }
      (.ok (.moved tx newNonce),
        { users := Function.update b.users user.Account (some user)
          txs := Function.update b.txs tx.ID (some tx)
          count := wrapUint64 (b.count + 1)
          search := b.search.Add user.Account tx.ID })
  | .transaction tx fromUser toUser =>
    match utils.GenerateNonce NonceLen env.rand with
    | .error err => (.error err, b)
    | .ok newNonce =>
      let toUser := { toUser with
        Balance := wrapInt (toUser.Balance + tx.Amount), UpdatedAt := env.now 0 }
      let fromUser := { fromUser with
        Balance := wrapInt (fromUser.Balance - tx.Amount), Nonce := newNonce,
        UpdatedAt := env.now 1 }
      let tx := { tx with
        ID := b.count, CreatedAt := env.now 2, State := proto.TransactionStateSuccess }
      (.ok (.moved tx newNonce),
        { users := Function.update
            (Function.update b.users fromUser.Account (some fromUser))
            toUser.Account (some toUser)
          txs := Function.update b.txs tx.ID (some tx)
          count := wrapUint64 (b.count + 1)
          search := (b.search.Add fromUser.Account tx.ID).Add toUser.Account tx.ID })

/-- The transaction in the reply of a successful money movement. -/
def commitOf : Except Error Reply → Option proto.Transaction
  | .ok (.moved tx _) => some tx
  | _ => none

/-- The ledger together with the calls that have passed their first section
and wait for the write lock, one per thread. -/
structure Conf where
  ledger : bank
  pending : Nat → Option Pending

/-- The configuration with the given ledger and no call under way. -/
def Conf.init (b : bank) : Conf := { ledger := b, pending := fun _ => none }

/-- One atomic step of an interleaved execution: a thread runs the first
section of a call, or the second section of the call it has under way. -/
inductive Event where
  | begin (tid : Nat) (env : Env) (c : Call)
  | finish (tid : Nat) (env : Env)

/-- The configuration after one event.  A `begin` on a thread with a call
under way and a `finish` on a thread without one are not steps of any
execution and change nothing. -/
def Conf.step (c : Conf) : Event → Conf
  | .begin tid env call =>
    match c.pending tid with
    | some _ => c
    | none =>
      match c.ledger.begin env call with
      | .error _ => c
      | .ok p => { c with pending := Function.update c.pending tid (some p) }
  | .finish tid env =>
    match c.pending tid with
    | none => c
    | some p =>
      { ledger := (c.ledger.finish env p).2, pending := Function.update c.pending tid none }

/-- The reply a call returns to its caller at an event, if a call returns
there: the error of a failed first section, or the result of the second. -/
def Conf.reply (c : Conf) : Event → Option (Except Error Reply)
  | .begin tid env call =>
    match c.pending tid with
    | some _ => none
    | none =>
      match c.ledger.begin env call with
      | .error e => some (.error e)
      | .ok _ => none
  | .finish tid env =>
    match c.pending tid with
    | none => none
    | some p => some (c.ledger.finish env p).1

/-- The configuration after a sequence of events. -/
def Conf.run (c : Conf) : List Event → Conf
  | [] => c
  | e :: rest => (c.step e).run rest

/-- The replies returned during a sequence of events, in the order of return. -/
def Conf.replies (c : Conf) : List Event → List (Except Error Reply)
  | [] => []
  | e :: rest => (c.reply e).toList ++ (c.step e).replies rest

/-- The transactions committed during a sequence of events, in the order of
commit. -/
def Conf.trace (c : Conf) : List Event → List proto.Transaction
  | [] => []
  | e :: rest => ((c.reply e).bind commitOf).toList ++ (c.step e).trace rest

/-- The facts about a waiting call that its first section has established and
that do not depend on the ledger. -/
def Pending.ok : Pending → Prop
  | .createAccount user => utils.IsEmpty user.Account = false
  | .getNonce account user => utils.IsEmpty account = false ∧ user.Account = account
  | .deposit tx user =>
    utils.IsEmpty tx.From = true ∧ utils.IsEmpty tx.To = false ∧ user.Account = tx.To
  | .withdraw tx user =>
    utils.IsEmpty tx.From = false ∧ utils.IsEmpty tx.To = true ∧ user.Account = tx.From
  | .transaction tx fromUser toUser =>
    utils.IsEmpty tx.From = false ∧ utils.IsEmpty tx.To = false ∧
      fromUser.Account = tx.From ∧ toUser.Account = tx.To

/-- The events of a sequential execution of a call: both sections on one
thread, one right after the other.  The read-only calls change nothing and
contribute no event. -/
def seqEvents : Env × Op → List Event
  | (env, .call c) => [.begin 0 env c, .finish 0 env]
  | (_, .getBalance _) => []
  | (_, .getTransactions _) => []

/-- The ledger is consistent with the commits made so far and every waiting
call holds what its first section established. -/
def Conf.Consistent (T : List proto.Transaction) (c : Conf) : Prop :=
  c.ledger.Consistent T ∧ ∀ tid p, c.pending tid = some p → p.ok

/-- Two calls that overlap, on threads 1 and 2: both run their first section
before either takes the write lock; then the first call runs its second
section and after it the second call. -/
def overlap (e1 : Env) (c1 : Call) (e2 : Env) (c2 : Call) : List Event :=
  [.begin 1 e1 c1, .begin 2 e2 c2, .finish 1 e1, .finish 2 e2]

/-- The same two calls one after the other: the second call starts after the
first has returned. -/
def inOrder (e1 : Env) (c1 : Call) (e2 : Env) (c2 : Call) : List Event :=
  [.begin 1 e1 c1, .finish 1 e1, .begin 2 e2 c2, .finish 2 e2]

end services

/-! ## Example states and requests -/

namespace services

/-- An environment whose entropy source delivers the given bytes and whose
clock reads zero. -/
def envOf (bytes : List Nat) : Env := { rand := some bytes, now := fun _ => 0 }

/-- An environment whose entropy source fails; the clock reads zero. -/
def envNoEntropy : Env := { rand := none, now := fun _ => 0 }

/-- The record of account `"a"` with the given balance and nonce. -/
def acctA (bal : Int) (nonce : String) : proto.User :=
  { Account := "a", Password := "pw", Name := "A", Balance := bal, Nonce := nonce,
    CreatedAt := 0, UpdatedAt := 0 }

/-- A ledger holding the single account `"a"` with the given balance and the
nonce `"n1"`; empty log, counter 1. -/
def oneAccount (bal : Int) : bank :=
  { users := fun a => if a = "a" then some (acctA bal "n1") else none
    txs := fun _ => none
    count := 1
    search := NewSearch }

/-- A request to create account `"a"` with the given initial balance. -/
def newUserA (bal : Int) : proto.User :=
  { Account := "a", Password := "pw", Name := "A", Balance := bal, Nonce := "",
    CreatedAt := 0, UpdatedAt := 0 }

/-- A deposit request of `amt` to account `"a"`. -/
def depositTx (amt : Int) : proto.Transaction :=
  { ID := 0, From := "", To := "a", Amount := amt, State := 0, CreatedAt := 0 }

/-- A withdrawal request of `amt` from account `"a"`. -/
def withdrawTx (amt : Int) : proto.Transaction :=
  { ID := 0, From := "a", To := "", Amount := amt, State := 0, CreatedAt := 0 }

/-- A transfer request of `amt` between the named accounts. -/
def transferTx (src dst : String) (amt : Int) : proto.Transaction :=
  { ID := 0, From := src, To := dst, Amount := amt, State := 0, CreatedAt := 0 }

/-- The record of account `"b"` with the given balance and the nonce `"n2"`. -/
def acctB (bal : Int) : proto.User :=
  { Account := "b", Password := "pw2", Name := "B", Balance := bal, Nonce := "n2",
    CreatedAt := 0, UpdatedAt := 0 }

/-- A ledger holding account `"a"` (nonce `"n1"`) and account `"b"` (nonce
`"n2"`) with the given balances; empty log, counter 1. -/
def twoAccounts (balA balB : Int) : bank :=
  { users := fun a =>
      if a = "a" then some (acctA balA "n1") else if a = "b" then some (acctB balB) else none
    txs := fun _ => none
    count := 1
    search := NewSearch }

end services

/-! ## A run long enough for the counter to wrap around -/

namespace services

/-- A request to create account `"b"` with the given initial balance. -/
def newUserB (bal : Int) : proto.User :=
  { Account := "b", Password := "pw2", Name := "B", Balance := bal, Nonce := "",
    CreatedAt := 0, UpdatedAt := 0 }

/-- The nonce generated from ten zero bytes, which `envOf []` delivers. -/
def zeroNonce : String := "AAAAAAAAAAAAAA=="

/-- A deposit of 1 to the named account presenting `zeroNonce`, in an
environment that generates `zeroNonce` again. -/
def depositOp (account : String) : Env × Op :=
  (envOf [], .call (.deposit { depositTx 1 with To := account } zeroNonce))

/-- The record a `depositOp "b"` commits under the identifier `k`. -/
def depositRecB (k : Nat) : proto.Transaction :=
  { ID := k, From := "", To := "b", Amount := 1, State := 1, CreatedAt := 0 }

/-- Create the accounts `"a"` and `"b"` with balance 1, deposit 1 to `"a"`, then
deposit 1 to `"b"` `n` times. -/
def longRun (n : Nat) : List (Env × Op) :=
  [(envOf [], .call (.createAccount (newUserA 1))),
   (envOf [], .call (.createAccount (newUserB 1))),
   depositOp "a"] ++ List.replicate n (depositOp "b")

end services

namespace services

/-- A short run on the initial ledger: create "a" with balance 100, deposit 1
(succeeds), withdraw 150 (fails, balance too low), read the balance, deposit 1
presenting a wrong nonce (fails), deposit 1 again (succeeds). -/
def shortRun : List (Env × Op) :=
  [(envOf [], .call (.createAccount (newUserA 100))),
   depositOp "a",
   (envOf [], .call (.withdraw (withdrawTx 150) zeroNonce)),
   (envOf [], .getBalance "a"),
   (envOf [], .call (.deposit (depositTx 1) "stale")),
   depositOp "a"]

end services

namespace services

/-- Create "a" with balance 100, then transfer 10 from "a" to "a". -/
def selfTransferRun : List (Env × Op) :=
  [(envOf [], .call (.createAccount (newUserA 100))),
   (envOf [], .call (.transaction (transferTx "a" "a" 10) zeroNonce))]

/-- Create "a" and "b" with balance 100, transfer 10 from "b" to "b", deposit 1
to "a", then transfer 5 from "a" to "b". -/
def otherSelfTransferRun : List (Env × Op) :=
  [(envOf [], .call (.createAccount (newUserA 100))),
   (envOf [], .call (.createAccount (newUserB 100))),
   (envOf [], .call (.transaction (transferTx "b" "b" 10) zeroNonce)),
   depositOp "a",
   (envOf [], .call (.transaction (transferTx "a" "b" 5) zeroNonce))]

end services

/-! ## Arithmetic of `wrapInt` -/

theorem wrapInt_of_isInt {x : Int} (h : isInt x) : wrapInt x = x := by
  unfold isInt minInt maxInt at h
  unfold wrapInt
  omega

theorem wrapInt_add_of_fits {x y : Int} (hx : isInt x) (hy : 0 ≤ y) (h : x + y ≤ maxInt) :
    wrapInt (x + y) = x + y := by
  apply wrapInt_of_isInt
  unfold isInt minInt maxInt at *
  omega

theorem wrapInt_sub_of_le {x y : Int} (hx : isInt x) (hy : 0 ≤ y) (h : y ≤ x) :
    wrapInt (x - y) = x - y := by
  apply wrapInt_of_isInt
  unfold isInt minInt maxInt at *
  omega

theorem isInt_wrapInt (x : Int) : isInt (wrapInt x) := by
  unfold isInt minInt maxInt wrapInt
  omega

/-! ## What each method does, case by case -/

namespace services

theorem Deposit_ok_inv {b : bank} {env : Env} {tx : proto.Transaction} {nonce : String}
    {r : proto.Transaction × String} (h : (b.Deposit env tx nonce).1 = .ok r) :
    ∃ user newNonce,
      utils.IsEmpty tx.From = true ∧ utils.IsEmpty tx.To = false ∧ 0 < tx.Amount ∧
      utils.IsEmpty nonce = false ∧ b.users tx.To = some user ∧ user.Nonce = nonce ∧
      utils.GenerateNonce NonceLen env.rand = .ok newNonce ∧
      b.Deposit env tx nonce =
        (.ok ({ tx with ID := b.count, CreatedAt := env.now 1,
                        State := proto.TransactionStateSuccess }, newNonce),
          { users := Function.update b.users user.Account
              (some { user with Balance := wrapInt (user.Balance + tx.Amount),
                                Nonce := newNonce, UpdatedAt := env.now 0 })
            txs := Function.update b.txs b.count
              (some { tx with ID := b.count, CreatedAt := env.now 1,
                              State := proto.TransactionStateSuccess })
            count := wrapUint64 (b.count + 1)
            search := b.search.Add user.Account b.count }) := by
  by_cases h1 : utils.IsEmpty tx.From = true
  swap
  · simp [bank.Deposit, h1] at h
  by_cases h2 : utils.IsEmpty tx.To = true
  · simp [bank.Deposit, h1, h2] at h
  by_cases h3 : tx.Amount ≤ 0
  · simp [bank.Deposit, h1, h2, h3] at h
  by_cases h4 : utils.IsEmpty nonce = true
  · simp [bank.Deposit, h1, h2, h3, h4] at h
  cases hu : b.users tx.To with
  | none => simp [bank.Deposit, h1, h2, h3, h4, hu] at h
  | some user =>
    by_cases h5 : user.Nonce = nonce
    swap
    · simp [bank.Deposit, h1, h2, h3, h4, hu, h5] at h
    cases hg : utils.GenerateNonce NonceLen env.rand with
    | error e => simp [bank.Deposit, h1, h2, h3, h4, hu, h5, hg] at h
    | ok newNonce =>
      refine ⟨user, newNonce, h1, by simpa using h2, by omega, by simpa using h4, rfl, h5, rfl, ?_⟩
      simp [bank.Deposit, h1, h2, h3, h4, hu, h5, hg]

theorem Withdraw_ok_inv {b : bank} {env : Env} {tx : proto.Transaction} {nonce : String}
    {r : proto.Transaction × String} (h : (b.Withdraw env tx nonce).1 = .ok r) :
    ∃ user newNonce,
      utils.IsEmpty tx.From = false ∧ utils.IsEmpty tx.To = true ∧ 0 < tx.Amount ∧
      utils.IsEmpty nonce = false ∧ b.users tx.From = some user ∧ user.Nonce = nonce ∧
      tx.Amount ≤ user.Balance ∧
      utils.GenerateNonce NonceLen env.rand = .ok newNonce ∧
      b.Withdraw env tx nonce =
        (.ok ({ tx with ID := b.count, CreatedAt := env.now 1,
                        State := proto.TransactionStateSuccess }, newNonce),
          { users := Function.update b.users user.Account
              (some { user with Balance := wrapInt (user.Balance - tx.Amount),
                                Nonce := newNonce, UpdatedAt := env.now 0 })
            txs := Function.update b.txs b.count
              (some { tx with ID := b.count, CreatedAt := env.now 1,
                              State := proto.TransactionStateSuccess })
            count := wrapUint64 (b.count + 1)
            search := b.search.Add user.Account b.count }) := by
  by_cases h1 : utils.IsEmpty tx.From = true
  · simp [bank.Withdraw, h1] at h
  by_cases h2 : utils.IsEmpty tx.To = true
  swap
  · simp [bank.Withdraw, h1, h2] at h
  by_cases h3 : tx.Amount ≤ 0
  · simp [bank.Withdraw, h1, h2, h3] at h
  by_cases h4 : utils.IsEmpty nonce = true
  · simp [bank.Withdraw, h1, h2, h3, h4] at h
  cases hu : b.users tx.From with
  | none => simp [bank.Withdraw, h1, h2, h3, h4, hu] at h
  | some user =>
    by_cases h5 : user.Nonce = nonce
    swap
    · simp [bank.Withdraw, h1, h2, h3, h4, hu, h5] at h
    by_cases h6 : user.Balance < tx.Amount
    · simp [bank.Withdraw, h1, h2, h3, h4, hu, h5, h6] at h
    cases hg : utils.GenerateNonce NonceLen env.rand with
    | error e => simp [bank.Withdraw, h1, h2, h3, h4, hu, h5, h6, hg] at h
    | ok newNonce =>
      refine ⟨user, newNonce, by simpa using h1, h2, by omega, by simpa using h4, rfl, h5,
        by omega, rfl, ?_⟩
      simp [bank.Withdraw, h1, h2, h3, h4, hu, h5, h6, hg]

theorem Transaction_ok_inv {b : bank} {env : Env} {tx : proto.Transaction} {nonce : String}
    {r : proto.Transaction × String} (h : (b.Transaction env tx nonce).1 = .ok r) :
    ∃ fromUser toUser newNonce,
      utils.IsEmpty tx.From = false ∧ utils.IsEmpty tx.To = false ∧ 0 < tx.Amount ∧
      utils.IsEmpty nonce = false ∧ b.users tx.From = some fromUser ∧
      b.users tx.To = some toUser ∧ fromUser.Nonce = nonce ∧
      tx.Amount ≤ fromUser.Balance ∧
      utils.GenerateNonce NonceLen env.rand = .ok newNonce ∧
      b.Transaction env tx nonce =
        (.ok ({ tx with ID := b.count, CreatedAt := env.now 2,
                        State := proto.TransactionStateSuccess }, newNonce),
          { users := Function.update
              (Function.update b.users fromUser.Account
                (some { fromUser with Balance := wrapInt (fromUser.Balance - tx.Amount),
                                      Nonce := newNonce, UpdatedAt := env.now 1 }))
              toUser.Account
              (some { toUser with Balance := wrapInt (toUser.Balance + tx.Amount),
                                  UpdatedAt := env.now 0 })
            txs := Function.update b.txs b.count
              (some { tx with ID := b.count, CreatedAt := env.now 2,
                              State := proto.TransactionStateSuccess })
            count := wrapUint64 (b.count + 1)
            search := (b.search.Add fromUser.Account b.count).Add toUser.Account b.count }) := by
  by_cases h1 : utils.IsEmpty tx.From = true
  · simp [bank.Transaction, h1] at h
  by_cases h2 : utils.IsEmpty tx.To = true
  · simp [bank.Transaction, h1, h2] at h
  by_cases h3 : tx.Amount ≤ 0
  · simp [bank.Transaction, h1, h2, h3] at h
  by_cases h4 : utils.IsEmpty nonce = true
  · simp [bank.Transaction, h1, h2, h3, h4] at h
  cases hf : b.users tx.From with
  | none => simp [bank.Transaction, h1, h2, h3, h4, hf] at h
  | some fromUser =>
    cases ht : b.users tx.To with
    | none => simp [bank.Transaction, h1, h2, h3, h4, hf, ht] at h
    | some toUser =>
      by_cases h5 : fromUser.Nonce = nonce
      swap
      · simp [bank.Transaction, h1, h2, h3, h4, hf, ht, h5] at h
      by_cases h6 : fromUser.Balance < tx.Amount
      · simp [bank.Transaction, h1, h2, h3, h4, hf, ht, h5, h6] at h
      cases hg : utils.GenerateNonce NonceLen env.rand with
      | error e => simp [bank.Transaction, h1, h2, h3, h4, hf, ht, h5, h6, hg] at h
      | ok newNonce =>
        refine ⟨fromUser, toUser, newNonce, by simpa using h1, by simpa using h2, by omega,
          by simpa using h4, rfl, rfl, h5, by omega, rfl, ?_⟩
        simp [bank.Transaction, h1, h2, h3, h4, hf, ht, h5, h6, hg]

theorem CreateAccount_ok_inv {b : bank} {env : Env} {user r : proto.User}
    (h : (b.CreateAccount env user).1 = .ok r) :
    ∃ nonce,
      utils.IsEmpty user.Account = false ∧ utils.IsEmpty user.Password = false ∧
      0 < user.Balance ∧ utils.GenerateNonce NonceLen env.rand = .ok nonce ∧
      b.users user.Account = none ∧
      r = { user with
              Name := if utils.IsEmpty user.Name then "anonymous" else user.Name,
              Nonce := nonce, CreatedAt := env.now 0, UpdatedAt := env.now 1 } ∧
      b.CreateAccount env user =
        (.ok r, { b with users := Function.update b.users user.Account (some r) }) := by
  by_cases h1 : utils.IsEmpty user.Account = true
  · simp [bank.CreateAccount, h1] at h
  by_cases h2 : utils.IsEmpty user.Password = true
  · simp [bank.CreateAccount, h1, h2] at h
  have hB : (if utils.IsEmpty user.Name = true then
      ({ user with Name := "anonymous" } : proto.User) else user).Balance = user.Balance := by
    split <;> rfl
  have hA : (if utils.IsEmpty user.Name = true then
      ({ user with Name := "anonymous" } : proto.User) else user).Account = user.Account := by
    split <;> rfl
  by_cases h3 : user.Balance ≤ 0
  · simp [bank.CreateAccount, h1, h2, hB, h3] at h
  cases hg : utils.GenerateNonce NonceLen env.rand with
  | error e => simp [bank.CreateAccount, h1, h2, hB, h3, hg] at h
  | ok nonce =>
    cases hu : b.users user.Account with
    | some old => simp [bank.CreateAccount, h1, h2, hB, hA, h3, hg, hu] at h
    | none =>
      simp only [bank.CreateAccount, h1, h2, hB, hA, h3, hg, hu] at h
      simp at h
      refine ⟨nonce, by simpa using h1, by simpa using h2, by omega, rfl, rfl, ?_, ?_⟩
      · rw [← h]; by_cases hn : utils.IsEmpty user.Name = true <;> simp [hn]
      · rw [← h]; simp [bank.CreateAccount, h1, h2, hB, hA, h3, hg, hu]

theorem GetNonce_ok_inv {b : bank} {env : Env} {account pwd r : String}
    (h : (b.GetNonce env account pwd).1 = .ok r) :
    ∃ user,
      utils.IsEmpty account = false ∧ utils.IsEmpty pwd = false ∧
      b.users account = some user ∧ user.Password = pwd ∧
      utils.GenerateNonce NonceLen env.rand = .ok r ∧
      b.GetNonce env account pwd =
        (.ok r,
          { b with
            users := Function.update b.users account
              (some { user with Nonce := r, UpdatedAt := env.now 0 }) }) := by
  by_cases h1 : utils.IsEmpty account = true
  · simp [bank.GetNonce, h1] at h
  by_cases h2 : utils.IsEmpty pwd = true
  · simp [bank.GetNonce, h1, h2] at h
  cases hu : b.users account with
  | none => simp [bank.GetNonce, h1, h2, hu] at h
  | some user =>
    by_cases h5 : user.Password = pwd
    swap
    · simp [bank.GetNonce, h1, h2, hu, h5] at h
    cases hg : utils.GenerateNonce NonceLen env.rand with
    | error e => simp [bank.GetNonce, h1, h2, hu, h5, hg] at h
    | ok nonce =>
      simp [bank.GetNonce, h1, h2, hu, h5, hg] at h
      subst h
      refine ⟨user, by simpa using h1, by simpa using h2, rfl, h5, rfl, ?_⟩
      simp [bank.GetNonce, h1, h2, hu, h5, hg]

/-- A call that returns an error leaves the state it was given. -/
theorem Deposit_error_state {b : bank} {env : Env} {tx : proto.Transaction} {nonce : String}
    {e : Error} (h : (b.Deposit env tx nonce).1 = .error e) :
    (b.Deposit env tx nonce).2 = b := by
  unfold bank.Deposit at h ⊢
  repeat' split
  all_goals first | rfl | simp_all

theorem Withdraw_error_state {b : bank} {env : Env} {tx : proto.Transaction} {nonce : String}
    {e : Error} (h : (b.Withdraw env tx nonce).1 = .error e) :
    (b.Withdraw env tx nonce).2 = b := by
  unfold bank.Withdraw at h ⊢
  repeat' split
  all_goals first | rfl | simp_all

theorem Transaction_error_state {b : bank} {env : Env} {tx : proto.Transaction}
    {nonce : String} {e : Error} (h : (b.Transaction env tx nonce).1 = .error e) :
    (b.Transaction env tx nonce).2 = b := by
  unfold bank.Transaction at h ⊢
  repeat' split
  all_goals first | rfl | simp_all

theorem CreateAccount_error_state {b : bank} {env : Env} {user : proto.User}
    {e : Error} (h : (b.CreateAccount env user).1 = .error e) :
    (b.CreateAccount env user).2 = b := by
  by_cases h1 : utils.IsEmpty user.Account = true
  · simp [bank.CreateAccount, h1]
  by_cases h2 : utils.IsEmpty user.Password = true
  · simp [bank.CreateAccount, h1, h2]
  have hB : (if utils.IsEmpty user.Name = true then
      ({ user with Name := "anonymous" } : proto.User) else user).Balance = user.Balance := by
    split <;> rfl
  have hA : (if utils.IsEmpty user.Name = true then
      ({ user with Name := "anonymous" } : proto.User) else user).Account = user.Account := by
    split <;> rfl
  by_cases h3 : user.Balance ≤ 0
  · simp [bank.CreateAccount, h1, h2, hB, h3]
  cases hg : utils.GenerateNonce NonceLen env.rand with
  | error e => simp [bank.CreateAccount, h1, h2, hB, h3, hg]
  | ok nonce =>
    cases hu : b.users user.Account with
    | some old => simp [bank.CreateAccount, h1, h2, hB, hA, h3, hg, hu]
    | none => simp [bank.CreateAccount, h1, h2, hB, hA, h3, hg, hu] at h

theorem GetNonce_error_state {b : bank} {env : Env} {account pwd : String}
    {e : Error} (h : (b.GetNonce env account pwd).1 = .error e) :
    (b.GetNonce env account pwd).2 = b := by
  unfold bank.GetNonce at h ⊢
  repeat' split
  all_goals first | rfl | simp_all

/-! ## Preservation of the state predicates -/

theorem forall_update {P : String → proto.User → Prop} {m : String → Option proto.User}
    (hm : ∀ a u, m a = some u → P a u) {k : String} {v : proto.User} (hv : P k v) :
    ∀ a u, Function.update m k (some v) a = some u → P a u := by
  intro a u h
  by_cases hak : a = k
  · subst hak
    rw [Function.update_same] at h
    cases h
    exact hv
  · rw [Function.update_noteq hak] at h
    exact hm a u h

theorem NewBank_keyed : NewBank.keyed := by
  intro a u h
  simp [NewBank] at h

/-- Every call keeps each record under its own identifier. -/
theorem call_keyed (b : bank) (env : Env) (c : Call) (hk : b.keyed) :
    (b.call env c).2.keyed := by
  cases c with
  | createAccount user =>
    show (b.CreateAccount env user).2.keyed
    cases hr : (b.CreateAccount env user).1 with
    | error e => rw [CreateAccount_error_state hr]; exact hk
    | ok r =>
      obtain ⟨nonce, -, -, -, -, -, hrec, heq⟩ := CreateAccount_ok_inv hr
      rw [heq]
      exact forall_update (P := fun a u => u.Account = a) hk (by rw [hrec])
  | getNonce account pwd =>
    show (b.GetNonce env account pwd).2.keyed
    cases hr : (b.GetNonce env account pwd).1 with
    | error e => rw [GetNonce_error_state hr]; exact hk
    | ok r =>
      obtain ⟨user, -, -, hu, -, -, heq⟩ := GetNonce_ok_inv hr
      rw [heq]
      exact forall_update (P := fun a u => u.Account = a) hk (hk _ user hu)
  | deposit tx nonce =>
    show (b.Deposit env tx nonce).2.keyed
    cases hr : (b.Deposit env tx nonce).1 with
    | error e => rw [Deposit_error_state hr]; exact hk
    | ok r =>
      obtain ⟨user, newNonce, -, -, -, -, -, -, -, heq⟩ := Deposit_ok_inv hr
      rw [heq]
      exact forall_update (P := fun a u => u.Account = a) hk rfl
  | withdraw tx nonce =>
    show (b.Withdraw env tx nonce).2.keyed
    cases hr : (b.Withdraw env tx nonce).1 with
    | error e => rw [Withdraw_error_state hr]; exact hk
    | ok r =>
      obtain ⟨user, newNonce, -, -, -, -, -, -, -, -, heq⟩ := Withdraw_ok_inv hr
      rw [heq]
      exact forall_update (P := fun a u => u.Account = a) hk rfl
  | transaction tx nonce =>
    show (b.Transaction env tx nonce).2.keyed
    cases hr : (b.Transaction env tx nonce).1 with
    | error e => rw [Transaction_error_state hr]; exact hk
    | ok r =>
      obtain ⟨fromUser, toUser, newNonce, -, -, -, -, -, -, -, -, -, heq⟩ :=
        Transaction_ok_inv hr
      rw [heq]
      refine forall_update (P := fun a u => u.Account = a)
        (forall_update (P := fun a u => u.Account = a) hk ?_) ?_ <;> rfl

theorem NewBank_balancesInt : NewBank.balancesInt := by
  intro a u h
  simp [NewBank] at h

/-- Every call keeps the balances inside the range of `int`, the initial
balance handed to CreateAccount being an `int`. -/
theorem call_balancesInt (b : bank) (env : Env) (c : Call) (hint : b.balancesInt)
    (hc : ∀ user, c = .createAccount user → isInt user.Balance) :
    (b.call env c).2.balancesInt := by
  cases c with
  | createAccount user =>
    show (b.CreateAccount env user).2.balancesInt
    cases hr : (b.CreateAccount env user).1 with
    | error e => rw [CreateAccount_error_state hr]; exact hint
    | ok r =>
      obtain ⟨nonce, -, -, -, -, -, hrec, heq⟩ := CreateAccount_ok_inv hr
      rw [heq]
      exact forall_update (P := fun _ u => isInt u.Balance) hint (by rw [hrec]; exact hc user rfl)
  | getNonce account pwd =>
    show (b.GetNonce env account pwd).2.balancesInt
    cases hr : (b.GetNonce env account pwd).1 with
    | error e => rw [GetNonce_error_state hr]; exact hint
    | ok r =>
      obtain ⟨user, -, -, hu, -, -, heq⟩ := GetNonce_ok_inv hr
      rw [heq]
      exact forall_update (P := fun _ u => isInt u.Balance) hint (hint _ user hu)
  | deposit tx nonce =>
    show (b.Deposit env tx nonce).2.balancesInt
    cases hr : (b.Deposit env tx nonce).1 with
    | error e => rw [Deposit_error_state hr]; exact hint
    | ok r =>
      obtain ⟨user, newNonce, -, -, -, -, -, -, -, heq⟩ := Deposit_ok_inv hr
      rw [heq]
      exact forall_update (P := fun _ u => isInt u.Balance) hint (isInt_wrapInt _)
  | withdraw tx nonce =>
    show (b.Withdraw env tx nonce).2.balancesInt
    cases hr : (b.Withdraw env tx nonce).1 with
    | error e => rw [Withdraw_error_state hr]; exact hint
    | ok r =>
      obtain ⟨user, newNonce, -, -, -, -, -, -, -, -, heq⟩ := Withdraw_ok_inv hr
      rw [heq]
      exact forall_update (P := fun _ u => isInt u.Balance) hint (isInt_wrapInt _)
  | transaction tx nonce =>
    show (b.Transaction env tx nonce).2.balancesInt
    cases hr : (b.Transaction env tx nonce).1 with
    | error e => rw [Transaction_error_state hr]; exact hint
    | ok r =>
      obtain ⟨fromUser, toUser, newNonce, -, -, -, -, -, -, -, -, -, heq⟩ :=
        Transaction_ok_inv hr
      rw [heq]
      exact forall_update (P := fun _ u => isInt u.Balance)
        (forall_update (P := fun _ u => isInt u.Balance) hint (isInt_wrapInt _))
        (isInt_wrapInt _)

/-! ## C1: balances stay non-negative -/

/-- C1, as stated, fails: with the balance of account "a" at the largest `int`,
a successful deposit of 1 wraps the balance around to the smallest `int`.  The
state before has every balance in range and non-negative; the state after has
not. -/
theorem C1_counterexample_deposit_overflow :
    (oneAccount 9223372036854775807).balancesInt ∧
    (oneAccount 9223372036854775807).nonNegative ∧
    ((oneAccount 9223372036854775807).call (envOf []) (.deposit (depositTx 1) "n1")).1 = none ∧
    (((oneAccount 9223372036854775807).call (envOf []) (.deposit (depositTx 1) "n1")).2.users
        "a").map (fun u => u.Balance) = some (-9223372036854775808) ∧
    ¬ ((oneAccount 9223372036854775807).call (envOf [])
        (.deposit (depositTx 1) "n1")).2.nonNegative := by
  refine ⟨?_, ?_, by rfl, by rfl, ?_⟩
  · intro a u h
    simp only [oneAccount] at h
    split at h
    · cases h; decide
    · cases h
  · intro a u h
    simp only [oneAccount] at h
    split at h
    · cases h; decide
    · cases h
  · intro h
    have h2 := h "a" _ (by rfl : _ = some (acctA (-9223372036854775808) "AAAAAAAAAAAAAA=="))
    revert h2
    decide

/-- C1 (amended): in a state whose balances are Go `int` values and all at
least zero, one call of CreateAccount, GetNonce, Deposit, Withdraw or
Transaction, whether it succeeds or fails, leaves every balance at least zero,
provided the credit of a deposit or transfer does not exceed the largest
`int`. -/
theorem C1_balances_stay_nonnegative (b : bank) (env : Env) (c : Call)
    (hint : b.balancesInt) (hnn : b.nonNegative) (hfit : c.creditFits b) :
    (b.call env c).2.nonNegative := by
  cases c with
  | createAccount user =>
    show (b.CreateAccount env user).2.nonNegative
    cases hr : (b.CreateAccount env user).1 with
    | error e => rw [CreateAccount_error_state hr]; exact hnn
    | ok r =>
      obtain ⟨nonce, -, -, hpos, -, -, hrec, heq⟩ := CreateAccount_ok_inv hr
      rw [heq]
      exact forall_update (P := fun _ u => 0 ≤ u.Balance) hnn (by rw [hrec]; exact le_of_lt hpos)
  | getNonce account pwd =>
    show (b.GetNonce env account pwd).2.nonNegative
    cases hr : (b.GetNonce env account pwd).1 with
    | error e => rw [GetNonce_error_state hr]; exact hnn
    | ok r =>
      obtain ⟨user, -, -, hu, -, -, heq⟩ := GetNonce_ok_inv hr
      rw [heq]
      exact forall_update (P := fun _ u => 0 ≤ u.Balance) hnn (hnn _ user hu)
  | deposit tx nonce =>
    show (b.Deposit env tx nonce).2.nonNegative
    cases hr : (b.Deposit env tx nonce).1 with
    | error e => rw [Deposit_error_state hr]; exact hnn
    | ok r =>
      obtain ⟨user, newNonce, -, -, hpos, -, hu, -, -, heq⟩ := Deposit_ok_inv hr
      rw [heq]
      refine forall_update (P := fun _ u => 0 ≤ u.Balance) hnn ?_
      show 0 ≤ wrapInt (user.Balance + tx.Amount)
      rw [wrapInt_add_of_fits (hint _ _ hu) (le_of_lt hpos) (hfit user hu)]
      have := hnn _ _ hu
      omega
  | withdraw tx nonce =>
    show (b.Withdraw env tx nonce).2.nonNegative
    cases hr : (b.Withdraw env tx nonce).1 with
    | error e => rw [Withdraw_error_state hr]; exact hnn
    | ok r =>
      obtain ⟨user, newNonce, -, -, hpos, -, hu, -, hle, -, heq⟩ := Withdraw_ok_inv hr
      rw [heq]
      refine forall_update (P := fun _ u => 0 ≤ u.Balance) hnn ?_
      show 0 ≤ wrapInt (user.Balance - tx.Amount)
      rw [wrapInt_sub_of_le (hint _ _ hu) (le_of_lt hpos) hle]
      omega
  | transaction tx nonce =>
    show (b.Transaction env tx nonce).2.nonNegative
    cases hr : (b.Transaction env tx nonce).1 with
    | error e => rw [Transaction_error_state hr]; exact hnn
    | ok r =>
      obtain ⟨fromUser, toUser, newNonce, -, -, hpos, -, hf, ht, -, hle, -, heq⟩ :=
        Transaction_ok_inv hr
      rw [heq]
      refine forall_update (P := fun _ u => 0 ≤ u.Balance)
        (forall_update (P := fun _ u => 0 ≤ u.Balance) hnn ?_) ?_
      · show 0 ≤ wrapInt (fromUser.Balance - tx.Amount)
        rw [wrapInt_sub_of_le (hint _ _ hf) (le_of_lt hpos) hle]
        omega
      · show 0 ≤ wrapInt (toUser.Balance + tx.Amount)
        rw [wrapInt_add_of_fits (hint _ _ ht) (le_of_lt hpos) (hfit toUser ht)]
        have := hnn _ _ ht
        omega

/-- Witness of C1: the spec's deposit of 50 to a balance of 100. -/
theorem C1_witness :
    (oneAccount 100).balancesInt ∧ (oneAccount 100).nonNegative ∧
    Call.creditFits (oneAccount 100) (.deposit (depositTx 50) "n1") ∧
    ((oneAccount 100).call (envOf []) (.deposit (depositTx 50) "n1")).2.nonNegative := by
  have h1 : (oneAccount 100).balancesInt := by
    intro a u h
    simp only [oneAccount] at h
    split at h
    · cases h; decide
    · cases h
  have h2 : (oneAccount 100).nonNegative := by
    intro a u h
    simp only [oneAccount] at h
    split at h
    · cases h; decide
    · cases h
  have h3 : Call.creditFits (oneAccount 100) (.deposit (depositTx 50) "n1") := by
    intro u h
    have : u = acctA 100 "n1" := by
      have h4 : (oneAccount 100).users "a" = some (acctA 100 "n1") := by rfl
      have h5 : (depositTx 50).To = "a" := rfl
      rw [h5, h4] at h
      cases h; rfl
    subst this
    decide
  exact ⟨h1, h2, h3, C1_balances_stay_nonnegative _ _ _ h1 h2 h3⟩

/-! ## C2: deposit and withdrawal move the balance by the amount -/

theorem GetBalance_of {b : bank} {a : String} {u : proto.User}
    (ha : utils.IsEmpty a = false) (hu : b.users a = some u) :
    b.GetBalance a = .ok u.Balance := by
  simp [bank.GetBalance, ha, hu]

/-- C2: in a state whose records are stored under their own identifiers and
whose balances are Go `int` values, for an existing account and an amount > 0,
a successful Deposit to the account leaves its balance (as GetBalance reads it)
at the previous balance plus the amount, provided the sum fits in the `int`
range, and a successful Withdraw leaves it at the previous balance minus the
amount. -/
theorem C2_deposit_withdraw_balance (b : bank) (env : Env) (tx : proto.Transaction)
    (nonce : String) (user : proto.User) (r : proto.Transaction × String)
    (hk : b.keyed) (hint : b.balancesInt) (hpos : 0 < tx.Amount) :
    (b.users tx.To = some user → (b.Deposit env tx nonce).1 = .ok r →
      user.Balance + tx.Amount ≤ maxInt →
      (b.Deposit env tx nonce).2.GetBalance tx.To = .ok (user.Balance + tx.Amount)) ∧
    (b.users tx.From = some user → (b.Withdraw env tx nonce).1 = .ok r →
      (b.Withdraw env tx nonce).2.GetBalance tx.From = .ok (user.Balance - tx.Amount)) := by
  constructor
  · intro hu hok hfit
    obtain ⟨user1, newNonce, -, hto, -, -, hu1, -, -, heq⟩ := Deposit_ok_inv hok
    rw [hu] at hu1
    cases hu1
    have hacc : user.Account = tx.To := hk _ _ hu
    rw [heq, hacc]
    rw [GetBalance_of hto (Function.update_same _ _ _)]
    show Except.ok (wrapInt (user.Balance + tx.Amount)) = _
    rw [wrapInt_add_of_fits (hint _ _ hu) (le_of_lt hpos) hfit]
  · intro hu hok
    obtain ⟨user1, newNonce, hfrom, -, -, -, hu1, -, hle, -, heq⟩ := Withdraw_ok_inv hok
    rw [hu] at hu1
    cases hu1
    have hacc : user.Account = tx.From := hk _ _ hu
    rw [heq, hacc]
    rw [GetBalance_of hfrom (Function.update_same _ _ _)]
    show Except.ok (wrapInt (user.Balance - tx.Amount)) = _
    rw [wrapInt_sub_of_le (hint _ _ hu) (le_of_lt hpos) hle]

theorem oneAccount_keyed (bal : Int) : (oneAccount bal).keyed := by
  intro a u h
  simp only [oneAccount] at h
  split at h
  · cases h; subst_vars; rfl
  · cases h

theorem oneAccount_balancesInt (bal : Int) (hb : isInt bal) : (oneAccount bal).balancesInt := by
  intro a u h
  simp only [oneAccount] at h
  split at h
  · cases h; exact hb
  · cases h

/-- Witness of C2: on a balance of 100, a deposit of 50 leaves 150 and a
withdrawal of 30 leaves 70. -/
theorem C2_witness :
    (oneAccount 100).GetBalance "a" = .ok 100 ∧
    ((oneAccount 100).Deposit (envOf []) (depositTx 50) "n1").2.GetBalance "a" = .ok 150 ∧
    ((oneAccount 100).Withdraw (envOf []) (withdrawTx 30) "n1").2.GetBalance "a" = .ok 70 :=
  ⟨by rfl,
   (C2_deposit_withdraw_balance (oneAccount 100) (envOf []) (depositTx 50) "n1"
      (acctA 100 "n1")
      ({ depositTx 50 with ID := 1, State := 1 }, "AAAAAAAAAAAAAA==")
      (oneAccount_keyed 100) (oneAccount_balancesInt 100 (by decide)) (by decide)).1
      (by rfl) (by rfl) (by decide),
   (C2_deposit_withdraw_balance (oneAccount 100) (envOf []) (withdrawTx 30) "n1"
      (acctA 100 "n1")
      ({ withdrawTx 30 with ID := 1, State := 1 }, "AAAAAAAAAAAAAA==")
      (oneAccount_keyed 100) (oneAccount_balancesInt 100 (by decide)) (by decide)).2
      (by rfl) (by rfl)⟩

/-! ## C3: a transfer debits the sender and credits the receiver -/

/-- C3, as stated, fails in two ways.  A transfer of 10 from account "a"
(balance 100) to itself succeeds and leaves the balance at 110, not at
100 - 10.  A transfer of 1 from "a" to "b" whose balance is the largest `int`
succeeds and leaves the balance of "b" at the smallest `int`, not at the
previous balance plus 1. -/
theorem C3_counterexample_self_transfer_and_overflow :
    (((oneAccount 100).Transaction (envOf []) (transferTx "a" "a" 10) "n1").1 =
        .ok ({ transferTx "a" "a" 10 with ID := 1, State := 1 }, "AAAAAAAAAAAAAA==") ∧
      ((oneAccount 100).Transaction (envOf []) (transferTx "a" "a" 10) "n1").2.GetBalance "a"
        = .ok 110 ∧
      ((oneAccount 100).Transaction (envOf []) (transferTx "a" "a" 10) "n1").2.GetBalance "a"
        ≠ .ok (100 - 10)) ∧
    (((twoAccounts 100 9223372036854775807).Transaction (envOf [])
          (transferTx "a" "b" 1) "n1").1 =
        .ok ({ transferTx "a" "b" 1 with ID := 1, State := 1 }, "AAAAAAAAAAAAAA==") ∧
      ((twoAccounts 100 9223372036854775807).Transaction (envOf [])
          (transferTx "a" "b" 1) "n1").2.GetBalance "b" = .ok (-9223372036854775808) ∧
      ((twoAccounts 100 9223372036854775807).Transaction (envOf [])
          (transferTx "a" "b" 1) "n1").2.GetBalance "b" ≠ .ok (9223372036854775807 + 1)) := by
  refine ⟨⟨by rfl, by rfl, ?_⟩, ⟨by rfl, by rfl, ?_⟩⟩
  · have h : ((oneAccount 100).Transaction (envOf []) (transferTx "a" "a" 10) "n1").2.GetBalance
        "a" = .ok 110 := by rfl
    rw [h]
    intro h2
    cases h2
  · have h : ((twoAccounts 100 9223372036854775807).Transaction (envOf [])
        (transferTx "a" "b" 1) "n1").2.GetBalance "b" = .ok (-9223372036854775808) := by rfl
    rw [h]
    intro h2
    cases h2

/-- C3 (amended): in a state whose records are stored under their own
identifiers and whose balances are Go `int` values, for two different existing
accounts From and To and a successful Transaction, provided the receiver's
balance plus the amount fits in the `int` range, the balance of From afterwards
is its previous balance minus the amount and the balance of To is its previous
balance plus the amount. -/
theorem C3_transfer_balances (b : bank) (env : Env) (tx : proto.Transaction)
    (nonce : String) (fromUser toUser : proto.User) (r : proto.Transaction × String)
    (hk : b.keyed) (hint : b.balancesInt)
    (hf : b.users tx.From = some fromUser) (ht : b.users tx.To = some toUser)
    (hne : tx.From ≠ tx.To) (hfit : toUser.Balance + tx.Amount ≤ maxInt)
    (hok : (b.Transaction env tx nonce).1 = .ok r) :
    (b.Transaction env tx nonce).2.GetBalance tx.From = .ok (fromUser.Balance - tx.Amount) ∧
    (b.Transaction env tx nonce).2.GetBalance tx.To = .ok (toUser.Balance + tx.Amount) := by
  obtain ⟨f1, t1, newNonce, hfrom, hto, hpos, -, hf1, ht1, -, hle, -, heq⟩ :=
    Transaction_ok_inv hok
  rw [hf] at hf1
  rw [ht] at ht1
  cases hf1
  cases ht1
  have hfa : fromUser.Account = tx.From := hk _ _ hf
  have hta : toUser.Account = tx.To := hk _ _ ht
  rw [heq, hfa, hta]
  constructor
  · have hu : ∀ (m : String → Option proto.User) (u v : proto.User),
        Function.update (Function.update m tx.From (some u)) tx.To (some v) tx.From = some u := by
      intro m u v
      rw [Function.update_noteq hne, Function.update_same]
    rw [GetBalance_of hfrom (hu _ _ _)]
    show Except.ok (wrapInt (fromUser.Balance - tx.Amount)) = _
    rw [wrapInt_sub_of_le (hint _ _ hf) (le_of_lt hpos) hle]
  · rw [GetBalance_of hto (Function.update_same _ _ _)]
    show Except.ok (wrapInt (toUser.Balance + tx.Amount)) = _
    rw [wrapInt_add_of_fits (hint _ _ ht) (le_of_lt hpos) hfit]

theorem twoAccounts_keyed (balA balB : Int) : (twoAccounts balA balB).keyed := by
  intro a u h
  simp only [twoAccounts] at h
  split at h
  · cases h; subst_vars; rfl
  · split at h
    · cases h; subst_vars; rfl
    · cases h

theorem twoAccounts_balancesInt (balA balB : Int) (ha : isInt balA) (hb : isInt balB) :
    (twoAccounts balA balB).balancesInt := by
  intro a u h
  simp only [twoAccounts] at h
  split at h
  · cases h; exact ha
  · split at h
    · cases h; exact hb
    · cases h

/-- Witness of C3: a transfer of 10 from "a" (100) to "b" (10) leaves 90 and 20. -/
theorem C3_witness :
    ((twoAccounts 100 10).Transaction (envOf []) (transferTx "a" "b" 10) "n1").2.GetBalance "a"
      = .ok 90 ∧
    ((twoAccounts 100 10).Transaction (envOf []) (transferTx "a" "b" 10) "n1").2.GetBalance "b"
      = .ok 20 :=
  C3_transfer_balances (twoAccounts 100 10) (envOf []) (transferTx "a" "b" 10) "n1"
    (acctA 100 "n1") (acctB 10)
    ({ transferTx "a" "b" 10 with ID := 1, State := 1 }, "AAAAAAAAAAAAAA==")
    (twoAccounts_keyed 100 10) (twoAccounts_balancesInt 100 10 (by decide) (by decide))
    (by rfl) (by rfl) (by decide) (by decide) (by rfl)

/-! ## C4: the stored nonce after a successful money movement -/

/-- Outside the transfer of an account to itself the rotation works: after a
successful Deposit, Withdraw, or Transaction between two different accounts, in
a state whose records are stored under their own identifiers, the nonce stored
on the authenticating account is the nonce the call returned. -/
theorem stored_nonce_is_returned (b : bank) (env : Env) (tx : proto.Transaction)
    (nonce newNonce : String) (t : proto.Transaction) (hk : b.keyed) :
    ((b.Deposit env tx nonce).1 = .ok (t, newNonce) →
      (b.Deposit env tx nonce).2.nonceOf tx.To = some newNonce) ∧
    ((b.Withdraw env tx nonce).1 = .ok (t, newNonce) →
      (b.Withdraw env tx nonce).2.nonceOf tx.From = some newNonce) ∧
    (tx.From ≠ tx.To → (b.Transaction env tx nonce).1 = .ok (t, newNonce) →
      (b.Transaction env tx nonce).2.nonceOf tx.From = some newNonce) := by
  refine ⟨?_, ?_, ?_⟩
  · intro hok
    obtain ⟨user, n, -, -, -, -, hu, -, -, heq⟩ := Deposit_ok_inv hok
    have hn : n = newNonce := by
      rw [heq] at hok
      exact (Prod.mk.inj (Except.ok.inj hok)).2
    rw [heq, hk _ _ hu, hn]
    simp [bank.nonceOf]
  · intro hok
    obtain ⟨user, n, -, -, -, -, hu, -, -, -, heq⟩ := Withdraw_ok_inv hok
    have hn : n = newNonce := by
      rw [heq] at hok
      exact (Prod.mk.inj (Except.ok.inj hok)).2
    rw [heq, hk _ _ hu, hn]
    simp [bank.nonceOf]
  · intro hne hok
    obtain ⟨f, u, n, -, -, -, -, hf, hu, -, -, -, heq⟩ := Transaction_ok_inv hok
    have hn : n = newNonce := by
      rw [heq] at hok
      exact (Prod.mk.inj (Except.ok.inj hok)).2
    rw [heq, hk _ _ hf, hk _ _ hu, hn]
    simp [bank.nonceOf, Function.update_noteq hne]

/-- C4 fails on the code at a transfer from an account to itself: the call
succeeds and returns the new nonce, but the record written last is the
receiver's copy, which still carries the presented nonce "n1"; the balance has
grown by the amount, and a second transfer presenting the consumed nonce "n1"
succeeds again instead of failing with ErrVerify. -/
theorem C4_self_transfer_keeps_consumed_nonce :
    ((oneAccount 100).Transaction (envOf []) (transferTx "a" "a" 10) "n1").1 =
      .ok ({ transferTx "a" "a" 10 with ID := 1, State := 1 }, "AAAAAAAAAAAAAA==") ∧
    ((oneAccount 100).Transaction (envOf []) (transferTx "a" "a" 10) "n1").2.nonceOf "a" =
      some "n1" ∧
    ((oneAccount 100).Transaction (envOf []) (transferTx "a" "a" 10) "n1").2.GetBalance "a" =
      .ok 110 ∧
    (((oneAccount 100).Transaction (envOf []) (transferTx "a" "a" 10) "n1").2.Transaction
        (envOf [1]) (transferTx "a" "a" 10) "n1").1 =
      .ok ({ transferTx "a" "a" 10 with ID := 2, State := 1 }, "AQAAAAAAAAAAAA==") ∧
    (((oneAccount 100).Transaction (envOf []) (transferTx "a" "a" 10) "n1").2.Transaction
        (envOf [1]) (transferTx "a" "a" 10) "n1").2.GetBalance "a" = .ok 120 :=
  ⟨by rfl, by rfl, by rfl, by rfl, by rfl⟩

/-! ## Emptiness of strings and of generated nonces -/

/-- `IsEmpty` holds exactly of the strings made of spaces only. -/
theorem IsEmpty_iff (s : String) : utils.IsEmpty s = true ↔ ∀ c ∈ s.data, c = ' ' := by
  unfold utils.IsEmpty strings.Trim strings.trimLeftByte strings.trimRightByte
  have h0 : ∀ l : List Char, ((String.mk l == "") = true) ↔ l = [] := by
    intro l
    rw [beq_iff_eq]
    constructor
    · intro h; exact congrArg String.data h
    · intro h; subst h; rfl
  rw [h0, List.dropWhile_eq_nil_iff]
  constructor
  · intro h
    by_cases hl : List.rdropWhile (fun x => x == ' ') s.data = []
    · rw [List.rdropWhile_eq_nil_iff] at hl
      intro c hc
      simpa using hl c hc
    · exfalso
      exact List.rdropWhile_last_not _ _ hl (h _ (List.getLast_mem hl))
  · intro h x hx
    have := (List.rdropWhile_prefix (fun x => x == ' ') s.data).subset hx
    simpa using h x this

theorem encodeChar_ne_space (v : Nat) : base64.encodeChar v ≠ ' ' := by
  unfold base64.encodeChar
  have hlt : v % 64 < 64 := Nat.mod_lt _ (by decide)
  generalize v % 64 = i at hlt
  interval_cases i <;> decide

theorem EncodeToChars_head (l : List Nat) (hl : l ≠ []) :
    ∃ v rest, base64.EncodeToChars l = base64.encodeChar v :: rest := by
  match l, hl with
  | [b0], _ => exact ⟨_, _, rfl⟩
  | [b0, b1], _ => exact ⟨_, _, rfl⟩
  | b0 :: b1 :: b2 :: rest, _ => exact ⟨_, _, rfl⟩

/-- A nonce generated with the engine's `NonceLen` is never empty. -/
theorem GenerateNonce_not_empty {rand : Option (List Nat)} {n : String}
    (h : utils.GenerateNonce NonceLen rand = .ok n) : utils.IsEmpty n = false := by
  cases rand with
  | none => simp [utils.GenerateNonce] at h
  | some src =>
    simp only [utils.GenerateNonce, Except.ok.injEq] at h
    have hne : utils.fillBytes NonceLen src ≠ [] := by
      apply List.ne_nil_of_length_pos
      simp [utils.fillBytes, NonceLen]
    obtain ⟨v, rest, hv⟩ := EncodeToChars_head _ hne
    cases hemp : utils.IsEmpty n with
    | false => rfl
    | true =>
      exfalso
      rw [IsEmpty_iff] at hemp
      have hmem : base64.encodeChar v ∈ n.data := by
        rw [← h]
        show base64.encodeChar v ∈ base64.EncodeToChars (utils.fillBytes NonceLen src)
        rw [hv]
        exact List.mem_cons_self _ _
      exact encodeChar_ne_space v (hemp _ hmem)

/-! ## The successful and the verification-failed runs, computed forwards -/

theorem CreateAccount_eq_ok {b : bank} {env : Env} {user : proto.User} {nonce : String}
    (h1 : utils.IsEmpty user.Account = false) (h2 : utils.IsEmpty user.Password = false)
    (h3 : 0 < user.Balance) (hg : utils.GenerateNonce NonceLen env.rand = .ok nonce)
    (hu : b.users user.Account = none) :
    b.CreateAccount env user =
      (.ok { user with
              Name := if utils.IsEmpty user.Name then "anonymous" else user.Name,
              Nonce := nonce, CreatedAt := env.now 0, UpdatedAt := env.now 1 },
        { b with
          users := Function.update b.users user.Account
            (some { user with
              Name := if utils.IsEmpty user.Name then "anonymous" else user.Name,
              Nonce := nonce, CreatedAt := env.now 0, UpdatedAt := env.now 1 }) }) := by
  have hB : (if utils.IsEmpty user.Name = true then
      ({ user with Name := "anonymous" } : proto.User) else user).Balance = user.Balance := by
    split <;> rfl
  have hA : (if utils.IsEmpty user.Name = true then
      ({ user with Name := "anonymous" } : proto.User) else user).Account = user.Account := by
    split <;> rfl
  simp only [bank.CreateAccount, h1, h2, hB, hA, not_le.mpr h3, hg, hu]
  by_cases hn : utils.IsEmpty user.Name = true <;> simp [hn]

theorem GetNonce_eq_ok {b : bank} {env : Env} {account pwd nonce : String} {user : proto.User}
    (h1 : utils.IsEmpty account = false) (h2 : utils.IsEmpty pwd = false)
    (hu : b.users account = some user) (hp : user.Password = pwd)
    (hg : utils.GenerateNonce NonceLen env.rand = .ok nonce) :
    b.GetNonce env account pwd =
      (.ok nonce,
        { b with
          users := Function.update b.users account
            (some { user with Nonce := nonce, UpdatedAt := env.now 0 }) }) := by
  simp [bank.GetNonce, h1, h2, hu, hp, hg]

theorem Deposit_eq_ok {b : bank} {env : Env} {tx : proto.Transaction} {nonce newNonce : String}
    {user : proto.User}
    (h1 : utils.IsEmpty tx.From = true) (h2 : utils.IsEmpty tx.To = false)
    (h3 : 0 < tx.Amount) (h4 : utils.IsEmpty nonce = false)
    (hu : b.users tx.To = some user) (h5 : user.Nonce = nonce)
    (hg : utils.GenerateNonce NonceLen env.rand = .ok newNonce) :
    b.Deposit env tx nonce =
      (.ok ({ tx with ID := b.count, CreatedAt := env.now 1,
                      State := proto.TransactionStateSuccess }, newNonce),
        { users := Function.update b.users user.Account
            (some { user with Balance := wrapInt (user.Balance + tx.Amount),
                              Nonce := newNonce, UpdatedAt := env.now 0 })
          txs := Function.update b.txs b.count
            (some { tx with ID := b.count, CreatedAt := env.now 1,
                            State := proto.TransactionStateSuccess })
          count := wrapUint64 (b.count + 1)
          search := b.search.Add user.Account b.count }) := by
  simp [bank.Deposit, h1, h2, not_le.mpr h3, h4, hu, h5, hg]

theorem Deposit_eq_verify {b : bank} {env : Env} {tx : proto.Transaction} {nonce : String}
    {user : proto.User}
    (h1 : utils.IsEmpty tx.From = true) (h2 : utils.IsEmpty tx.To = false)
    (h3 : 0 < tx.Amount) (h4 : utils.IsEmpty nonce = false)
    (hu : b.users tx.To = some user) (h5 : user.Nonce ≠ nonce) :
    b.Deposit env tx nonce = (.error .ErrVerify, b) := by
  simp [bank.Deposit, h1, h2, not_le.mpr h3, h4, hu, h5]

theorem CreateAccount_step {b : bank} {env : Env} {user : proto.User} {nonce : String}
    (h1 : utils.IsEmpty user.Account = false) (h2 : utils.IsEmpty user.Password = false)
    (h3 : 0 < user.Balance) (hg : utils.GenerateNonce NonceLen env.rand = .ok nonce)
    (hu : b.users user.Account = none) :
    ∃ r, (b.CreateAccount env user).1 = .ok r ∧
      (b.CreateAccount env user).2.users user.Account = some r ∧
      r.Account = user.Account ∧ r.Password = user.Password ∧ r.Balance = user.Balance ∧
      r.Nonce = nonce := by
  rw [CreateAccount_eq_ok h1 h2 h3 hg hu]
  exact ⟨_, rfl, Function.update_same _ _ _, rfl, rfl, rfl, rfl⟩

theorem GetNonce_step {b : bank} {env : Env} {account pwd nonce : String} {user : proto.User}
    (h1 : utils.IsEmpty account = false) (h2 : utils.IsEmpty pwd = false)
    (hu : b.users account = some user) (hp : user.Password = pwd)
    (hg : utils.GenerateNonce NonceLen env.rand = .ok nonce) :
    (b.GetNonce env account pwd).1 = .ok nonce ∧
    ∃ u, (b.GetNonce env account pwd).2.users account = some u ∧
      u.Account = user.Account ∧ u.Balance = user.Balance ∧ u.Nonce = nonce := by
  rw [GetNonce_eq_ok h1 h2 hu hp hg]
  exact ⟨rfl, _, Function.update_same _ _ _, rfl, rfl, rfl⟩

theorem Deposit_step {b : bank} {env : Env} {tx : proto.Transaction} {nonce newNonce : String}
    {user : proto.User}
    (h1 : utils.IsEmpty tx.From = true) (h2 : utils.IsEmpty tx.To = false)
    (h3 : 0 < tx.Amount) (h4 : utils.IsEmpty nonce = false)
    (hu : b.users tx.To = some user) (hk : user.Account = tx.To) (h5 : user.Nonce = nonce)
    (hg : utils.GenerateNonce NonceLen env.rand = .ok newNonce) :
    (∃ t, (b.Deposit env tx nonce).1 = .ok (t, newNonce)) ∧
    ∃ u, (b.Deposit env tx nonce).2.users tx.To = some u ∧
      u.Account = user.Account ∧ u.Balance = wrapInt (user.Balance + tx.Amount) ∧
      u.Nonce = newNonce := by
  rw [Deposit_eq_ok h1 h2 h3 h4 hu h5 hg, hk]
  exact ⟨⟨_, rfl⟩, _, Function.update_same _ _ _, rfl, rfl, rfl⟩

/-! ## C5: create, get a nonce, deposit, replay -/

/-- C5, as stated, fails at b = 2^63 - 1, a = 1: the account is created, GetNonce
returns n1, the deposit presenting n1 succeeds with a new nonce n2 different
from n1, and GetBalance then returns -2^63, not b + a. -/
theorem C5_counterexample_overflow :
    ((NewBank.CreateAccount (envOf [0]) (newUserA 9223372036854775807)).2.GetNonce
        (envOf [1]) "a" "pw").1 = .ok "AQAAAAAAAAAAAA==" ∧
    ((((NewBank.CreateAccount (envOf [0]) (newUserA 9223372036854775807)).2.GetNonce
        (envOf [1]) "a" "pw").2).Deposit (envOf [2]) (depositTx 1) "AQAAAAAAAAAAAA==").1 =
      .ok ({ depositTx 1 with ID := 1, State := 1 }, "AgAAAAAAAAAAAA==") ∧
    ((((NewBank.CreateAccount (envOf [0]) (newUserA 9223372036854775807)).2.GetNonce
        (envOf [1]) "a" "pw").2).Deposit (envOf [2]) (depositTx 1)
        "AQAAAAAAAAAAAA==").2.GetBalance "a" = .ok (-9223372036854775808) ∧
    ((((NewBank.CreateAccount (envOf [0]) (newUserA 9223372036854775807)).2.GetNonce
        (envOf [1]) "a" "pw").2).Deposit (envOf [2]) (depositTx 1)
        "AQAAAAAAAAAAAA==").2.GetBalance "a" ≠ .ok (9223372036854775807 + 1) := by
  refine ⟨by rfl, by rfl, by rfl, ?_⟩
  have h : ((((NewBank.CreateAccount (envOf [0]) (newUserA 9223372036854775807)).2.GetNonce
        (envOf [1]) "a" "pw").2).Deposit (envOf [2]) (depositTx 1)
        "AQAAAAAAAAAAAA==").2.GetBalance "a" = .ok (-9223372036854775808) := by rfl
  rw [h]
  intro h2
  cases h2

/-- C5 (amended): for every initial balance b > 0 and amount a > 0 whose sum
fits in the `int` range, with the generator succeeding and the nonce n2 issued
by the deposit different from n1: after a successful CreateAccount with balance
b and a GetNonce returning n1, the Deposit of a presenting n1 succeeds and
returns n2, GetBalance returns b + a, a second Deposit presenting n1 fails with
ErrVerify, and a Deposit presenting n2 then succeeds. -/
theorem C5_deposit_scenario (b0 : bank) (e0 e1 e2 e3 e4 : Env) (user : proto.User)
    (tx : proto.Transaction) (n0 n1 n2 n3 : String)
    (hacc : utils.IsEmpty user.Account = false) (hpwd : utils.IsEmpty user.Password = false)
    (hnew : b0.users user.Account = none)
    (hb : 0 < user.Balance) (hbi : isInt user.Balance)
    (hfrom : utils.IsEmpty tx.From = true) (hto : tx.To = user.Account) (ha : 0 < tx.Amount)
    (hfit : user.Balance + tx.Amount ≤ maxInt)
    (hg0 : utils.GenerateNonce NonceLen e0.rand = .ok n0)
    (hg1 : utils.GenerateNonce NonceLen e1.rand = .ok n1)
    (hg2 : utils.GenerateNonce NonceLen e2.rand = .ok n2)
    (hg4 : utils.GenerateNonce NonceLen e4.rand = .ok n3)
    (hdist : n1 ≠ n2) :
    (∃ r, (b0.CreateAccount e0 user).1 = .ok r) ∧
    ((b0.CreateAccount e0 user).2.GetNonce e1 user.Account user.Password).1 = .ok n1 ∧
    (∃ t, ((((b0.CreateAccount e0 user).2.GetNonce e1 user.Account user.Password).2).Deposit
        e2 tx n1).1 = .ok (t, n2)) ∧
    ((((b0.CreateAccount e0 user).2.GetNonce e1 user.Account user.Password).2).Deposit
        e2 tx n1).2.GetBalance user.Account = .ok (user.Balance + tx.Amount) ∧
    (((((b0.CreateAccount e0 user).2.GetNonce e1 user.Account user.Password).2).Deposit
        e2 tx n1).2.Deposit e3 tx n1).1 = .error .ErrVerify ∧
    (∃ t, ((((((b0.CreateAccount e0 user).2.GetNonce e1 user.Account user.Password).2).Deposit
        e2 tx n1).2.Deposit e3 tx n1).2.Deposit e4 tx n2).1 = .ok (t, n3)) := by
  have hto2 : utils.IsEmpty tx.To = false := by rw [hto]; exact hacc
  have hn1 : utils.IsEmpty n1 = false := GenerateNonce_not_empty hg1
  have hn2 : utils.IsEmpty n2 = false := GenerateNonce_not_empty hg2
  obtain ⟨r0, hr0, hu0, hA0, hP0, hB0, -⟩ := CreateAccount_step hacc hpwd hb hg0 hnew
  refine ⟨⟨r0, hr0⟩, ?_⟩
  generalize (b0.CreateAccount e0 user).2 = b1 at hu0 ⊢
  obtain ⟨hr1, u1, hu1, hA1, hB1, hN1⟩ := GetNonce_step hacc hpwd hu0 hP0 hg1
  refine ⟨hr1, ?_⟩
  generalize (b1.GetNonce e1 user.Account user.Password).2 = b2 at hu1 ⊢
  rw [← hto] at hu1
  obtain ⟨hr2, u2, hu2, hA2, hB2, hN2⟩ :=
    Deposit_step hfrom hto2 ha hn1 hu1 (by rw [hA1, hA0, hto]) hN1 hg2
  refine ⟨hr2, ?_⟩
  generalize (b2.Deposit e2 tx n1).2 = b3 at hu2 ⊢
  refine ⟨?_, ?_⟩
  · rw [← hto, GetBalance_of hto2 hu2, hB2, hB1, hB0,
      wrapInt_add_of_fits hbi (le_of_lt ha) hfit]
  · have hne : u2.Nonce ≠ n1 := by rw [hN2]; exact Ne.symm hdist
    rw [Deposit_eq_verify hfrom hto2 ha hn1 hu2 hne]
    refine ⟨rfl, ?_⟩
    exact (Deposit_step hfrom hto2 ha hn2 hu2 (by rw [hA2, hA1, hA0, hto]) hN2 hg4).1


/-- Witness of C5: the spec's instance b = 100, a = 50 on the initial ledger. -/
theorem C5_witness :
    (∃ r, (NewBank.CreateAccount (envOf [0]) (newUserA 100)).1 = .ok r) ∧
    ((NewBank.CreateAccount (envOf [0]) (newUserA 100)).2.GetNonce (envOf [1]) "a" "pw").1 =
      .ok "AQAAAAAAAAAAAA==" ∧
    (∃ t, ((((NewBank.CreateAccount (envOf [0]) (newUserA 100)).2.GetNonce (envOf [1]) "a"
        "pw").2).Deposit (envOf [2]) (depositTx 50) "AQAAAAAAAAAAAA==").1 =
      .ok (t, "AgAAAAAAAAAAAA==")) ∧
    ((((NewBank.CreateAccount (envOf [0]) (newUserA 100)).2.GetNonce (envOf [1]) "a"
        "pw").2).Deposit (envOf [2]) (depositTx 50) "AQAAAAAAAAAAAA==").2.GetBalance "a" =
      .ok 150 ∧
    (((((NewBank.CreateAccount (envOf [0]) (newUserA 100)).2.GetNonce (envOf [1]) "a"
        "pw").2).Deposit (envOf [2]) (depositTx 50) "AQAAAAAAAAAAAA==").2.Deposit (envOf [3])
        (depositTx 50) "AQAAAAAAAAAAAA==").1 = .error .ErrVerify ∧
    (∃ t, ((((((NewBank.CreateAccount (envOf [0]) (newUserA 100)).2.GetNonce (envOf [1]) "a"
        "pw").2).Deposit (envOf [2]) (depositTx 50) "AQAAAAAAAAAAAA==").2.Deposit (envOf [3])
        (depositTx 50) "AQAAAAAAAAAAAA==").2.Deposit (envOf [4]) (depositTx 50)
        "AgAAAAAAAAAAAA==").1 = .ok (t, "BAAAAAAAAAAAAA==")) :=
  C5_deposit_scenario NewBank (envOf [0]) (envOf [1]) (envOf [2]) (envOf [3]) (envOf [4])
    (newUserA 100) (depositTx 50)
    "AAAAAAAAAAAAAA==" "AQAAAAAAAAAAAA==" "AgAAAAAAAAAAAA==" "BAAAAAAAAAAAAA=="
    (by decide) (by decide) (by rfl) (by decide) (by decide) (by decide) (by rfl) (by decide)
    (by decide) (by rfl) (by rfl) (by rfl) (by rfl) (by decide)

/-! ## C6, C7, C8: the order of the checks -/

theorem nonceOf_ne_iff {b : bank} {a nonce : String} :
    b.nonceOf a ≠ some nonce ↔
      (b.users a = none ∨ ∃ u, b.users a = some u ∧ u.Nonce ≠ nonce) := by
  unfold bank.nonceOf
  cases b.users a with
  | none => simp
  | some u => simp

theorem nonceOf_eq_iff {b : bank} {a nonce : String} :
    b.nonceOf a = some nonce ↔ ∃ u, b.users a = some u ∧ u.Nonce = nonce := by
  unfold bank.nonceOf
  cases b.users a with
  | none => simp
  | some u => simp

/-- C6: the outcome of Deposit is decided by the first failing check, in this
order: From not empty gives ErrFromAccount; else To empty gives ErrToAccount;
else amount <= 0 gives ErrNegativeBalance; else nonce empty gives
ErrEmptyNonce; else account To missing or its stored nonce different from the
presented one gives ErrVerify; otherwise, the generator succeeding, the deposit
succeeds and returns the generated nonce. -/
theorem C6_deposit_check_order (b : bank) (env : Env) (tx : proto.Transaction)
    (nonce : String) :
    (utils.IsEmpty tx.From = false →
      (b.Deposit env tx nonce).1 = .error .ErrFromAccount) ∧
    (utils.IsEmpty tx.From = true → utils.IsEmpty tx.To = true →
      (b.Deposit env tx nonce).1 = .error .ErrToAccount) ∧
    (utils.IsEmpty tx.From = true → utils.IsEmpty tx.To = false → tx.Amount ≤ 0 →
      (b.Deposit env tx nonce).1 = .error .ErrNegativeBalance) ∧
    (utils.IsEmpty tx.From = true → utils.IsEmpty tx.To = false → 0 < tx.Amount →
      utils.IsEmpty nonce = true →
      (b.Deposit env tx nonce).1 = .error .ErrEmptyNonce) ∧
    (utils.IsEmpty tx.From = true → utils.IsEmpty tx.To = false → 0 < tx.Amount →
      utils.IsEmpty nonce = false → b.nonceOf tx.To ≠ some nonce →
      (b.Deposit env tx nonce).1 = .error .ErrVerify) ∧
    (utils.IsEmpty tx.From = true → utils.IsEmpty tx.To = false → 0 < tx.Amount →
      utils.IsEmpty nonce = false → b.nonceOf tx.To = some nonce →
      ∀ newNonce, utils.GenerateNonce NonceLen env.rand = .ok newNonce →
      ∃ t, (b.Deposit env tx nonce).1 = .ok (t, newNonce)) := by
  refine ⟨?_, ?_, ?_, ?_, ?_, ?_⟩
  · intro h1
    simp [bank.Deposit, h1]
  · intro h1 h2
    simp [bank.Deposit, h1, h2]
  · intro h1 h2 h3
    simp [bank.Deposit, h1, h2, h3]
  · intro h1 h2 h3 h4
    simp [bank.Deposit, h1, h2, not_le.mpr h3, h4]
  · intro h1 h2 h3 h4 h5
    rw [nonceOf_ne_iff] at h5
    rcases h5 with h5 | ⟨u, hu, h5⟩
    · simp [bank.Deposit, h1, h2, not_le.mpr h3, h4, h5]
    · simp [bank.Deposit, h1, h2, not_le.mpr h3, h4, hu, h5]
  · intro h1 h2 h3 h4 h5 newNonce hg
    obtain ⟨u, hu, h5⟩ := nonceOf_eq_iff.mp h5
    simp [bank.Deposit, h1, h2, not_le.mpr h3, h4, hu, h5, hg]

/-- Witness of C6: on the account "a" holding nonce "n1", a deposit presenting
"zz" fails with ErrVerify and a deposit presenting "n1" succeeds. -/
theorem C6_witness :
    ((oneAccount 100).Deposit (envOf []) (depositTx 50) "zz").1 = .error .ErrVerify ∧
    ∃ t, ((oneAccount 100).Deposit (envOf []) (depositTx 50) "n1").1 =
      .ok (t, "AAAAAAAAAAAAAA==") :=
  ⟨(C6_deposit_check_order (oneAccount 100) (envOf []) (depositTx 50) "zz").2.2.2.2.1
      (by decide) (by decide) (by decide) (by decide) (by decide),
   (C6_deposit_check_order (oneAccount 100) (envOf []) (depositTx 50) "n1").2.2.2.2.2
      (by decide) (by decide) (by decide) (by decide) (by decide) _ (by rfl)⟩

/-- C7, as stated, fails when the entropy source fails: on the account "a"
(balance 100, nonce "n1") a withdrawal of 100 presenting "n1" passes every
listed check and yet returns the generator's error instead of succeeding. -/
theorem C7_counterexample_generator_fails :
    utils.IsEmpty (withdrawTx 100).From = false ∧ utils.IsEmpty (withdrawTx 100).To = true ∧
    0 < (withdrawTx 100).Amount ∧ utils.IsEmpty "n1" = false ∧
    (oneAccount 100).nonceOf (withdrawTx 100).From = some "n1" ∧
    (oneAccount 100).GetBalance "a" = .ok 100 ∧
    ((oneAccount 100).Withdraw envNoEntropy (withdrawTx 100) "n1").1 =
      .error .ErrGenerateNonce :=
  ⟨by decide, by decide, by decide, by decide, by decide, by rfl, by rfl⟩

/-- C7 (amended): the outcome of Withdraw is decided by the first failing
check, in this order: From empty gives ErrFromAccount; else To not empty gives
ErrToAccount; else amount <= 0 gives ErrNegativeBalance; else nonce empty gives
ErrEmptyNonce; else account From missing or nonce mismatch gives ErrVerify;
else balance < amount gives ErrBalanceNotEnough; otherwise, the generator
succeeding, the withdrawal succeeds, in particular when the amount equals the
whole balance. -/
theorem C7_withdraw_check_order (b : bank) (env : Env) (tx : proto.Transaction)
    (nonce : String) :
    (utils.IsEmpty tx.From = true →
      (b.Withdraw env tx nonce).1 = .error .ErrFromAccount) ∧
    (utils.IsEmpty tx.From = false → utils.IsEmpty tx.To = false →
      (b.Withdraw env tx nonce).1 = .error .ErrToAccount) ∧
    (utils.IsEmpty tx.From = false → utils.IsEmpty tx.To = true → tx.Amount ≤ 0 →
      (b.Withdraw env tx nonce).1 = .error .ErrNegativeBalance) ∧
    (utils.IsEmpty tx.From = false → utils.IsEmpty tx.To = true → 0 < tx.Amount →
      utils.IsEmpty nonce = true →
      (b.Withdraw env tx nonce).1 = .error .ErrEmptyNonce) ∧
    (utils.IsEmpty tx.From = false → utils.IsEmpty tx.To = true → 0 < tx.Amount →
      utils.IsEmpty nonce = false → b.nonceOf tx.From ≠ some nonce →
      (b.Withdraw env tx nonce).1 = .error .ErrVerify) ∧
    (utils.IsEmpty tx.From = false → utils.IsEmpty tx.To = true → 0 < tx.Amount →
      utils.IsEmpty nonce = false →
      ∀ u, b.users tx.From = some u → u.Nonce = nonce → u.Balance < tx.Amount →
      (b.Withdraw env tx nonce).1 = .error .ErrBalanceNotEnough) ∧
    (utils.IsEmpty tx.From = false → utils.IsEmpty tx.To = true → 0 < tx.Amount →
      utils.IsEmpty nonce = false →
      ∀ u, b.users tx.From = some u → u.Nonce = nonce → tx.Amount ≤ u.Balance →
      ∀ newNonce, utils.GenerateNonce NonceLen env.rand = .ok newNonce →
      ∃ t, (b.Withdraw env tx nonce).1 = .ok (t, newNonce)) ∧
    (utils.IsEmpty tx.From = false → utils.IsEmpty tx.To = true → 0 < tx.Amount →
      utils.IsEmpty nonce = false →
      ∀ u, b.users tx.From = some u → u.Nonce = nonce → tx.Amount = u.Balance →
      ∀ newNonce, utils.GenerateNonce NonceLen env.rand = .ok newNonce →
      ∃ t, (b.Withdraw env tx nonce).1 = .ok (t, newNonce)) := by
  refine ⟨?_, ?_, ?_, ?_, ?_, ?_, ?_, ?_⟩
  · intro h1
    simp [bank.Withdraw, h1]
  · intro h1 h2
    simp [bank.Withdraw, h1, h2]
  · intro h1 h2 h3
    simp [bank.Withdraw, h1, h2, h3]
  · intro h1 h2 h3 h4
    simp [bank.Withdraw, h1, h2, not_le.mpr h3, h4]
  · intro h1 h2 h3 h4 h5
    rw [nonceOf_ne_iff] at h5
    rcases h5 with h5 | ⟨u, hu, h5⟩
    · simp [bank.Withdraw, h1, h2, not_le.mpr h3, h4, h5]
    · simp [bank.Withdraw, h1, h2, not_le.mpr h3, h4, hu, h5]
  · intro h1 h2 h3 h4 u hu h5 h6
    simp [bank.Withdraw, h1, h2, not_le.mpr h3, h4, hu, h5, h6]
  · intro h1 h2 h3 h4 u hu h5 h6 newNonce hg
    simp [bank.Withdraw, h1, h2, not_le.mpr h3, h4, hu, h5, not_lt.mpr h6, hg]
  · intro h1 h2 h3 h4 u hu h5 h6 newNonce hg
    simp [bank.Withdraw, h1, h2, not_le.mpr h3, h4, hu, h5, not_lt.mpr (le_of_eq h6), hg]

/-- Witness of C7: on a balance of 100, withdrawing 150 fails with
ErrBalanceNotEnough and withdrawing the whole 100 succeeds. -/
theorem C7_witness :
    ((oneAccount 100).Withdraw (envOf []) (withdrawTx 150) "n1").1 =
      .error .ErrBalanceNotEnough ∧
    ∃ t, ((oneAccount 100).Withdraw (envOf []) (withdrawTx 100) "n1").1 =
      .ok (t, "AAAAAAAAAAAAAA==") :=
  ⟨(C7_withdraw_check_order (oneAccount 100) (envOf []) (withdrawTx 150) "n1").2.2.2.2.2.1
      (by decide) (by decide) (by decide) (by decide) (acctA 100 "n1") (by rfl) (by rfl)
      (by decide),
   (C7_withdraw_check_order (oneAccount 100) (envOf []) (withdrawTx 100) "n1").2.2.2.2.2.2.2
      (by decide) (by decide) (by decide) (by decide) (acctA 100 "n1") (by rfl) (by rfl)
      (by rfl) _ (by rfl)⟩

/-- C8, as stated, fails when the entropy source fails: a transfer of 10 from
"a" (balance 100, nonce "n1") to the existing account "b", presenting "n1",
passes every listed check and yet returns the generator's error instead of
succeeding. -/
theorem C8_counterexample_generator_fails :
    utils.IsEmpty (transferTx "a" "b" 10).From = false ∧
    utils.IsEmpty (transferTx "a" "b" 10).To = false ∧
    0 < (transferTx "a" "b" 10).Amount ∧ utils.IsEmpty "n1" = false ∧
    (twoAccounts 100 10).nonceOf "a" = some "n1" ∧
    (twoAccounts 100 10).users "b" = some (acctB 10) ∧
    (twoAccounts 100 10).GetBalance "a" = .ok 100 ∧
    ((twoAccounts 100 10).Transaction envNoEntropy (transferTx "a" "b" 10) "n1").1 =
      .error .ErrGenerateNonce :=
  ⟨by decide, by decide, by decide, by decide, by decide, by rfl, by rfl, by rfl⟩

/-- C8 (amended): the outcome of Transaction is decided by the first failing
check, in this order: From empty gives ErrFromAccount; else To empty gives
ErrToAccount; else amount <= 0 gives ErrNegativeBalance; else nonce empty gives
ErrEmptyNonce; else sender missing, sender's nonce different from the presented
one, or receiver missing gives ErrVerify; else sender balance < amount gives
ErrBalanceNotEnough; otherwise, the generator succeeding, the transfer
succeeds.  The receiver's nonce is never compared: the transfer succeeds
whatever nonce the receiver's record holds, also one different from the
presented nonce. -/
theorem C8_transaction_check_order (b : bank) (env : Env) (tx : proto.Transaction)
    (nonce : String) :
    (utils.IsEmpty tx.From = true →
      (b.Transaction env tx nonce).1 = .error .ErrFromAccount) ∧
    (utils.IsEmpty tx.From = false → utils.IsEmpty tx.To = true →
      (b.Transaction env tx nonce).1 = .error .ErrToAccount) ∧
    (utils.IsEmpty tx.From = false → utils.IsEmpty tx.To = false → tx.Amount ≤ 0 →
      (b.Transaction env tx nonce).1 = .error .ErrNegativeBalance) ∧
    (utils.IsEmpty tx.From = false → utils.IsEmpty tx.To = false → 0 < tx.Amount →
      utils.IsEmpty nonce = true →
      (b.Transaction env tx nonce).1 = .error .ErrEmptyNonce) ∧
    (utils.IsEmpty tx.From = false → utils.IsEmpty tx.To = false → 0 < tx.Amount →
      utils.IsEmpty nonce = false →
      (b.nonceOf tx.From ≠ some nonce ∨ b.users tx.To = none) →
      (b.Transaction env tx nonce).1 = .error .ErrVerify) ∧
    (utils.IsEmpty tx.From = false → utils.IsEmpty tx.To = false → 0 < tx.Amount →
      utils.IsEmpty nonce = false →
      ∀ f t, b.users tx.From = some f → b.users tx.To = some t → f.Nonce = nonce →
      f.Balance < tx.Amount →
      (b.Transaction env tx nonce).1 = .error .ErrBalanceNotEnough) ∧
    (utils.IsEmpty tx.From = false → utils.IsEmpty tx.To = false → 0 < tx.Amount →
      utils.IsEmpty nonce = false →
      ∀ f t, b.users tx.From = some f → b.users tx.To = some t → f.Nonce = nonce →
      tx.Amount ≤ f.Balance →
      ∀ newNonce, utils.GenerateNonce NonceLen env.rand = .ok newNonce →
      ∃ r, (b.Transaction env tx nonce).1 = .ok (r, newNonce)) ∧
    (utils.IsEmpty tx.From = false → utils.IsEmpty tx.To = false → 0 < tx.Amount →
      utils.IsEmpty nonce = false →
      ∀ f t, b.users tx.From = some f → b.users tx.To = some t → f.Nonce = nonce →
      t.Nonce ≠ nonce → tx.Amount ≤ f.Balance →
      ∀ newNonce, utils.GenerateNonce NonceLen env.rand = .ok newNonce →
      ∃ r, (b.Transaction env tx nonce).1 = .ok (r, newNonce)) := by
  refine ⟨?_, ?_, ?_, ?_, ?_, ?_, ?_, ?_⟩
  · intro h1
    simp [bank.Transaction, h1]
  · intro h1 h2
    simp [bank.Transaction, h1, h2]
  · intro h1 h2 h3
    simp [bank.Transaction, h1, h2, h3]
  · intro h1 h2 h3 h4
    simp [bank.Transaction, h1, h2, not_le.mpr h3, h4]
  · intro h1 h2 h3 h4 h5
    rcases h5 with h5 | h5
    · rw [nonceOf_ne_iff] at h5
      rcases h5 with h5 | ⟨u, hu, h5⟩
      · simp [bank.Transaction, h1, h2, not_le.mpr h3, h4, h5]
      · cases ht : b.users tx.To with
        | none => simp [bank.Transaction, h1, h2, not_le.mpr h3, h4, hu, ht]
        | some t => simp [bank.Transaction, h1, h2, not_le.mpr h3, h4, hu, ht, h5]
    · cases hf : b.users tx.From with
      | none => simp [bank.Transaction, h1, h2, not_le.mpr h3, h4, hf, h5]
      | some f => simp [bank.Transaction, h1, h2, not_le.mpr h3, h4, hf, h5]
  · intro h1 h2 h3 h4 f t hf ht h5 h6
    simp [bank.Transaction, h1, h2, not_le.mpr h3, h4, hf, ht, h5, h6]
  · intro h1 h2 h3 h4 f t hf ht h5 h6 newNonce hg
    simp [bank.Transaction, h1, h2, not_le.mpr h3, h4, hf, ht, h5, not_lt.mpr h6, hg]
  · intro h1 h2 h3 h4 f t hf ht h5 _ h6 newNonce hg
    simp [bank.Transaction, h1, h2, not_le.mpr h3, h4, hf, ht, h5, not_lt.mpr h6, hg]

/-- Witness of C8: with "a" (100, nonce "n1") and "b" (10, nonce "n2"), a
transfer of 1000 presenting "n1" fails with ErrBalanceNotEnough, a transfer to
the missing account "c" fails with ErrVerify, and a transfer of 10 to "b"
succeeds although the nonce of "b" is not the presented one. -/
theorem C8_witness :
    ((twoAccounts 100 10).Transaction (envOf []) (transferTx "a" "b" 1000) "n1").1 =
      .error .ErrBalanceNotEnough ∧
    ((twoAccounts 100 10).Transaction (envOf []) (transferTx "a" "c" 10) "n1").1 =
      .error .ErrVerify ∧
    ∃ r, ((twoAccounts 100 10).Transaction (envOf []) (transferTx "a" "b" 10) "n1").1 =
      .ok (r, "AAAAAAAAAAAAAA==") :=
  ⟨(C8_transaction_check_order (twoAccounts 100 10) (envOf []) (transferTx "a" "b" 1000)
      "n1").2.2.2.2.2.1
      (by decide) (by decide) (by decide) (by decide) (acctA 100 "n1") (acctB 10) (by rfl)
      (by rfl) (by rfl) (by decide),
   (C8_transaction_check_order (twoAccounts 100 10) (envOf []) (transferTx "a" "c" 10)
      "n1").2.2.2.2.1
      (by decide) (by decide) (by decide) (by decide) (Or.inr (by rfl)),
   (C8_transaction_check_order (twoAccounts 100 10) (envOf []) (transferTx "a" "b" 10)
      "n1").2.2.2.2.2.2.2
      (by decide) (by decide) (by decide) (by decide) (acctA 100 "n1") (acctB 10) (by rfl)
      (by rfl) (by rfl) (by decide) (by decide) _ (by rfl)⟩

/-! ## C9, C10: a failing call leaves the ledger as it was -/

/-- C9: a Deposit, Withdraw or Transaction that returns one of the validation
errors (ErrFromAccount, ErrToAccount, ErrNegativeBalance, ErrEmptyNonce,
ErrVerify, ErrBalanceNotEnough) leaves the whole ledger state as it was: the
account records, the transaction log, the ID counter and the per-account
index. -/
theorem C9_validation_error_leaves_state (b : bank) (env : Env) (tx : proto.Transaction)
    (nonce : String) (e : Error)
    (_he : e ∈ [Error.ErrFromAccount, Error.ErrToAccount, Error.ErrNegativeBalance,
      Error.ErrEmptyNonce, Error.ErrVerify, Error.ErrBalanceNotEnough]) :
    ((b.Deposit env tx nonce).1 = .error e → (b.Deposit env tx nonce).2 = b) ∧
    ((b.Withdraw env tx nonce).1 = .error e → (b.Withdraw env tx nonce).2 = b) ∧
    ((b.Transaction env tx nonce).1 = .error e → (b.Transaction env tx nonce).2 = b) :=
  ⟨fun h => Deposit_error_state h, fun h => Withdraw_error_state h,
   fun h => Transaction_error_state h⟩

/-- Witness of C9, the spec's instance: on a balance of 100, withdrawing 150
fails with ErrBalanceNotEnough; the state, and with it the balance of 100 and
the empty log, is what it was. -/
theorem C9_witness :
    ((oneAccount 100).Withdraw (envOf []) (withdrawTx 150) "n1").1 =
      .error .ErrBalanceNotEnough ∧
    ((oneAccount 100).Withdraw (envOf []) (withdrawTx 150) "n1").2 = oneAccount 100 ∧
    ((oneAccount 100).Withdraw (envOf []) (withdrawTx 150) "n1").2.GetBalance "a" = .ok 100 :=
  ⟨by rfl,
   (C9_validation_error_leaves_state (oneAccount 100) (envOf []) (withdrawTx 150) "n1"
      .ErrBalanceNotEnough (by decide)).2.1 (by rfl),
   by rfl⟩

/-- C10: when GenerateNonce fails, a call of CreateAccount, GetNonce, Deposit,
Withdraw or Transaction returns an error and the ledger state (accounts, log,
counter, index) is exactly what it was before the call. -/
theorem C10_generator_failure_leaves_state (b : bank) (env : Env) (c : Call) (e : Error)
    (hfail : utils.GenerateNonce NonceLen env.rand = .error e) :
    (∃ err, (b.call env c).1 = some err) ∧ (b.call env c).2 = b := by
  cases c with
  | createAccount user =>
    show (∃ err, errOf (b.CreateAccount env user).1 = some err) ∧
      (b.CreateAccount env user).2 = b
    cases hr : (b.CreateAccount env user).1 with
    | error e1 => exact ⟨⟨e1, rfl⟩, CreateAccount_error_state hr⟩
    | ok r =>
      obtain ⟨nonce, -, -, -, hg, -⟩ := CreateAccount_ok_inv hr
      rw [hfail] at hg
      cases hg
  | getNonce account pwd =>
    show (∃ err, errOf (b.GetNonce env account pwd).1 = some err) ∧
      (b.GetNonce env account pwd).2 = b
    cases hr : (b.GetNonce env account pwd).1 with
    | error e1 => exact ⟨⟨e1, rfl⟩, GetNonce_error_state hr⟩
    | ok r =>
      obtain ⟨user, -, -, -, -, hg, -⟩ := GetNonce_ok_inv hr
      rw [hfail] at hg
      cases hg
  | deposit tx nonce =>
    show (∃ err, errOf (b.Deposit env tx nonce).1 = some err) ∧
      (b.Deposit env tx nonce).2 = b
    cases hr : (b.Deposit env tx nonce).1 with
    | error e1 => exact ⟨⟨e1, rfl⟩, Deposit_error_state hr⟩
    | ok r =>
      obtain ⟨user, newNonce, -, -, -, -, -, -, hg, -⟩ := Deposit_ok_inv hr
      rw [hfail] at hg
      cases hg
  | withdraw tx nonce =>
    show (∃ err, errOf (b.Withdraw env tx nonce).1 = some err) ∧
      (b.Withdraw env tx nonce).2 = b
    cases hr : (b.Withdraw env tx nonce).1 with
    | error e1 => exact ⟨⟨e1, rfl⟩, Withdraw_error_state hr⟩
    | ok r =>
      obtain ⟨user, newNonce, -, -, -, -, -, -, -, hg, -⟩ := Withdraw_ok_inv hr
      rw [hfail] at hg
      cases hg
  | transaction tx nonce =>
    show (∃ err, errOf (b.Transaction env tx nonce).1 = some err) ∧
      (b.Transaction env tx nonce).2 = b
    cases hr : (b.Transaction env tx nonce).1 with
    | error e1 => exact ⟨⟨e1, rfl⟩, Transaction_error_state hr⟩
    | ok r =>
      obtain ⟨f, t, newNonce, -, -, -, -, -, -, -, -, hg, -⟩ := Transaction_ok_inv hr
      rw [hfail] at hg
      cases hg

/-- Witness of C10: with the entropy source failing, a deposit that passes
every check returns the generator's error and leaves the ledger as it was. -/
theorem C10_witness :
    (oneAccount 100).call envNoEntropy (.deposit (depositTx 50) "n1") =
      (some .ErrGenerateNonce, oneAccount 100) ∧
    (∃ err, ((oneAccount 100).call envNoEntropy (.deposit (depositTx 50) "n1")).1 = some err) ∧
    ((oneAccount 100).call envNoEntropy (.deposit (depositTx 50) "n1")).2 = oneAccount 100 :=
  ⟨by rfl,
   C10_generator_failure_leaves_state (oneAccount 100) envNoEntropy
     (.deposit (depositTx 50) "n1") .ErrGenerateNonce (by rfl)⟩

end services

namespace services

/-! ## The index and the consistency of reachable ledgers -/

theorem search_Get_Add (s : search) (x : String) (id : Nat) (a : String) :
    (s.Add x id).Get a = if a = x then s.Get x ++ [id] else s.Get a := by
  unfold search.Add search.Get
  cases hx : s.index x with
  | none =>
    by_cases hax : a = x
    · subst hax; simp
    · simp [hax, Function.update_noteq hax]
  | some ids =>
    by_cases hax : a = x
    · subst hax; simp
    · simp [hax, Function.update_noteq hax]

theorem ne_of_IsEmpty {a x : String} (ha : utils.IsEmpty a = false)
    (hx : utils.IsEmpty x = true) : x ≠ a := by
  intro h
  rw [h, ha] at hx
  cases hx

theorem Consistent_users {T : List proto.Transaction} {b : bank} (h : b.Consistent T)
    {U : String → Option proto.User} (hk : ∀ a u, U a = some u → u.Account = a)
    (hn : ∀ a u, U a = some u → utils.IsEmpty a = false) :
    bank.Consistent T { b with users := U } :=
  { keyed := hk, named := hn, count_eq := h.count_eq, ids := h.ids, log := h.log,
    index := h.index }

theorem Consistent_commit {T : List proto.Transaction} {b : bank} (h : b.Consistent T)
    {U : String → Option proto.User} {S : search} {t : proto.Transaction}
    (hk : ∀ a u, U a = some u → u.Account = a)
    (hn : ∀ a u, U a = some u → utils.IsEmpty a = false)
    (hid : t.ID = b.count)
    (hidx : ∀ a, utils.IsEmpty a = false → S.Get a = b.search.Get a ++ touches a t) :
    bank.Consistent (T ++ [t])
      { users := U, txs := Function.update b.txs b.count (some t),
        count := wrapUint64 (b.count + 1), search := S } := by
  have hc := h.count_eq
  refine { keyed := hk, named := hn, count_eq := ?_, ids := ?_, log := ?_, index := ?_ }
  · show wrapUint64 (b.count + 1) = _
    unfold wrapUint64
    rw [List.length_append, List.length_singleton]
    omega
  · intro i t1 hi
    by_cases hlt : i < T.length
    · rw [List.getElem?_append_left hlt] at hi
      exact h.ids i t1 hi
    · have hge : T.length ≤ i := Nat.le_of_not_lt hlt
      rw [List.getElem?_append_right hge] at hi
      have h0 : i - T.length = 0 := by
        by_contra hne
        rw [List.getElem?_eq_none (by simp; omega)] at hi
        cases hi
      rw [h0] at hi
      simp at hi
      subst hi
      rw [hid, hc]
      have : i = T.length := by omega
      rw [this]
  · intro hlt k
    rw [List.length_append, List.length_singleton] at hlt
    have hcnt : b.count = T.length + 1 := by omega
    show Function.update b.txs b.count (some t) k = _
    rw [hcnt]
    by_cases hk1 : k = T.length + 1
    · subst hk1
      rw [Function.update_same]
      simp
    · rw [Function.update_noteq hk1, h.log (by omega) k]
      by_cases hk0 : k = 0
      · simp [hk0]
      · simp only [hk0, if_false]
        by_cases hlt2 : k - 1 < T.length
        · rw [List.getElem?_append_left hlt2]
        · rw [List.getElem?_eq_none (by omega), List.getElem?_eq_none (by simp; omega)]
  · intro a ha
    show S.Get a = _
    rw [hidx a ha, h.index a ha, List.flatMap_append]
    simp [List.flatMap]

theorem nonempty_update {m : String → Option proto.User}
    (hm : ∀ a u, m a = some u → utils.IsEmpty a = false) {k : String} {v : proto.User}
    (hk : utils.IsEmpty k = false) :
    ∀ a u, Function.update m k (some v) a = some u → utils.IsEmpty a = false :=
  forall_update (P := fun a _ => utils.IsEmpty a = false) hm hk

theorem keyed_update {m : String → Option proto.User}
    (hm : ∀ a u, m a = some u → u.Account = a) {k : String} {v : proto.User}
    (hk : v.Account = k) :
    ∀ a u, Function.update m k (some v) a = some u → u.Account = a :=
  forall_update (P := fun a u => u.Account = a) hm hk

/-- One engine call keeps the ledger consistent with the commits made so far,
extended by the transaction the call commits, if any. -/
theorem Consistent_step {T : List proto.Transaction} {b : bank} (h : b.Consistent T)
    (env : Env) (op : Op) :
    (b.step env op).Consistent (T ++ (b.stepTx env op).toList) := by
  cases op with
  | getBalance a => simpa [bank.step, bank.stepTx] using h
  | getTransactions a => simpa [bank.step, bank.stepTx] using h
  | call c =>
    cases c with
    | createAccount user =>
      show (b.CreateAccount env user).2.Consistent (T ++ [])
      rw [List.append_nil]
      cases hr : (b.CreateAccount env user).1 with
      | error e => rw [CreateAccount_error_state hr]; exact h
      | ok r =>
        obtain ⟨nonce, hacc, -, -, -, -, hrec, heq⟩ := CreateAccount_ok_inv hr
        rw [heq]
        exact Consistent_users h (keyed_update h.keyed (by rw [hrec]))
          (nonempty_update h.named hacc)
    | getNonce account pwd =>
      show (b.GetNonce env account pwd).2.Consistent (T ++ [])
      rw [List.append_nil]
      cases hr : (b.GetNonce env account pwd).1 with
      | error e => rw [GetNonce_error_state hr]; exact h
      | ok r =>
        obtain ⟨user, hacc, -, hu, -, -, heq⟩ := GetNonce_ok_inv hr
        rw [heq]
        exact Consistent_users h (keyed_update h.keyed (h.keyed _ user hu))
          (nonempty_update h.named hacc)
    | deposit tx nonce =>
      show (b.Deposit env tx nonce).2.Consistent
        (T ++ (b.committed env (.deposit tx nonce)).toList)
      cases hr : (b.Deposit env tx nonce).1 with
      | error e =>
        rw [Deposit_error_state hr]
        simpa [bank.committed, hr] using h
      | ok r =>
        obtain ⟨user, newNonce, hfrom, hto, -, -, hu, -, -, heq⟩ := Deposit_ok_inv hr
        have hacc : user.Account = tx.To := h.keyed _ _ hu
        have hr1 : b.committed env (.deposit tx nonce) = some r.1 := by
          simp [bank.committed, hr]
        rw [heq] at hr
        have hr2 := (congrArg Prod.fst (Except.ok.inj hr)).symm
        rw [hr1, hr2, heq]
        simp only [Option.toList]
        refine Consistent_commit h (keyed_update h.keyed rfl)
          (nonempty_update h.named (by rw [hacc]; exact hto)) rfl ?_
        intro a ha
        rw [search_Get_Add, hacc]
        have hne : tx.From ≠ a := ne_of_IsEmpty ha hfrom
        by_cases hat : a = tx.To
        · subst hat; simp [touches, hne]
        · simp [touches, hne, hat, Ne.symm hat]
    | withdraw tx nonce =>
      show (b.Withdraw env tx nonce).2.Consistent
        (T ++ (b.committed env (.withdraw tx nonce)).toList)
      cases hr : (b.Withdraw env tx nonce).1 with
      | error e =>
        rw [Withdraw_error_state hr]
        simpa [bank.committed, hr] using h
      | ok r =>
        obtain ⟨user, newNonce, hfrom, hto, -, -, hu, -, -, -, heq⟩ := Withdraw_ok_inv hr
        have hacc : user.Account = tx.From := h.keyed _ _ hu
        have hr1 : b.committed env (.withdraw tx nonce) = some r.1 := by
          simp [bank.committed, hr]
        rw [heq] at hr
        have hr2 := (congrArg Prod.fst (Except.ok.inj hr)).symm
        rw [hr1, hr2, heq]
        simp only [Option.toList]
        refine Consistent_commit h (keyed_update h.keyed rfl)
          (nonempty_update h.named (by rw [hacc]; exact hfrom)) rfl ?_
        intro a ha
        rw [search_Get_Add, hacc]
        have hne : tx.To ≠ a := ne_of_IsEmpty ha hto
        by_cases hat : a = tx.From
        · subst hat; simp [touches, hne]
        · simp [touches, hne, hat, Ne.symm hat]
    | transaction tx nonce =>
      show (b.Transaction env tx nonce).2.Consistent
        (T ++ (b.committed env (.transaction tx nonce)).toList)
      cases hr : (b.Transaction env tx nonce).1 with
      | error e =>
        rw [Transaction_error_state hr]
        simpa [bank.committed, hr] using h
      | ok r =>
        obtain ⟨f, u, newNonce, hfrom, hto, -, -, hf, hu, -, -, -, heq⟩ :=
          Transaction_ok_inv hr
        have hfa : f.Account = tx.From := h.keyed _ _ hf
        have hua : u.Account = tx.To := h.keyed _ _ hu
        have hr1 : b.committed env (.transaction tx nonce) = some r.1 := by
          simp [bank.committed, hr]
        rw [heq] at hr
        have hr2 := (congrArg Prod.fst (Except.ok.inj hr)).symm
        rw [hr1, hr2, heq]
        simp only [Option.toList]
        refine Consistent_commit h (keyed_update (keyed_update h.keyed ?_) ?_)
          (nonempty_update (nonempty_update h.named ?_) ?_) rfl ?_
        · rfl
        · rfl
        · rw [hfa]; exact hfrom
        · rw [hua]; exact hto
        intro a ha
        rw [search_Get_Add, search_Get_Add, search_Get_Add, hfa, hua]
        by_cases haf : a = tx.From <;> by_cases hat : a = tx.To
        · subst haf; simp [touches, ← hat]
        · subst haf; simp [touches, hat, Ne.symm hat]
        · subst hat; simp [touches, haf, Ne.symm haf]
        · simp [touches, haf, hat, Ne.symm haf, Ne.symm hat]

theorem Consistent_NewBank : NewBank.Consistent [] :=
  { keyed := NewBank_keyed
    named := by intro a u h; simp [NewBank] at h
    count_eq := by rfl
    ids := by intro i t h; simp at h
    log := by intro _ k; simp [NewBank]
    index := by intro a _; simp [NewBank, NewSearch, search.Get] }

theorem Consistent_run {T : List proto.Transaction} {b : bank} (h : b.Consistent T)
    (cs : List (Env × Op)) : (b.run cs).Consistent (T ++ b.trace cs) := by
  induction cs generalizing T b with
  | nil => simpa [bank.run, bank.trace] using h
  | cons eo rest ih =>
    have h1 := ih (Consistent_step h eo.1 eo.2)
    simpa [bank.run, bank.trace, List.append_assoc] using h1

/-- Every ledger reached from `NewBank` is consistent with its own trace. -/
theorem Consistent_reached (cs : List (Env × Op)) :
    (NewBank.run cs).Consistent (NewBank.trace cs) := by
  simpa using Consistent_run Consistent_NewBank cs

/-! ## Runs: composition, and the long run of deposits -/

theorem run_append (b : bank) (l1 l2 : List (Env × Op)) :
    b.run (l1 ++ l2) = (b.run l1).run l2 := by
  induction l1 generalizing b with
  | nil => rfl
  | cons eo rest ih => exact ih _

theorem trace_append (b : bank) (l1 l2 : List (Env × Op)) :
    b.trace (l1 ++ l2) = b.trace l1 ++ (b.run l1).trace l2 := by
  induction l1 generalizing b with
  | nil => rfl
  | cons eo rest ih =>
    show _ ++ (b.step eo.1 eo.2).trace (rest ++ l2) = (_ ++ (b.step eo.1 eo.2).trace rest) ++ _
    rw [ih, List.append_assoc]
    rfl

/-- A deposit `depositOp "b"` on a ledger whose account "b" holds `zeroNonce`
succeeds: it commits `depositRecB` under the current counter, touches no other
account and no other index sequence, and leaves `zeroNonce` on "b". -/
theorem depositB_step (s : bank) (u : proto.User) (hu : s.users "b" = some u)
    (ha : u.Account = "b") (hn : u.Nonce = zeroNonce) :
    s.stepTx (depositOp "b").1 (depositOp "b").2 = some (depositRecB s.count) ∧
    ∃ v, v.Account = "b" ∧ v.Nonce = zeroNonce ∧
      s.step (depositOp "b").1 (depositOp "b").2 =
        { users := Function.update s.users "b" (some v)
          txs := Function.update s.txs s.count (some (depositRecB s.count))
          count := wrapUint64 (s.count + 1)
          search := s.search.Add "b" s.count } := by
  have heq := @Deposit_eq_ok s (envOf []) { depositTx 1 with To := "b" } zeroNonce zeroNonce u
    (by decide) (by decide) (by decide) (by decide) hu hn (by rfl)
  constructor
  · show s.committed (envOf []) (.deposit { depositTx 1 with To := "b" } zeroNonce) = _
    simp only [bank.committed, heq]
    rfl
  · refine ⟨{ u with Balance := wrapInt (u.Balance + 1), Nonce := zeroNonce, UpdatedAt := 0 },
      ha, rfl, ?_⟩
    show (s.call (envOf []) (.deposit { depositTx 1 with To := "b" } zeroNonce)).2 = _
    simp only [bank.call, heq]
    rw [ha]
    rfl

theorem repeat_depositB (n : Nat) : ∀ s : bank,
    (∃ u, s.users "b" = some u ∧ u.Account = "b" ∧ u.Nonce = zeroNonce) →
    (s.trace (List.replicate n (depositOp "b"))).length = n ∧
    (∃ u, (s.run (List.replicate n (depositOp "b"))).users "b" = some u ∧
      u.Account = "b" ∧ u.Nonce = zeroNonce) ∧
    (s.run (List.replicate n (depositOp "b"))).users "a" = s.users "a" ∧
    (s.run (List.replicate n (depositOp "b"))).search.Get "a" = s.search.Get "a" := by
  induction n with
  | zero =>
    intro s hs
    exact ⟨rfl, hs, rfl, rfl⟩
  | succ n ih =>
    intro s hs
    obtain ⟨u, hu, ha, hn⟩ := hs
    obtain ⟨htx, v, hva, hvn, hst⟩ := depositB_step s u hu ha hn
    rw [List.replicate_succ]
    show ((s.stepTx (depositOp "b").1 (depositOp "b").2).toList ++
        (s.step (depositOp "b").1 (depositOp "b").2).trace _).length = _ ∧
      (∃ u, ((s.step (depositOp "b").1 (depositOp "b").2).run _).users "b" = some u ∧ _) ∧
      ((s.step (depositOp "b").1 (depositOp "b").2).run _).users "a" = _ ∧
      ((s.step (depositOp "b").1 (depositOp "b").2).run _).search.Get "a" = _
    have hs1 : ∃ v, (s.step (depositOp "b").1 (depositOp "b").2).users "b" = some v ∧
        v.Account = "b" ∧ v.Nonce = zeroNonce := by
      rw [hst]
      refine ⟨v, ?_, hva, hvn⟩
      show Function.update s.users "b" (some v) "b" = some v
      exact Function.update_same _ _ _
    obtain ⟨h1, h2, h3, h4⟩ := ih _ hs1
    refine ⟨?_, h2, ?_, ?_⟩
    · rw [htx, List.length_append, h1]
      simp [Nat.add_comm]
    · rw [h3, hst]
      show Function.update s.users "b" (some v) "a" = s.users "a"
      exact Function.update_noteq (by decide) _ _
    · rw [h4, hst]
      show (s.search.Add "b" s.count).Get "a" = _
      rw [search_Get_Add]
      simp

theorem longRun_facts (n : Nat) :
    (NewBank.trace (longRun n)).length = n + 1 ∧
    (∃ u, (NewBank.run (longRun n)).users "b" = some u ∧ u.Account = "b" ∧
      u.Nonce = zeroNonce) ∧
    (NewBank.run (longRun n)).users "a" =
      some { newUserA 1 with Balance := 2, Nonce := zeroNonce } ∧
    (NewBank.run (longRun n)).search.Get "a" = [1] := by
  have hb : ∃ u, (NewBank.run [(envOf [], .call (.createAccount (newUserA 1))),
      (envOf [], .call (.createAccount (newUserB 1))), depositOp "a"]).users "b" = some u ∧
      u.Account = "b" ∧ u.Nonce = zeroNonce :=
    ⟨{ newUserB 1 with Nonce := zeroNonce }, by rfl, by rfl, by rfl⟩
  obtain ⟨h1, h2, h3, h4⟩ := repeat_depositB n _ hb
  unfold longRun
  rw [trace_append, run_append, List.length_append, h1, h3, h4]
  refine ⟨?_, h2, by rfl, by rfl⟩
  have h0 : (NewBank.trace [(envOf [], .call (.createAccount (newUserA 1))),
      (envOf [], .call (.createAccount (newUserB 1))), depositOp "a"]).length = 1 := by rfl
  rw [h0, Nat.add_comm]

theorem trace_ids (cs : List (Env × Op)) (i : Nat) (hi : i < (NewBank.trace cs).length) :
    ((NewBank.trace cs).map (fun t => t.ID))[i]? = some ((i + 1) % 18446744073709551616) := by
  rw [List.getElem?_map, List.getElem?_eq_getElem hi]
  simp only [Option.map_some']
  rw [(Consistent_reached cs).ids i _ (List.getElem?_eq_getElem hi)]

/-- A call that commits no transaction leaves the counter, the log and the
index as they were. -/
theorem step_no_commit (b : bank) (env : Env) (op : Op) (h : b.stepTx env op = none) :
    (b.step env op).count = b.count ∧ (b.step env op).txs = b.txs ∧
    (b.step env op).search = b.search := by
  cases op with
  | getBalance a => exact ⟨rfl, rfl, rfl⟩
  | getTransactions a => exact ⟨rfl, rfl, rfl⟩
  | call c =>
    cases c with
    | createAccount user =>
      show (b.CreateAccount env user).2.count = _ ∧ (b.CreateAccount env user).2.txs = _ ∧
        (b.CreateAccount env user).2.search = _
      cases hr : (b.CreateAccount env user).1 with
      | error e => rw [CreateAccount_error_state hr]; exact ⟨rfl, rfl, rfl⟩
      | ok r =>
        obtain ⟨nonce, -, -, -, -, -, -, heq⟩ := CreateAccount_ok_inv hr
        rw [heq]
        exact ⟨rfl, rfl, rfl⟩
    | getNonce account pwd =>
      show (b.GetNonce env account pwd).2.count = _ ∧ (b.GetNonce env account pwd).2.txs = _ ∧
        (b.GetNonce env account pwd).2.search = _
      cases hr : (b.GetNonce env account pwd).1 with
      | error e => rw [GetNonce_error_state hr]; exact ⟨rfl, rfl, rfl⟩
      | ok r =>
        obtain ⟨user, -, -, -, -, -, heq⟩ := GetNonce_ok_inv hr
        rw [heq]
        exact ⟨rfl, rfl, rfl⟩
    | deposit tx nonce =>
      show (b.Deposit env tx nonce).2.count = _ ∧ (b.Deposit env tx nonce).2.txs = _ ∧
        (b.Deposit env tx nonce).2.search = _
      cases hr : (b.Deposit env tx nonce).1 with
      | error e => rw [Deposit_error_state hr]; exact ⟨rfl, rfl, rfl⟩
      | ok r => simp [bank.stepTx, bank.committed, hr] at h
    | withdraw tx nonce =>
      show (b.Withdraw env tx nonce).2.count = _ ∧ (b.Withdraw env tx nonce).2.txs = _ ∧
        (b.Withdraw env tx nonce).2.search = _
      cases hr : (b.Withdraw env tx nonce).1 with
      | error e => rw [Withdraw_error_state hr]; exact ⟨rfl, rfl, rfl⟩
      | ok r => simp [bank.stepTx, bank.committed, hr] at h
    | transaction tx nonce =>
      show (b.Transaction env tx nonce).2.count = _ ∧ (b.Transaction env tx nonce).2.txs = _ ∧
        (b.Transaction env tx nonce).2.search = _
      cases hr : (b.Transaction env tx nonce).1 with
      | error e => rw [Transaction_error_state hr]; exact ⟨rfl, rfl, rfl⟩
      | ok r => simp [bank.stepTx, bank.committed, hr] at h

/-! ## The counter beyond the capacity of the log

The log keeps one map record per committed movement and never deletes one, so
an execution of the program commits far fewer than 2^64 movements: a Go map
holds at most as many records as an `int` counts, and memory much fewer.  The
ledger of this development is a function and has no such capacity, which is why
the statements about identifiers carry the bound on the number of commits as a
hypothesis.  Beyond it the counter of the model, a `uint64`, wraps around. -/

/-- Beyond the capacity of any log: in the run that creates "a" and "b",
deposits once to "a" and then 2^64 - 1 times to "b", all 2^64 deposits succeed,
and the 2^64-th of them returns the identifier 0. -/
theorem counter_wraps_in_long_run :
    (NewBank.trace (longRun 18446744073709551615)).length = 18446744073709551616 ∧
    ((NewBank.trace (longRun 18446744073709551615)).map
      (fun t => t.ID))[18446744073709551615]? = some 0 := by
  have hlen : (NewBank.trace (longRun 18446744073709551615)).length = 18446744073709551616 :=
    (longRun_facts 18446744073709551615).1
  refine ⟨hlen, ?_⟩
  rw [trace_ids _ _ (by rw [hlen]; norm_num)]

/-! ## C11: the identifiers follow the number of commits -/

/-- C11: starting from NewBank's initial state, for every sequence of
sequentially executed engine calls, the k-th successful
Deposit/Withdraw/Transaction returns a transaction whose ID is k, and after the
N successes the keys of the log are exactly 1, ..., N; a call that commits
nothing (every failing call) leaves the counter and the log as they were.  The
sequence is any whose log the program can hold: one with fewer than 2^64
successful movements, each of which leaves a record in the log. -/
theorem C11_identifiers_follow_commits (cs : List (Env × Op))
    (hN : (NewBank.trace cs).length < 18446744073709551616) :
    (NewBank.trace cs).map (fun t => t.ID) = List.range' 1 (NewBank.trace cs).length ∧
    (∀ k, ((NewBank.run cs).txs k).isSome = true ↔
      (1 ≤ k ∧ k ≤ (NewBank.trace cs).length)) ∧
    (∀ (b : bank) (env : Env) (op : Op), b.stepTx env op = none →
      (b.step env op).count = b.count ∧ (b.step env op).txs = b.txs) := by
  refine ⟨?_, ?_, fun b env op h => ⟨(step_no_commit b env op h).1,
    (step_no_commit b env op h).2.1⟩⟩
  · apply List.ext_getElem?
    intro i
    by_cases hi : i < (NewBank.trace cs).length
    · rw [trace_ids cs i hi, List.getElem?_range' 1 1 hi]
      congr 1
      omega
    · rw [List.getElem?_eq_none (by simpa using hi), List.getElem?_eq_none (by simpa using hi)]
  · intro k
    rw [(Consistent_reached cs).log hN k]
    by_cases hk0 : k = 0
    · simp [hk0]
    · simp only [hk0, if_false]
      by_cases hlt : k - 1 < (NewBank.trace cs).length
      · rw [List.getElem?_eq_getElem hlt]
        simp
        omega
      · rw [List.getElem?_eq_none (by omega)]
        simp
        omega

/-- Witness of C11: in `shortRun` two deposits succeed and three calls fail or
only read; the identifiers returned are 1 and 2 and the log has exactly the
keys 1 and 2. -/
theorem C11_witness :
    (NewBank.trace shortRun).map (fun t => t.ID) = [1, 2] ∧
    ((NewBank.trace shortRun).map (fun t => t.ID) =
        List.range' 1 (NewBank.trace shortRun).length ∧
      (∀ k, ((NewBank.run shortRun).txs k).isSome = true ↔
        (1 ≤ k ∧ k ≤ (NewBank.trace shortRun).length)) ∧
      (∀ (b : bank) (env : Env) (op : Op), b.stepTx env op = none →
        (b.step env op).count = b.count ∧ (b.step env op).txs = b.txs)) :=
  ⟨by rfl, C11_identifiers_follow_commits shortRun (by decide)⟩

/-! ## C12: the log is append-only -/

/-- A call that commits a transaction stores it under the current counter and
advances the counter; the record carries the counter as its identifier. -/
theorem step_commit (b : bank) (env : Env) (op : Op) (t : proto.Transaction)
    (h : b.stepTx env op = some t) :
    t.ID = b.count ∧ (b.step env op).txs = Function.update b.txs b.count (some t) ∧
    (b.step env op).count = wrapUint64 (b.count + 1) := by
  cases op with
  | getBalance a => simp [bank.stepTx] at h
  | getTransactions a => simp [bank.stepTx] at h
  | call c =>
    cases c with
    | createAccount user => simp [bank.stepTx, bank.committed] at h
    | getNonce account pwd => simp [bank.stepTx, bank.committed] at h
    | deposit tx nonce =>
      show _ ∧ (b.Deposit env tx nonce).2.txs = _ ∧ (b.Deposit env tx nonce).2.count = _
      cases hr : (b.Deposit env tx nonce).1 with
      | error e => simp [bank.stepTx, bank.committed, hr] at h
      | ok r =>
        obtain ⟨user, newNonce, -, -, -, -, -, -, -, heq⟩ := Deposit_ok_inv hr
        simp only [bank.stepTx, bank.committed, hr, Option.some.injEq] at h
        rw [heq] at hr
        have hr2 := congrArg Prod.fst (Except.ok.inj hr)
        rw [h] at hr2
        rw [heq, ← hr2]
        exact ⟨rfl, rfl, rfl⟩
    | withdraw tx nonce =>
      show _ ∧ (b.Withdraw env tx nonce).2.txs = _ ∧ (b.Withdraw env tx nonce).2.count = _
      cases hr : (b.Withdraw env tx nonce).1 with
      | error e => simp [bank.stepTx, bank.committed, hr] at h
      | ok r =>
        obtain ⟨user, newNonce, -, -, -, -, -, -, -, -, heq⟩ := Withdraw_ok_inv hr
        simp only [bank.stepTx, bank.committed, hr, Option.some.injEq] at h
        rw [heq] at hr
        have hr2 := congrArg Prod.fst (Except.ok.inj hr)
        rw [h] at hr2
        rw [heq, ← hr2]
        exact ⟨rfl, rfl, rfl⟩
    | transaction tx nonce =>
      show _ ∧ (b.Transaction env tx nonce).2.txs = _ ∧ (b.Transaction env tx nonce).2.count = _
      cases hr : (b.Transaction env tx nonce).1 with
      | error e => simp [bank.stepTx, bank.committed, hr] at h
      | ok r =>
        obtain ⟨f, u, newNonce, -, -, -, -, -, -, -, -, -, heq⟩ := Transaction_ok_inv hr
        simp only [bank.stepTx, bank.committed, hr, Option.some.injEq] at h
        rw [heq] at hr
        have hr2 := congrArg Prod.fst (Except.ok.inj hr)
        rw [h] at hr2
        rw [heq, ← hr2]
        exact ⟨rfl, rfl, rfl⟩

/-- In a ledger reached by fewer than 2^64 commits the key the counter points
at is not in the log. -/
theorem next_key_free (cs : List (Env × Op))
    (hN : (NewBank.trace cs).length < 18446744073709551616) :
    (NewBank.run cs).txs (NewBank.run cs).count = none := by
  have hC := Consistent_reached cs
  rw [hC.log hN, hC.count_eq]
  by_cases h0 : ((NewBank.trace cs).length + 1) % 18446744073709551616 = 0
  · simp [h0]
  · simp only [h0, if_false]
    exact List.getElem?_eq_none (by omega)

/-- C12: in every state reached from NewBank's initial state by fewer than
2^64 successful money movements, no engine call modifies or removes a record
already in the log: a successful Deposit/Withdraw/Transaction inserts exactly
one record, under a key that was not present before, and every other call
(every failing call included) leaves the log unchanged. -/
theorem C12_log_is_append_only (cs : List (Env × Op))
    (hN : (NewBank.trace cs).length < 18446744073709551616) (env : Env) (op : Op) :
    (∀ k t, (NewBank.run cs).txs k = some t →
      ((NewBank.run cs).step env op).txs k = some t) ∧
    (∀ t, (NewBank.run cs).stepTx env op = some t →
      (NewBank.run cs).txs t.ID = none ∧
      ((NewBank.run cs).step env op).txs =
        Function.update (NewBank.run cs).txs t.ID (some t)) ∧
    ((NewBank.run cs).stepTx env op = none →
      ((NewBank.run cs).step env op).txs = (NewBank.run cs).txs) := by
  have hfree := next_key_free cs hN
  refine ⟨?_, ?_, fun h => (step_no_commit _ env op h).2.1⟩
  · intro k t hk
    cases hc : (NewBank.run cs).stepTx env op with
    | none => rw [(step_no_commit _ env op hc).2.1]; exact hk
    | some t1 =>
      obtain ⟨-, htxs, -⟩ := step_commit _ env op t1 hc
      rw [htxs, Function.update_noteq]
      · exact hk
      · intro hkc
        rw [hkc, hfree] at hk
        cases hk
  · intro t hc
    obtain ⟨hid, htxs, -⟩ := step_commit _ env op t hc
    rw [hid]
    exact ⟨hfree, htxs⟩

/-- Witness of C12: after `shortRun` (two commits) a further deposit stores its
record under the free key 3 and keeps the records 1 and 2. -/
theorem C12_witness :
    (NewBank.run shortRun).stepTx (depositOp "a").1 (depositOp "a").2 =
      some { depositTx 1 with ID := 3, State := 1 } ∧
    ((∀ k t, (NewBank.run shortRun).txs k = some t →
        ((NewBank.run shortRun).step (depositOp "a").1 (depositOp "a").2).txs k = some t) ∧
      (∀ t, (NewBank.run shortRun).stepTx (depositOp "a").1 (depositOp "a").2 = some t →
        (NewBank.run shortRun).txs t.ID = none ∧
        ((NewBank.run shortRun).step (depositOp "a").1 (depositOp "a").2).txs =
          Function.update (NewBank.run shortRun).txs t.ID (some t)) ∧
      ((NewBank.run shortRun).stepTx (depositOp "a").1 (depositOp "a").2 = none →
        ((NewBank.run shortRun).step (depositOp "a").1 (depositOp "a").2).txs =
          (NewBank.run shortRun).txs)) :=
  ⟨by rfl, C12_log_is_append_only shortRun (by decide) (depositOp "a").1 (depositOp "a").2⟩

/-! ## C13: the history of an account -/

theorem touches_of_ne (a : String) (t : proto.Transaction)
    (h : ¬(t.From = a ∧ t.To = a)) :
    touches a t = if names a t = true then [t.ID] else [] := by
  unfold touches names
  by_cases hf : t.From = a
  · have ht : t.To ≠ a := fun ht => h ⟨hf, ht⟩
    simp [hf, ht]
  · by_cases ht : t.To = a <;> simp [hf, ht]

theorem flatMap_touches (a : String) (T : List proto.Transaction)
    (h : ∀ t ∈ T, ¬(t.From = a ∧ t.To = a)) :
    T.flatMap (touches a) = (T.filter (names a)).map (fun t => t.ID) := by
  induction T with
  | nil => rfl
  | cons t rest ih =>
    rw [List.flatMap_cons, ih (fun x hx => h x (List.mem_cons_of_mem _ hx)),
      touches_of_ne a t (h t (List.mem_cons_self _ _))]
    by_cases hn : names a t = true
    · simp [hn, List.filter_cons]
    · simp [hn, List.filter_cons]

theorem filterMap_self {α : Type} (f : α → Option α) (l : List α)
    (h : ∀ x ∈ l, f x = some x) : l.filterMap f = l := by
  induction l with
  | nil => rfl
  | cons x rest ih =>
    rw [List.filterMap_cons, h x (List.mem_cons_self _ _)]
    simp only
    rw [ih (fun y hy => h y (List.mem_cons_of_mem _ hy))]

/-- While fewer than 2^64 commits were made, every committed transaction is in
the log under its own identifier. -/
theorem logged_of_mem {T : List proto.Transaction} {b : bank} (hC : b.Consistent T)
    (hN : T.length < 18446744073709551616) (t : proto.Transaction) (ht : t ∈ T) :
    b.txs t.ID = some t := by
  obtain ⟨i, hi⟩ := List.mem_iff_getElem?.mp ht
  have hlt : i < T.length := by
    by_contra hge
    rw [List.getElem?_eq_none (by omega)] at hi
    cases hi
  have hid : t.ID = i + 1 := by
    rw [hC.ids i t hi]
    omega
  rw [hC.log hN, hid]
  simpa using hi

theorem range_filterMap_getElem (T : List proto.Transaction) (p : proto.Transaction → Bool) :
    (List.range' 1 T.length).filterMap (fun k => (T[k - 1]?).filter p) = T.filter p := by
  induction T using List.reverseRecOn with
  | nil => rfl
  | append_singleton l x ih =>
    rw [List.length_append, List.length_singleton, List.range'_concat, List.filterMap_append,
      List.filter_append]
    congr 1
    · rw [← ih]
      apply List.filterMap_congr
      intro k hk
      rw [List.mem_range'_1] at hk
      rw [List.getElem?_append_left (by omega)]
    · simp only [Nat.one_mul, List.filterMap_cons, List.filterMap_nil]
      have h1 : 1 + l.length - 1 = l.length := by omega
      rw [h1, List.getElem?_concat_length]
      by_cases hp : p x = true
      · simp [Option.filter, hp, List.filter_cons]
      · simp [Option.filter, hp, List.filter_cons]

theorem run_singleton (b : bank) (eo : Env × Op) : b.run [eo] = b.step eo.1 eo.2 := rfl

theorem GetTransactions_of {b : bank} {a : String} {u : proto.User}
    (ha : utils.IsEmpty a = false) (hu : b.users a = some u) :
    b.GetTransactions a = ((b.search.Get a).filterMap b.txs, none) := by
  simp [bank.GetTransactions, ha, hu]

theorem longRun_succ (n : Nat) : longRun (n + 1) = longRun n ++ [depositOp "b"] := by
  unfold longRun
  rw [List.replicate_succ', List.append_assoc]

/-- After 2^64 deposits to "b" in `longRun` the key 1, under which the deposit
to "a" was logged, holds a deposit to "b". -/
theorem longRun_overwrites :
    (NewBank.run (longRun 18446744073709551616)).txs 1 = some (depositRecB 1) := by
  have hsplit : longRun 18446744073709551616 =
      longRun 18446744073709551615 ++ [depositOp "b"] := longRun_succ 18446744073709551615
  obtain ⟨hlen, ⟨u, hu, ha, hn⟩, -, -⟩ := longRun_facts 18446744073709551615
  have hcount : (NewBank.run (longRun 18446744073709551615)).count = 1 := by
    rw [(Consistent_reached (longRun 18446744073709551615)).count_eq, hlen]
  rw [hsplit, run_append, run_singleton]
  generalize NewBank.run (longRun 18446744073709551615) = s at hu hcount ⊢
  obtain ⟨-, v, -, -, hst⟩ := depositB_step s u hu ha hn
  rw [hst, hcount]
  show Function.update s.txs 1 (some (depositRecB 1)) 1 = some (depositRecB 1)
  exact Function.update_same _ _ _

/-- An account whose index sequence is the single identifier 1 has the record
logged under 1 as its whole history. -/
theorem history_of_single (s : bank) (a : String) (u : proto.User) (t : proto.Transaction)
    (ha : utils.IsEmpty a = false) (hu : s.users a = some u)
    (hidx : s.search.Get a = [1]) (htx : s.txs 1 = some t) :
    s.GetTransactions a = ([t], none) := by
  rw [GetTransactions_of ha hu, hidx]
  simp [htx]

/-- Beyond the capacity of any log: after `longRun` with 2^64 deposits to "b"
the counter has wrapped around and the history of "a" consists of a deposit to
"b", a transaction that names "a" neither as source nor as destination. -/
theorem history_after_wrap :
    (NewBank.run (longRun 18446744073709551616)).GetTransactions "a" =
        ([depositRecB 1], none) ∧
      names "a" (depositRecB 1) = false := by
  refine ⟨?_, by decide⟩
  obtain ⟨-, -, hua, hidx⟩ := longRun_facts 18446744073709551616
  exact history_of_single _ "a" _ _ (by decide) hua hidx longRun_overwrites

/-- C13, as stated, fails for an account that transfers to itself: after
creating "a" and transferring 10 from "a" to "a", one transaction is committed
and logged, and the history of "a" holds it twice. -/
theorem C13_counterexample_self_transfer :
    (NewBank.trace selfTransferRun).length = 1 ∧
    (NewBank.run selfTransferRun).txs 1 =
      some { transferTx "a" "a" 10 with ID := 1, State := 1 } ∧
    (NewBank.run selfTransferRun).GetTransactions "a" =
      ([{ transferTx "a" "a" 10 with ID := 1, State := 1 },
        { transferTx "a" "a" 10 with ID := 1, State := 1 }], none) :=
  ⟨by rfl, by rfl, by rfl⟩

/-- C13 (amended): in every state reached from NewBank's initial state by
sequential engine calls, for every existing account a that no successful
transfer of the run names as both its source and its destination,
GetTransactions(a) returns without error the list of exactly those logged
transactions whose From or To is a, each once, in increasing order of
transaction ID, which is the order of commit; its length is the number of
successful operations that name a.  Transfers of other accounts to themselves
do not matter.  The run is any whose log the program can hold: one with fewer
than 2^64 successful movements. -/
theorem C13_history_lists_the_commits (cs : List (Env × Op))
    (hN : (NewBank.trace cs).length < 18446744073709551616)
    (a : String) (u : proto.User) (hu : (NewBank.run cs).users a = some u)
    (hself : ∀ t ∈ NewBank.trace cs, ¬(t.From = a ∧ t.To = a)) :
    (NewBank.run cs).GetTransactions a =
      ((List.range' 1 (NewBank.trace cs).length).filterMap
        (fun k => ((NewBank.run cs).txs k).filter (names a)), none) ∧
    ((NewBank.run cs).GetTransactions a).1 = (NewBank.trace cs).filter (names a) ∧
    (((NewBank.run cs).GetTransactions a).1.map (fun t => t.ID)).Pairwise (fun x y => x < y) ∧
    ((NewBank.run cs).GetTransactions a).1.length = (NewBank.trace cs).countP (names a) := by
  have hC := Consistent_reached cs
  have hne : utils.IsEmpty a = false := hC.named a u hu
  have hhist : (NewBank.run cs).GetTransactions a =
      ((NewBank.trace cs).filter (names a), none) := by
    rw [GetTransactions_of hne hu, hC.index a hne, flatMap_touches a _ hself,
      List.filterMap_map]
    congr 1
    apply filterMap_self
    intro t ht
    exact logged_of_mem hC hN t (List.mem_of_mem_filter ht)
  have hlog : (List.range' 1 (NewBank.trace cs).length).filterMap
      (fun k => ((NewBank.run cs).txs k).filter (names a)) =
      (NewBank.trace cs).filter (names a) := by
    rw [← range_filterMap_getElem (NewBank.trace cs) (names a)]
    apply List.filterMap_congr
    intro k hk
    rw [List.mem_range'_1] at hk
    rw [hC.log hN k]
    have hk0 : k ≠ 0 := by omega
    simp [hk0]
  refine ⟨by rw [hhist, hlog], by rw [hhist], ?_, ?_⟩
  · rw [hhist]
    have hsub : List.Sublist (((NewBank.trace cs).filter (names a)).map (fun t => t.ID))
        ((NewBank.trace cs).map (fun t => t.ID)) := (List.filter_sublist _).map _
    have hids : (NewBank.trace cs).map (fun t => t.ID) =
        List.range' 1 (NewBank.trace cs).length := by
      apply List.ext_getElem?
      intro i
      by_cases hi : i < (NewBank.trace cs).length
      · rw [trace_ids cs i hi, List.getElem?_range' 1 1 hi]
        congr 1
        omega
      · rw [List.getElem?_eq_none (by simpa using hi),
          List.getElem?_eq_none (by simpa using hi)]
    rw [hids] at hsub
    exact List.Pairwise.sublist hsub (List.pairwise_lt_range' 1 _)
  · rw [hhist, List.countP_eq_length_filter]

/-- Witness of C13: in `otherSelfTransferRun` account "b" transfers to itself;
the history of "a" is its deposit and its transfer to "b", in the order of
their identifiers 2 and 3. -/
theorem C13_witness :
    (NewBank.trace otherSelfTransferRun).map (fun t => (t.ID, t.From, t.To)) =
      [(1, "b", "b"), (2, "", "a"), (3, "a", "b")] ∧
    (NewBank.run otherSelfTransferRun).GetTransactions "a" =
      ([{ depositTx 1 with ID := 2, State := 1 },
        { transferTx "a" "b" 5 with ID := 3, State := 1 }], none) ∧
    ((NewBank.run otherSelfTransferRun).GetTransactions "a" =
        ((List.range' 1 (NewBank.trace otherSelfTransferRun).length).filterMap
          (fun k => ((NewBank.run otherSelfTransferRun).txs k).filter (names "a")), none) ∧
      ((NewBank.run otherSelfTransferRun).GetTransactions "a").1 =
        (NewBank.trace otherSelfTransferRun).filter (names "a") ∧
      (((NewBank.run otherSelfTransferRun).GetTransactions "a").1.map
        (fun t => t.ID)).Pairwise (fun x y => x < y) ∧
      ((NewBank.run otherSelfTransferRun).GetTransactions "a").1.length =
        (NewBank.trace otherSelfTransferRun).countP (names "a")) :=
  ⟨by rfl, by rfl,
   C13_history_lists_the_commits otherSelfTransferRun (by decide) "a"
     { newUserA 100 with Balance := 96, Nonce := zeroNonce } (by rfl) (by decide)⟩

/-! ## C14: GetTransactions on empty, unknown and untouched accounts -/

theorem flatMap_touches_nil (a : String) (T : List proto.Transaction)
    (h : ∀ t ∈ T, names a t = false) : T.flatMap (touches a) = [] := by
  induction T with
  | nil => rfl
  | cons t rest ih =>
    rw [List.flatMap_cons, ih (fun x hx => h x (List.mem_cons_of_mem _ hx))]
    have ht := h t (List.mem_cons_self _ _)
    simp only [names, Bool.or_eq_false_iff, decide_eq_false_iff_not] at ht
    simp [touches, ht.1, ht.2]

/-- C14: GetTransactions returns ErrEmptyAccount when the identifier is empty,
ErrAccountNotExist when it is non-empty and no such account exists, and the
empty list with no error for an existing account whose index sequence is empty,
which in a ledger reached from NewBank is every existing account that no
committed transaction names; the call leaves the ledger state as it was. -/
theorem C14_GetTransactions_edge_cases (b : bank) (account : String) :
    (utils.IsEmpty account = true →
      b.GetTransactions account = ([], some .ErrEmptyAccount)) ∧
    (utils.IsEmpty account = false → b.users account = none →
      b.GetTransactions account = ([], some .ErrAccountNotExist)) ∧
    (utils.IsEmpty account = false → ∀ u, b.users account = some u →
      b.search.Get account = [] → b.GetTransactions account = ([], none)) ∧
    (∀ (cs : List (Env × Op)) (u : proto.User), (NewBank.run cs).users account = some u →
      (∀ t ∈ NewBank.trace cs, names account t = false) →
      (NewBank.run cs).GetTransactions account = ([], none)) ∧
    (∀ env, b.step env (.getTransactions account) = b) := by
  refine ⟨?_, ?_, ?_, ?_, fun _ => rfl⟩
  · intro h
    simp [bank.GetTransactions, h]
  · intro h hu
    simp [bank.GetTransactions, h, hu]
  · intro h u hu hidx
    rw [GetTransactions_of h hu, hidx]
    rfl
  · intro cs u hu hno
    have hC := Consistent_reached cs
    have hne := hC.named account u hu
    rw [GetTransactions_of hne hu, hC.index account hne, flatMap_touches_nil account _ hno]
    rfl

/-- Witness of C14: on the ledger holding "a" and "b" with an empty index, the
identifier of spaces is rejected as empty, "c" does not exist, and "b" has the
empty history. -/
theorem C14_witness :
    (twoAccounts 100 10).GetTransactions "  " = ([], some .ErrEmptyAccount) ∧
    (twoAccounts 100 10).GetTransactions "c" = ([], some .ErrAccountNotExist) ∧
    (twoAccounts 100 10).GetTransactions "b" = ([], none) ∧
    (NewBank.run shortRun).GetTransactions "a" ≠ ([], none) :=
  ⟨(C14_GetTransactions_edge_cases (twoAccounts 100 10) "  ").1 (by decide),
   (C14_GetTransactions_edge_cases (twoAccounts 100 10) "c").2.1 (by decide) (by rfl),
   (C14_GetTransactions_edge_cases (twoAccounts 100 10) "b").2.2.1 (by decide) (acctB 10)
     (by rfl) (by rfl),
   by decide⟩

/-! ## C15, C16: CreateAccount -/

/-- C15: with the generator succeeding, the outcome of CreateAccount is decided
by the first failing check, in this order: identifier empty gives
ErrEmptyAccount; else password empty gives ErrEmptyPwd; else balance <= 0 (zero
included) gives ErrNegativeBalance; else identifier already present gives
ErrAccountExist; otherwise the account is created.  In every failing case the
ledger, and with it the account store and the existing record of a duplicate
identifier, is what it was. -/
theorem C15_create_account_check_order (b : bank) (env : Env) (user : proto.User)
    (nonce : String) (hg : utils.GenerateNonce NonceLen env.rand = .ok nonce) :
    (utils.IsEmpty user.Account = true →
      (b.CreateAccount env user).1 = .error .ErrEmptyAccount ∧
      (b.CreateAccount env user).2 = b) ∧
    (utils.IsEmpty user.Account = false → utils.IsEmpty user.Password = true →
      (b.CreateAccount env user).1 = .error .ErrEmptyPwd ∧
      (b.CreateAccount env user).2 = b) ∧
    (utils.IsEmpty user.Account = false → utils.IsEmpty user.Password = false →
      user.Balance ≤ 0 →
      (b.CreateAccount env user).1 = .error .ErrNegativeBalance ∧
      (b.CreateAccount env user).2 = b) ∧
    (utils.IsEmpty user.Account = false → utils.IsEmpty user.Password = false →
      0 < user.Balance → ∀ old, b.users user.Account = some old →
      (b.CreateAccount env user).1 = .error .ErrAccountExist ∧
      (b.CreateAccount env user).2 = b ∧
      (b.CreateAccount env user).2.users user.Account = some old) ∧
    (utils.IsEmpty user.Account = false → utils.IsEmpty user.Password = false →
      0 < user.Balance → b.users user.Account = none →
      ∃ r, (b.CreateAccount env user).1 = .ok r) := by
  have hB : (if utils.IsEmpty user.Name = true then
      ({ user with Name := "anonymous" } : proto.User) else user).Balance = user.Balance := by
    split <;> rfl
  have hA : (if utils.IsEmpty user.Name = true then
      ({ user with Name := "anonymous" } : proto.User) else user).Account = user.Account := by
    split <;> rfl
  refine ⟨?_, ?_, ?_, ?_, ?_⟩
  · intro h1
    simp [bank.CreateAccount, h1]
  · intro h1 h2
    simp [bank.CreateAccount, h1, h2]
  · intro h1 h2 h3
    simp [bank.CreateAccount, h1, h2, hB, h3]
  · intro h1 h2 h3 old hold
    have hres : b.CreateAccount env user = (.error .ErrAccountExist, b) := by
      simp [bank.CreateAccount, h1, h2, hB, hA, not_le.mpr h3, hg, hold]
    rw [hres]
    exact ⟨rfl, rfl, hold⟩
  · intro h1 h2 h3 hnew
    rw [CreateAccount_eq_ok h1 h2 h3 hg hnew]
    exact ⟨_, rfl⟩

/-- Witness of C15: a balance of zero is refused with ErrNegativeBalance, and
creating "a" on a ledger that already holds "a" is refused with
ErrAccountExist and leaves the existing record. -/
theorem C15_witness :
    (NewBank.CreateAccount (envOf []) (newUserA 0)).1 = .error .ErrNegativeBalance ∧
    ((oneAccount 100).CreateAccount (envOf []) (newUserA 5)).1 = .error .ErrAccountExist ∧
    ((oneAccount 100).CreateAccount (envOf []) (newUserA 5)).2 = oneAccount 100 ∧
    ((oneAccount 100).CreateAccount (envOf []) (newUserA 5)).2.users "a" =
      some (acctA 100 "n1") :=
  ⟨((C15_create_account_check_order NewBank (envOf []) (newUserA 0) zeroNonce (by rfl)).2.2.1
      (by decide) (by decide) (by decide)).1,
   (C15_create_account_check_order (oneAccount 100) (envOf []) (newUserA 5) zeroNonce
      (by rfl)).2.2.2.1 (by decide) (by decide) (by decide) (acctA 100 "n1") (by rfl)⟩

/-- C16: after a successful CreateAccount the record stored under the
identifier is the returned record; it carries the given identifier, password
and balance, the given name or "anonymous" when the given name is empty, and
the freshly generated nonce, which is not empty; every other account is
unchanged and GetBalance of the new account returns the given balance. -/
theorem C16_create_account_success (b : bank) (env : Env) (user r : proto.User)
    (hok : (b.CreateAccount env user).1 = .ok r) :
    (b.CreateAccount env user).2.users user.Account = some r ∧
    r.Account = user.Account ∧ r.Password = user.Password ∧ r.Balance = user.Balance ∧
    r.Name = (if utils.IsEmpty user.Name then "anonymous" else user.Name) ∧
    utils.GenerateNonce NonceLen env.rand = .ok r.Nonce ∧
    utils.IsEmpty r.Nonce = false ∧ r.Nonce ≠ "" ∧
    (∀ a, a ≠ user.Account → (b.CreateAccount env user).2.users a = b.users a) ∧
    (b.CreateAccount env user).2.GetBalance user.Account = .ok user.Balance := by
  obtain ⟨nonce, hacc, -, -, hg, -, hrec, heq⟩ := CreateAccount_ok_inv hok
  have hn : r.Nonce = nonce := by rw [hrec]
  have hne : utils.IsEmpty r.Nonce = false := by rw [hn]; exact GenerateNonce_not_empty hg
  have hst : (b.CreateAccount env user).2.users =
      Function.update b.users user.Account (some r) := by rw [heq]
  refine ⟨?_, by rw [hrec], by rw [hrec], by rw [hrec], by rw [hrec], by rw [hn]; exact hg,
    hne, ?_, ?_, ?_⟩
  · rw [hst, Function.update_same]
  · intro h
    rw [h] at hne
    revert hne
    decide
  · intro a ha
    rw [hst, Function.update_noteq ha]
  · rw [GetBalance_of hacc (by rw [hst, Function.update_same]), hrec]

/-- Witness of C16: creating "a" with balance 100 on the initial ledger. -/
theorem C16_witness :
    (NewBank.CreateAccount (envOf []) (newUserA 100)).2.users "a" =
      some { newUserA 100 with Nonce := zeroNonce } ∧
    (NewBank.CreateAccount (envOf []) (newUserA 100)).2.GetBalance "a" = .ok 100 :=
  ⟨(C16_create_account_success NewBank (envOf []) (newUserA 100)
      { newUserA 100 with Nonce := zeroNonce } (by rfl)).1,
   (C16_create_account_success NewBank (envOf []) (newUserA 100)
      { newUserA 100 with Nonce := zeroNonce } (by rfl)).2.2.2.2.2.2.2.2.2⟩

/-! ## C17, C18: GetNonce -/

/-- C17: with the generator succeeding, GetNonce returns ErrEmptyAccount if the
account is empty; else ErrEmptyPwd if the password is empty; else ErrVerify if
the account does not exist or its stored password differs from the supplied
one; otherwise it succeeds, and the returned nonce is the nonce stored on the
account afterwards. -/
theorem C17_get_nonce_check_order (b : bank) (env : Env) (account pwd nonce : String)
    (hg : utils.GenerateNonce NonceLen env.rand = .ok nonce) :
    (utils.IsEmpty account = true →
      (b.GetNonce env account pwd).1 = .error .ErrEmptyAccount) ∧
    (utils.IsEmpty account = false → utils.IsEmpty pwd = true →
      (b.GetNonce env account pwd).1 = .error .ErrEmptyPwd) ∧
    (utils.IsEmpty account = false → utils.IsEmpty pwd = false →
      (b.users account = none ∨ ∃ u, b.users account = some u ∧ u.Password ≠ pwd) →
      (b.GetNonce env account pwd).1 = .error .ErrVerify) ∧
    (utils.IsEmpty account = false → utils.IsEmpty pwd = false →
      ∀ u, b.users account = some u → u.Password = pwd →
      (b.GetNonce env account pwd).1 = .ok nonce ∧
      (b.GetNonce env account pwd).2.nonceOf account = some nonce) := by
  refine ⟨?_, ?_, ?_, ?_⟩
  · intro h1
    simp [bank.GetNonce, h1]
  · intro h1 h2
    simp [bank.GetNonce, h1, h2]
  · intro h1 h2 h3
    rcases h3 with h3 | ⟨u, hu, h3⟩
    · simp [bank.GetNonce, h1, h2, h3]
    · simp [bank.GetNonce, h1, h2, hu, h3]
  · intro h1 h2 u hu hp
    rw [GetNonce_eq_ok h1 h2 hu hp hg]
    refine ⟨rfl, ?_⟩
    simp [bank.nonceOf]

/-- Witness of C17: on the account "a" with password "pw", the password "x" is
refused with ErrVerify and "pw" obtains the generated nonce, which is then the
stored one. -/
theorem C17_witness :
    ((oneAccount 100).GetNonce (envOf []) "a" "x").1 = .error .ErrVerify ∧
    ((oneAccount 100).GetNonce (envOf []) "a" "pw").1 = .ok zeroNonce ∧
    ((oneAccount 100).GetNonce (envOf []) "a" "pw").2.nonceOf "a" = some zeroNonce :=
  ⟨(C17_get_nonce_check_order (oneAccount 100) (envOf []) "a" "x" zeroNonce (by rfl)).2.2.1
      (by decide) (by decide) (Or.inr ⟨acctA 100 "n1", by rfl, by decide⟩),
   (C17_get_nonce_check_order (oneAccount 100) (envOf []) "a" "pw" zeroNonce (by rfl)).2.2.2
      (by decide) (by decide) (acctA 100 "n1") (by rfl) (by rfl)⟩

/-- C18: after a successful GetNonce on account a has returned n, the nonce
stored on a is n, and every Deposit (To = a, From empty), Withdraw (From = a,
To empty) or Transaction (From = a, To not empty) with a positive amount that
presents a non-empty nonce other than n returns ErrVerify; presenting n, the
Deposit and the Withdraw pass verification, and so does the Transaction when
the receiver exists. -/
theorem C18_only_the_issued_nonce_verifies (b : bank) (env : Env) (a pwd n : String)
    (hok : (b.GetNonce env a pwd).1 = .ok n) :
    (b.GetNonce env a pwd).2.nonceOf a = some n ∧
    (∀ (env2 : Env) (tx : proto.Transaction) (m : String),
      0 < tx.Amount → utils.IsEmpty m = false → m ≠ n →
      (utils.IsEmpty tx.From = true → tx.To = a →
        ((b.GetNonce env a pwd).2.Deposit env2 tx m).1 = .error .ErrVerify) ∧
      (tx.From = a → utils.IsEmpty tx.To = true →
        ((b.GetNonce env a pwd).2.Withdraw env2 tx m).1 = .error .ErrVerify) ∧
      (tx.From = a → utils.IsEmpty tx.To = false →
        ((b.GetNonce env a pwd).2.Transaction env2 tx m).1 = .error .ErrVerify)) ∧
    (∀ (env2 : Env) (tx : proto.Transaction), 0 < tx.Amount →
      (utils.IsEmpty tx.From = true → tx.To = a →
        ((b.GetNonce env a pwd).2.Deposit env2 tx n).1 ≠ .error .ErrVerify) ∧
      (tx.From = a → utils.IsEmpty tx.To = true →
        ((b.GetNonce env a pwd).2.Withdraw env2 tx n).1 ≠ .error .ErrVerify) ∧
      (tx.From = a → utils.IsEmpty tx.To = false →
        (b.GetNonce env a pwd).2.users tx.To ≠ none →
        ((b.GetNonce env a pwd).2.Transaction env2 tx n).1 ≠ .error .ErrVerify)) := by
  obtain ⟨user, ha, -, hu, -, hg, heq⟩ := GetNonce_ok_inv hok
  have hn : utils.IsEmpty n = false := GenerateNonce_not_empty hg
  have hst : (b.GetNonce env a pwd).2.users a =
      some { user with Nonce := n, UpdatedAt := env.now 0 } := by
    rw [heq]
    exact Function.update_same _ _ _
  generalize (b.GetNonce env a pwd).2 = b1 at hst ⊢
  refine ⟨by simp [bank.nonceOf, hst], ?_, ?_⟩
  · intro env2 tx m hpos hm hmn
    refine ⟨?_, ?_, ?_⟩
    · intro hfrom hto
      subst hto
      simp [bank.Deposit, hfrom, ha, not_le.mpr hpos, hm, hst, Ne.symm hmn]
    · intro hfrom hto
      subst hfrom
      simp [bank.Withdraw, hto, ha, not_le.mpr hpos, hm, hst, Ne.symm hmn]
    · intro hfrom hto
      subst hfrom
      cases ht : b1.users tx.To with
      | none => simp [bank.Transaction, hto, ha, not_le.mpr hpos, hm, hst, ht]
      | some t =>
        simp [bank.Transaction, hto, ha, not_le.mpr hpos, hm, hst, ht, Ne.symm hmn]
  · intro env2 tx hpos
    refine ⟨?_, ?_, ?_⟩
    · intro hfrom hto
      subst hto
      cases hgen : utils.GenerateNonce NonceLen env2.rand with
      | error e =>
        cases env2 with
        | mk rand now =>
          cases rand with
          | none => simp [bank.Deposit, hfrom, ha, not_le.mpr hpos, hn, hst, utils.GenerateNonce]
          | some src => simp [utils.GenerateNonce] at hgen
      | ok n2 => simp [bank.Deposit, hfrom, ha, not_le.mpr hpos, hn, hst, hgen]
    · intro hfrom hto
      subst hfrom
      by_cases hbal : user.Balance < tx.Amount
      · simp [bank.Withdraw, hto, ha, not_le.mpr hpos, hn, hst, hbal]
      · cases hgen : utils.GenerateNonce NonceLen env2.rand with
        | error e =>
          cases env2 with
          | mk rand now =>
            cases rand with
            | none =>
              simp [bank.Withdraw, hto, ha, not_le.mpr hpos, hn, hst, hbal, utils.GenerateNonce]
            | some src => simp [utils.GenerateNonce] at hgen
        | ok n2 => simp [bank.Withdraw, hto, ha, not_le.mpr hpos, hn, hst, hbal, hgen]
    · intro hfrom hto hex
      subst hfrom
      cases ht : b1.users tx.To with
      | none => exact absurd ht hex
      | some t =>
        by_cases hbal : user.Balance < tx.Amount
        · simp [bank.Transaction, hto, ha, not_le.mpr hpos, hn, hst, ht, hbal]
        · cases hgen : utils.GenerateNonce NonceLen env2.rand with
          | error e =>
            cases env2 with
            | mk rand now =>
              cases rand with
              | none =>
                simp [bank.Transaction, hto, ha, not_le.mpr hpos, hn, hst, ht, hbal,
                  utils.GenerateNonce]
              | some src => simp [utils.GenerateNonce] at hgen
          | ok n2 =>
            simp [bank.Transaction, hto, ha, not_le.mpr hpos, hn, hst, ht, hbal, hgen]

/-- Witness of C18: on the account "a" holding "n1", GetNonce issues
`zeroNonce`; a deposit presenting the earlier nonce "n1" then fails with
ErrVerify. -/
theorem C18_witness :
    ((oneAccount 100).GetNonce (envOf []) "a" "pw").1 = .ok zeroNonce ∧
    (((oneAccount 100).GetNonce (envOf []) "a" "pw").2.Deposit (envOf [1]) (depositTx 50)
      "n1").1 = .error .ErrVerify ∧
    (((oneAccount 100).GetNonce (envOf []) "a" "pw").2.Deposit (envOf [1]) (depositTx 50)
      zeroNonce).1 ≠ .error .ErrVerify :=
  ⟨by rfl,
   ((C18_only_the_issued_nonce_verifies (oneAccount 100) (envOf []) "a" "pw" zeroNonce
      (by rfl)).2.1 (envOf [1]) (depositTx 50) "n1" (by decide) (by decide) (by decide)).1
      (by decide) (by rfl),
   ((C18_only_the_issued_nonce_verifies (oneAccount 100) (envOf []) "a" "pw" zeroNonce
      (by rfl)).2.2 (envOf [1]) (depositTx 50) (by decide)).1 (by decide) (by rfl)⟩

/-! ## C19: GetBalance -/

/-- C19: GetBalance returns ErrEmptyAccount when the identifier is empty,
ErrAccountNotExist when it is non-empty and no such account exists, and
otherwise exactly the balance stored on that account, with no error; the call
leaves the ledger state as it was. -/
theorem C19_GetBalance (b : bank) (account : String) :
    (utils.IsEmpty account = true → b.GetBalance account = .error .ErrEmptyAccount) ∧
    (utils.IsEmpty account = false → b.users account = none →
      b.GetBalance account = .error .ErrAccountNotExist) ∧
    (utils.IsEmpty account = false → ∀ u, b.users account = some u →
      b.GetBalance account = .ok u.Balance) ∧
    (∀ env, b.step env (.getBalance account) = b) := by
  refine ⟨?_, ?_, ?_, fun _ => rfl⟩
  · intro h
    simp [bank.GetBalance, h]
  · intro h hu
    simp [bank.GetBalance, h, hu]
  · intro h u hu
    exact GetBalance_of h hu

/-- Witness of C19: the three outcomes on the ledger holding "a" with 100. -/
theorem C19_witness :
    (oneAccount 100).GetBalance " " = .error .ErrEmptyAccount ∧
    (oneAccount 100).GetBalance "t" = .error .ErrAccountNotExist ∧
    (oneAccount 100).GetBalance "a" = .ok 100 :=
  ⟨(C19_GetBalance (oneAccount 100) " ").1 (by decide),
   (C19_GetBalance (oneAccount 100) "t").2.1 (by decide) (by rfl),
   (C19_GetBalance (oneAccount 100) "a").2.2.1 (by decide) (acctA 100 "n1") (by rfl)⟩

/-! ## C20: the generated nonce -/

theorem isURLChar_encodeChar (v : Nat) : base64.isURLChar (base64.encodeChar v) = true := by
  unfold base64.encodeChar
  have hlt : v % 64 < 64 := Nat.mod_lt _ (by decide)
  generalize v % 64 = i at hlt
  interval_cases i <;> decide

theorem EncodeToChars_length : ∀ l : List Nat,
    (base64.EncodeToChars l).length = 4 * ((l.length + 2) / 3)
  | [] => by simp [base64.EncodeToChars]
  | [_] => by simp [base64.EncodeToChars]
  | [_, _] => by simp [base64.EncodeToChars]
  | _ :: _ :: _ :: rest => by
    simp only [base64.EncodeToChars, List.length_cons, EncodeToChars_length rest]
    omega

theorem EncodeToChars_shape : ∀ l : List Nat,
    ∃ body k, base64.EncodeToChars l = body ++ List.replicate k '=' ∧
      k = (3 - l.length % 3) % 3 ∧ ∀ c ∈ body, base64.isURLChar c = true
  | [] => ⟨[], 0, rfl, rfl, by simp⟩
  | [b0] =>
    ⟨[base64.encodeChar (b0 * 65536 / 262144), base64.encodeChar (b0 * 65536 / 4096)], 2, rfl,
      rfl, by
        intro c hc
        simp only [List.mem_cons, List.mem_singleton, List.not_mem_nil, or_false] at hc
        rcases hc with hc | hc <;> rw [hc] <;> exact isURLChar_encodeChar _⟩
  | [b0, b1] =>
    ⟨[base64.encodeChar ((b0 * 65536 + b1 * 256) / 262144),
      base64.encodeChar ((b0 * 65536 + b1 * 256) / 4096),
      base64.encodeChar ((b0 * 65536 + b1 * 256) / 64)], 1, rfl, rfl, by
        intro c hc
        simp only [List.mem_cons, List.mem_singleton, List.not_mem_nil, or_false] at hc
        rcases hc with hc | hc | hc <;> rw [hc] <;> exact isURLChar_encodeChar _⟩
  | b0 :: b1 :: b2 :: rest => by
    obtain ⟨body, k, heq, hk, hbody⟩ := EncodeToChars_shape rest
    refine ⟨base64.encodeChar ((b0 * 65536 + b1 * 256 + b2) / 262144) ::
      base64.encodeChar ((b0 * 65536 + b1 * 256 + b2) / 4096) ::
      base64.encodeChar ((b0 * 65536 + b1 * 256 + b2) / 64) ::
      base64.encodeChar (b0 * 65536 + b1 * 256 + b2) :: body, k, ?_, ?_, ?_⟩
    · simp only [base64.EncodeToChars, heq, List.cons_append]
    · rw [hk]
      simp only [List.length_cons]
      omega
    · intro c hc
      simp only [List.mem_cons] at hc
      rcases hc with hc | hc | hc | hc | hc
      · rw [hc]; exact isURLChar_encodeChar _
      · rw [hc]; exact isURLChar_encodeChar _
      · rw [hc]; exact isURLChar_encodeChar _
      · rw [hc]; exact isURLChar_encodeChar _
      · exact hbody c hc

theorem fillBytes_length (n : Nat) (src : List Nat) : (utils.fillBytes n src).length = n := by
  simp [utils.fillBytes]

theorem fillBytes_of_bytes (n : Nat) (src : List Nat) (hlen : src.length = n)
    (hb : ∀ x ∈ src, x < 256) : utils.fillBytes n src = src := by
  apply List.ext_getElem?
  intro i
  unfold utils.fillBytes
  rw [List.getElem?_map]
  by_cases hi : i < n
  · rw [List.getElem?_range hi, List.getElem?_eq_getElem (by omega)]
    simp only [Option.map_some', Option.some.injEq]
    rw [List.getD_eq_getElem _ _ (by omega)]
    exact Nat.mod_eq_of_lt (hb _ (List.getElem_mem _))
  · rw [List.getElem?_eq_none (by simp; omega), List.getElem?_eq_none (by omega)]
    rfl

/-- C20: for every n and every delivered bytes, a successful GenerateNonce(n)
returns the URL-safe base64 encoding of the n bytes of its buffer, which are
the delivered bytes when n bytes were delivered: a string of exactly
4 * ceil(n / 3) characters, drawn from A-Z, a-z, 0-9, '-', '_' and followed
only by the '=' padding; for the engine's NonceLen = 10 the nonce has length
16, contains no space, and is not classified as empty by IsEmpty. -/
theorem C20_generated_nonce (n : Nat) (src : List Nat) :
    utils.GenerateNonce n (some src) =
      .ok (base64.EncodeToString (utils.fillBytes n src)) ∧
    (src.length = n → (∀ x ∈ src, x < 256) →
      utils.GenerateNonce n (some src) = .ok (base64.EncodeToString src)) ∧
    (base64.EncodeToString (utils.fillBytes n src)).length = 4 * ((n + 2) / 3) ∧
    (∃ body k, (base64.EncodeToString (utils.fillBytes n src)).data =
        body ++ List.replicate k '=' ∧
      k = (3 - n % 3) % 3 ∧ ∀ c ∈ body, base64.isURLChar c = true) ∧
    (∀ s, utils.GenerateNonce NonceLen (some src) = .ok s →
      s.length = 16 ∧ ' ' ∉ s.data ∧ utils.IsEmpty s = false) := by
  refine ⟨rfl, ?_, ?_, ?_, ?_⟩
  · intro hlen hb
    show Except.ok (base64.EncodeToString (utils.fillBytes n src)) = _
    rw [fillBytes_of_bytes n src hlen hb]
  · show (base64.EncodeToChars (utils.fillBytes n src)).length = _
    rw [EncodeToChars_length, fillBytes_length]
  · obtain ⟨body, k, heq, hk, hbody⟩ := EncodeToChars_shape (utils.fillBytes n src)
    rw [fillBytes_length] at hk
    exact ⟨body, k, heq, hk, hbody⟩
  · intro s hs
    have hne := GenerateNonce_not_empty hs
    simp only [utils.GenerateNonce, Except.ok.injEq] at hs
    subst hs
    refine ⟨?_, ?_, hne⟩
    · show (base64.EncodeToChars (utils.fillBytes NonceLen src)).length = _
      rw [EncodeToChars_length, fillBytes_length]
      rfl
    · obtain ⟨body, k, heq, -, hbody⟩ := EncodeToChars_shape (utils.fillBytes NonceLen src)
      show ' ' ∉ base64.EncodeToChars (utils.fillBytes NonceLen src)
      rw [heq]
      intro hmem
      rcases List.mem_append.mp hmem with h | h
      · have := hbody _ h
        revert this
        decide
      · have := List.eq_of_mem_replicate h
        revert this
        decide

/-- Witness of C20: ten bytes delivered; the nonce is their encoding, of 16
characters, the last two being the padding. -/
theorem C20_witness :
    utils.GenerateNonce 10 (some [255, 254, 253, 0, 1, 2, 3, 4, 5, 250]) =
      .ok "__79AAECAwQF-g==" ∧
    ("__79AAECAwQF-g==".length = 16 ∧ ' ' ∉ "__79AAECAwQF-g==".data ∧
      utils.IsEmpty "__79AAECAwQF-g==" = false) :=
  ⟨(C20_generated_nonce 10 [255, 254, 253, 0, 1, 2, 3, 4, 5, 250]).2.1 (by rfl) (by decide),
   (C20_generated_nonce 10 [255, 254, 253, 0, 1, 2, 3, 4, 5, 250]).2.2.2.2 _ (by rfl)⟩

/-! ## C24: the per-account index -/

/-- C24: after search.Add(a, id), search.Get(a) is the previous Get(a) followed
by id, which is the one-element sequence [id] when a had no sequence; Get(b) is
unchanged for every other account b; and Get of an account that was never
added, on the new index or after any additions to other accounts, is empty. -/
theorem C24_index_add_get (s : search) (a : String) (id : Nat) :
    (s.Add a id).Get a = s.Get a ++ [id] ∧
    (s.index a = none → (s.Add a id).Get a = [id]) ∧
    (∀ b, b ≠ a → (s.Add a id).Get b = s.Get b) ∧
    NewSearch.Get a = [] ∧
    (∀ adds : List (String × Nat), (∀ p ∈ adds, p.1 ≠ a) →
      (adds.foldl (fun x p => x.Add p.1 p.2) NewSearch).Get a = []) := by
  refine ⟨?_, ?_, ?_, rfl, ?_⟩
  · rw [search_Get_Add]
    simp
  · intro h
    rw [search_Get_Add]
    simp [search.Get, h]
  · intro b hb
    rw [search_Get_Add]
    simp [hb]
  · intro adds
    have hgen : ∀ (x : search), x.Get a = [] → (∀ p ∈ adds, p.1 ≠ a) →
        (adds.foldl (fun x p => x.Add p.1 p.2) x).Get a = [] := by
      induction adds with
      | nil => intro x hx _; exact hx
      | cons p rest ih =>
        intro x hx hne
        rw [List.foldl_cons]
        apply ih
        · rw [search_Get_Add]
          have hp : a ≠ p.1 := Ne.symm (hne p (List.mem_cons_self _ _))
          simp [hp, hx]
        · intro q hq
          exact hne q (List.mem_cons_of_mem _ hq)
    exact hgen NewSearch rfl

/-- Witness of C24: two additions for "a" and one for "b" on the new index. -/
theorem C24_witness :
    (((NewSearch.Add "a" 1).Add "b" 2).Add "a" 3).Get "a" = [1, 3] ∧
    ((NewSearch.Add "a" 1).Add "b" 2).Get "a" = [1] ∧
    (NewSearch.Add "a" 1).Get "a" = [1] ∧
    ([("a", 1), ("b", 2)].foldl (fun x p => x.Add p.1 p.2) NewSearch).Get "c" = [] :=
  ⟨by rfl,
   (C24_index_add_get (NewSearch.Add "a" 1) "b" 2).2.2.1 "a" (by decide),
   (C24_index_add_get NewSearch "a" 1).2.1 (by rfl),
   (C24_index_add_get NewSearch "c" 0).2.2.2.2 [("a", 1), ("b", 2)] (by decide)⟩

/-! ## C25: the records of the log -/

/-- The transaction a call commits is marked successful and has a positive
amount. -/
theorem stepTx_facts (b : bank) (env : Env) (op : Op) (t : proto.Transaction)
    (h : b.stepTx env op = some t) :
    t.State = proto.TransactionStateSuccess ∧ 0 < t.Amount := by
  cases op with
  | getBalance a => simp [bank.stepTx] at h
  | getTransactions a => simp [bank.stepTx] at h
  | call c =>
    cases c with
    | createAccount user => simp [bank.stepTx, bank.committed] at h
    | getNonce account pwd => simp [bank.stepTx, bank.committed] at h
    | deposit tx nonce =>
      cases hr : (b.Deposit env tx nonce).1 with
      | error e => simp [bank.stepTx, bank.committed, hr] at h
      | ok r =>
        obtain ⟨user, newNonce, -, -, hpos, -, -, -, -, heq⟩ := Deposit_ok_inv hr
        simp only [bank.stepTx, bank.committed, hr, Option.some.injEq] at h
        rw [heq] at hr
        have hr2 := congrArg Prod.fst (Except.ok.inj hr)
        rw [h] at hr2
        rw [← hr2]
        exact ⟨rfl, hpos⟩
    | withdraw tx nonce =>
      cases hr : (b.Withdraw env tx nonce).1 with
      | error e => simp [bank.stepTx, bank.committed, hr] at h
      | ok r =>
        obtain ⟨user, newNonce, -, -, hpos, -, -, -, -, -, heq⟩ := Withdraw_ok_inv hr
        simp only [bank.stepTx, bank.committed, hr, Option.some.injEq] at h
        rw [heq] at hr
        have hr2 := congrArg Prod.fst (Except.ok.inj hr)
        rw [h] at hr2
        rw [← hr2]
        exact ⟨rfl, hpos⟩
    | transaction tx nonce =>
      cases hr : (b.Transaction env tx nonce).1 with
      | error e => simp [bank.stepTx, bank.committed, hr] at h
      | ok r =>
        obtain ⟨f, u, newNonce, -, -, hpos, -, -, -, -, -, -, heq⟩ := Transaction_ok_inv hr
        simp only [bank.stepTx, bank.committed, hr, Option.some.injEq] at h
        rw [heq] at hr
        have hr2 := congrArg Prod.fst (Except.ok.inj hr)
        rw [h] at hr2
        rw [← hr2]
        exact ⟨rfl, hpos⟩

/-- One call keeps every logged record successful, positive and stored under
its own identifier. -/
theorem logSound_step (b : bank) (env : Env) (op : Op)
    (h : ∀ k t, b.txs k = some t →
      t.State = proto.TransactionStateSuccess ∧ 0 < t.Amount ∧ t.ID = k) :
    ∀ k t, (b.step env op).txs k = some t →
      t.State = proto.TransactionStateSuccess ∧ 0 < t.Amount ∧ t.ID = k := by
  intro k t hk
  cases hc : b.stepTx env op with
  | none =>
    rw [(step_no_commit b env op hc).2.1] at hk
    exact h k t hk
  | some t1 =>
    obtain ⟨hid, htxs, -⟩ := step_commit b env op t1 hc
    rw [htxs] at hk
    by_cases hkc : k = b.count
    · subst hkc
      rw [Function.update_same] at hk
      cases hk
      obtain ⟨h1, h2⟩ := stepTx_facts b env op t hc
      exact ⟨h1, h2, hid⟩
    · rw [Function.update_noteq hkc] at hk
      exact h k t hk

theorem logSound_run (cs : List (Env × Op)) : ∀ (b : bank),
    (∀ k t, b.txs k = some t →
      t.State = proto.TransactionStateSuccess ∧ 0 < t.Amount ∧ t.ID = k) →
    ∀ k t, (b.run cs).txs k = some t →
      t.State = proto.TransactionStateSuccess ∧ 0 < t.Amount ∧ t.ID = k := by
  induction cs with
  | nil => intro b h; exact h
  | cons eo rest ih =>
    intro b h
    exact ih _ (logSound_step b eo.1 eo.2 h)

/-- C25: in every state reached from NewBank's initial state, every record in
the log has State equal to TransactionStateSuccess (1), Amount > 0, and ID
equal to the key it is stored under; and from any state, the record returned by
a successful money movement is the record stored under its ID and keeps the
request's From, To and Amount. -/
theorem C25_log_records (cs : List (Env × Op)) :
    (∀ k t, (NewBank.run cs).txs k = some t →
      t.State = proto.TransactionStateSuccess ∧ t.State = 1 ∧ 0 < t.Amount ∧ t.ID = k) ∧
    (∀ (b : bank) (env : Env) (tx : proto.Transaction) (nonce n : String)
        (t : proto.Transaction),
      ((b.Deposit env tx nonce).1 = .ok (t, n) →
        (b.Deposit env tx nonce).2.txs t.ID = some t ∧
        t.From = tx.From ∧ t.To = tx.To ∧ t.Amount = tx.Amount) ∧
      ((b.Withdraw env tx nonce).1 = .ok (t, n) →
        (b.Withdraw env tx nonce).2.txs t.ID = some t ∧
        t.From = tx.From ∧ t.To = tx.To ∧ t.Amount = tx.Amount) ∧
      ((b.Transaction env tx nonce).1 = .ok (t, n) →
        (b.Transaction env tx nonce).2.txs t.ID = some t ∧
        t.From = tx.From ∧ t.To = tx.To ∧ t.Amount = tx.Amount)) := by
  constructor
  · intro k t hk
    obtain ⟨h1, h2, h3⟩ := logSound_run cs NewBank
      (by intro k t h; simp [NewBank] at h) k t hk
    exact ⟨h1, h1, h2, h3⟩
  · intro b env tx nonce n t
    refine ⟨?_, ?_, ?_⟩
    · intro hok
      obtain ⟨user, newNonce, -, -, -, -, -, -, -, heq⟩ := Deposit_ok_inv hok
      rw [heq] at hok
      have ht : _ = t := congrArg Prod.fst (Except.ok.inj hok)
      subst ht
      rw [heq]
      refine ⟨?_, rfl, rfl, rfl⟩
      show Function.update b.txs b.count _ b.count = _
      exact Function.update_same _ _ _
    · intro hok
      obtain ⟨user, newNonce, -, -, -, -, -, -, -, -, heq⟩ := Withdraw_ok_inv hok
      rw [heq] at hok
      have ht : _ = t := congrArg Prod.fst (Except.ok.inj hok)
      subst ht
      rw [heq]
      refine ⟨?_, rfl, rfl, rfl⟩
      show Function.update b.txs b.count _ b.count = _
      exact Function.update_same _ _ _
    · intro hok
      obtain ⟨f, u, newNonce, -, -, -, -, -, -, -, -, -, heq⟩ := Transaction_ok_inv hok
      rw [heq] at hok
      have ht : _ = t := congrArg Prod.fst (Except.ok.inj hok)
      subst ht
      rw [heq]
      refine ⟨?_, rfl, rfl, rfl⟩
      show Function.update b.txs b.count _ b.count = _
      exact Function.update_same _ _ _

/-- Witness of C25: after `shortRun` the record under key 2 is the second
deposit, and a withdrawal of 30 returns the record it logs. -/
theorem C25_witness :
    (NewBank.run shortRun).txs 2 = some { depositTx 1 with ID := 2, State := 1 } ∧
    (({ depositTx 1 with ID := 2, State := 1 } : proto.Transaction).State = 1 ∧
      (0 : Int) < ({ depositTx 1 with ID := 2, State := 1 } : proto.Transaction).Amount) ∧
    ((oneAccount 100).Withdraw (envOf []) (withdrawTx 30) "n1").2.txs 1 =
      some { withdrawTx 30 with ID := 1, State := 1 } :=
  ⟨by rfl,
   ⟨((C25_log_records shortRun).1 2 { depositTx 1 with ID := 2, State := 1 } (by rfl)).2.1,
    ((C25_log_records shortRun).1 2 { depositTx 1 with ID := 2, State := 1 } (by rfl)).2.2.1⟩,
   (((C25_log_records []).2 (oneAccount 100) (envOf []) (withdrawTx 30) "n1" zeroNonce
      { withdrawTx 30 with ID := 1, State := 1 }).2.1 (by rfl)).1⟩

/-! ## C26: the empty side of a deposit and of a withdrawal -/

/-- C26, as stated, fails: a deposit whose From is one space passes the
emptiness check of IsEmpty, succeeds, and is logged with From equal to that
space, which is not the empty string; likewise a withdrawal whose To is one
space. -/
theorem C26_counterexample_space_is_empty :
    ((oneAccount 100).Deposit (envOf []) { depositTx 50 with From := " " } "n1").1 =
      .ok ({ depositTx 50 with From := " ", ID := 1, State := 1 }, zeroNonce) ∧
    ((oneAccount 100).Deposit (envOf []) { depositTx 50 with From := " " } "n1").2.txs 1 =
      some { depositTx 50 with From := " ", ID := 1, State := 1 } ∧
    ({ depositTx 50 with From := " ", ID := 1, State := 1 } : proto.Transaction).From ≠ "" ∧
    ((oneAccount 100).Withdraw (envOf []) { withdrawTx 30 with To := " " } "n1").2.txs 1 =
      some { withdrawTx 30 with To := " ", ID := 1, State := 1 } ∧
    ({ withdrawTx 30 with To := " ", ID := 1, State := 1 } : proto.Transaction).To ≠ "" :=
  ⟨by rfl, by rfl, by decide, by rfl, by decide⟩

/-- C26 (amended): for every successful Deposit the logged transaction's From
field is empty in the sense of IsEmpty, that is, made of spaces only, and for
every successful Withdraw so is the logged transaction's To field. -/
theorem C26_empty_side (b : bank) (env : Env) (tx : proto.Transaction) (nonce n : String)
    (t : proto.Transaction) :
    ((b.Deposit env tx nonce).1 = .ok (t, n) →
      (b.Deposit env tx nonce).2.txs t.ID = some t ∧
      utils.IsEmpty t.From = true ∧ ∀ c ∈ t.From.data, c = ' ') ∧
    ((b.Withdraw env tx nonce).1 = .ok (t, n) →
      (b.Withdraw env tx nonce).2.txs t.ID = some t ∧
      utils.IsEmpty t.To = true ∧ ∀ c ∈ t.To.data, c = ' ') := by
  constructor
  · intro hok
    obtain ⟨user, newNonce, hfrom, -, -, -, -, -, -, heq⟩ := Deposit_ok_inv hok
    rw [heq] at hok
    have ht : _ = t := congrArg Prod.fst (Except.ok.inj hok)
    subst ht
    rw [heq]
    refine ⟨?_, hfrom, (IsEmpty_iff _).mp hfrom⟩
    show Function.update b.txs b.count _ b.count = _
    exact Function.update_same _ _ _
  · intro hok
    obtain ⟨user, newNonce, -, hto, -, -, -, -, -, -, heq⟩ := Withdraw_ok_inv hok
    rw [heq] at hok
    have ht : _ = t := congrArg Prod.fst (Except.ok.inj hok)
    subst ht
    rw [heq]
    refine ⟨?_, hto, (IsEmpty_iff _).mp hto⟩
    show Function.update b.txs b.count _ b.count = _
    exact Function.update_same _ _ _

/-- Witness of C26: the deposit of 50 with From "" is logged with an empty
From. -/
theorem C26_witness :
    ((oneAccount 100).Deposit (envOf []) (depositTx 50) "n1").2.txs 1 =
      some { depositTx 50 with ID := 1, State := 1 } ∧
    utils.IsEmpty ({ depositTx 50 with ID := 1, State := 1 } : proto.Transaction).From = true :=
  ⟨((C26_empty_side (oneAccount 100) (envOf []) (depositTx 50) "n1" zeroNonce
      { depositTx 50 with ID := 1, State := 1 }).1 (by rfl)).1,
   ((C26_empty_side (oneAccount 100) (envOf []) (depositTx 50) "n1" zeroNonce
      { depositTx 50 with ID := 1, State := 1 }).1 (by rfl)).2.1⟩

/-! ## C27: a transfer conserves the sum of the balances -/

/-- C27, as stated, fails when the credit overflows: with "a" at 100 and "b" at
the largest `int`, both stored under their own identifiers, the transfer of 1
from "a" to "b" succeeds and leaves 99 and the smallest `int`; the sum of the
balances has dropped by 2^64. -/
theorem C27_counterexample_overflow :
    (twoAccounts 100 9223372036854775807).keyed ∧
    ((twoAccounts 100 9223372036854775807).Transaction (envOf []) (transferTx "a" "b" 1)
        "n1").1 = .ok ({ transferTx "a" "b" 1 with ID := 1, State := 1 }, zeroNonce) ∧
    (twoAccounts 100 9223372036854775807).balanceAt "a" +
      (twoAccounts 100 9223372036854775807).balanceAt "b" = 9223372036854775907 ∧
    ((twoAccounts 100 9223372036854775807).Transaction (envOf []) (transferTx "a" "b" 1)
        "n1").2.balanceAt "a" +
      ((twoAccounts 100 9223372036854775807).Transaction (envOf []) (transferTx "a" "b" 1)
        "n1").2.balanceAt "b" = -9223372036854775709 :=
  ⟨twoAccounts_keyed _ _, by rfl, by rfl, by rfl⟩

/-- C27 (amended): in a state in which each account record is stored under its
own identifier (balances being Go `int` values), for every successful
Transaction between two distinct existing accounts whose credit fits in the
`int` range, the sum of the balances over any finite set of identifiers that
contains From and To is the same before and after, and no account other than
From and To is changed. -/
theorem C27_transfer_conserves_sum (b : bank) (env : Env) (tx : proto.Transaction)
    (nonce : String) (fromUser toUser : proto.User) (r : proto.Transaction × String)
    (hk : b.keyed) (hint : b.balancesInt)
    (hf : b.users tx.From = some fromUser) (ht : b.users tx.To = some toUser)
    (hne : tx.From ≠ tx.To) (hfit : toUser.Balance + tx.Amount ≤ maxInt)
    (hok : (b.Transaction env tx nonce).1 = .ok r) :
    (∀ K : Finset String, tx.From ∈ K → tx.To ∈ K →
      (∑ a in K, (b.Transaction env tx nonce).2.balanceAt a) = ∑ a in K, b.balanceAt a) ∧
    (∀ a, a ≠ tx.From → a ≠ tx.To → (b.Transaction env tx nonce).2.users a = b.users a) := by
  obtain ⟨f1, t1, newNonce, -, -, hpos, -, hf1, ht1, -, hle, -, heq⟩ :=
    Transaction_ok_inv hok
  rw [hf] at hf1
  rw [ht] at ht1
  cases hf1
  cases ht1
  have hfa : fromUser.Account = tx.From := hk _ _ hf
  have hta : toUser.Account = tx.To := hk _ _ ht
  have husers : (b.Transaction env tx nonce).2.users =
      Function.update (Function.update b.users tx.From
        (some { fromUser with Balance := wrapInt (fromUser.Balance - tx.Amount),
                              Nonce := newNonce, UpdatedAt := env.now 1 }))
        tx.To (some { toUser with Balance := wrapInt (toUser.Balance + tx.Amount),
                                  UpdatedAt := env.now 0 }) := by
    rw [heq, hfa, hta]
  have hother : ∀ a, a ≠ tx.From → a ≠ tx.To →
      (b.Transaction env tx nonce).2.users a = b.users a := by
    intro a h1 h2
    rw [husers, Function.update_noteq h2, Function.update_noteq h1]
  have hbf : (b.Transaction env tx nonce).2.balanceAt tx.From = fromUser.Balance - tx.Amount := by
    unfold bank.balanceAt
    rw [husers, Function.update_noteq hne, Function.update_same]
    exact wrapInt_sub_of_le (hint _ _ hf) (le_of_lt hpos) hle
  have hbt : (b.Transaction env tx nonce).2.balanceAt tx.To = toUser.Balance + tx.Amount := by
    unfold bank.balanceAt
    rw [husers, Function.update_same]
    exact wrapInt_add_of_fits (hint _ _ ht) (le_of_lt hpos) hfit
  have hbf0 : b.balanceAt tx.From = fromUser.Balance := by
    unfold bank.balanceAt; rw [hf]
  have hbt0 : b.balanceAt tx.To = toUser.Balance := by
    unfold bank.balanceAt; rw [ht]
  refine ⟨?_, hother⟩
  intro K hFK hTK
  have hTK2 : tx.To ∈ K.erase tx.From := Finset.mem_erase.mpr ⟨Ne.symm hne, hTK⟩
  rw [← Finset.add_sum_erase K _ hFK, ← Finset.add_sum_erase K (fun a => b.balanceAt a) hFK,
    ← Finset.add_sum_erase _ _ hTK2,
    ← Finset.add_sum_erase _ (fun a => b.balanceAt a) hTK2]
  have hrest : (∑ a in (K.erase tx.From).erase tx.To,
      (b.Transaction env tx nonce).2.balanceAt a) =
      ∑ a in (K.erase tx.From).erase tx.To, b.balanceAt a := by
    apply Finset.sum_congr rfl
    intro a ha
    have h2 : a ≠ tx.To := (Finset.mem_erase.mp ha).1
    have h1 : a ≠ tx.From := (Finset.mem_erase.mp (Finset.mem_erase.mp ha).2).1
    unfold bank.balanceAt
    rw [hother a h1 h2]
  rw [hrest, hbf, hbt, hbf0, hbt0]
  ring

/-- Witness of C27: the transfer of 10 from "a" (100) to "b" (10) keeps the sum
110 over the two identifiers. -/
theorem C27_witness :
    ((∑ a in ({"a", "b"} : Finset String),
        ((twoAccounts 100 10).Transaction (envOf []) (transferTx "a" "b" 10) "n1").2.balanceAt a)
      = ∑ a in ({"a", "b"} : Finset String), (twoAccounts 100 10).balanceAt a) ∧
    ((twoAccounts 100 10).Transaction (envOf []) (transferTx "a" "b" 10) "n1").2.balanceAt "a"
      = 90 ∧
    ((twoAccounts 100 10).Transaction (envOf []) (transferTx "a" "b" 10) "n1").2.balanceAt "b"
      = 20 :=
  ⟨(C27_transfer_conserves_sum (twoAccounts 100 10) (envOf []) (transferTx "a" "b" 10) "n1"
      (acctA 100 "n1") (acctB 10)
      ({ transferTx "a" "b" 10 with ID := 1, State := 1 }, zeroNonce)
      (twoAccounts_keyed 100 10) (twoAccounts_balancesInt 100 10 (by decide) (by decide))
      (by rfl) (by rfl) (by decide) (by decide) (by rfl)).1 {"a", "b"} (by decide) (by decide),
   by rfl, by rfl⟩

/-! ## C28, C29: what a transfer and GetNonce leave untouched -/

/-- C28: for every successful Transaction between two distinct accounts (in a
state whose records are stored under their own identifiers) the receiver's
record changes only in Balance and UpdatedAt; its nonce and password are
unchanged, so the nonce the receiver holds is still the stored one after
receiving money; the sender's nonce becomes the returned one, and the nonce of
every account other than the sender is unchanged. -/
theorem C28_receiver_keeps_nonce (b : bank) (env : Env) (tx : proto.Transaction)
    (nonce n : String) (fromUser toUser : proto.User) (t : proto.Transaction)
    (hk : b.keyed) (hf : b.users tx.From = some fromUser) (ht : b.users tx.To = some toUser)
    (hne : tx.From ≠ tx.To) (hok : (b.Transaction env tx nonce).1 = .ok (t, n)) :
    (b.Transaction env tx nonce).2.users tx.To =
      some { toUser with Balance := wrapInt (toUser.Balance + tx.Amount),
                         UpdatedAt := env.now 0 } ∧
    (∃ u, (b.Transaction env tx nonce).2.users tx.To = some u ∧ u.Nonce = toUser.Nonce ∧
      u.Password = toUser.Password ∧ u.Account = toUser.Account ∧ u.Name = toUser.Name ∧
      u.CreatedAt = toUser.CreatedAt) ∧
    (b.Transaction env tx nonce).2.nonceOf tx.To = b.nonceOf tx.To ∧
    (b.Transaction env tx nonce).2.nonceOf tx.From = some n ∧
    (∀ a, a ≠ tx.From → (b.Transaction env tx nonce).2.nonceOf a = b.nonceOf a) := by
  obtain ⟨f1, t1, newNonce, -, -, -, -, hf1, ht1, -, -, -, heq⟩ := Transaction_ok_inv hok
  rw [hf] at hf1
  rw [ht] at ht1
  cases hf1
  cases ht1
  have hfa : fromUser.Account = tx.From := hk _ _ hf
  have hta : toUser.Account = tx.To := hk _ _ ht
  have hn : newNonce = n := by
    rw [heq] at hok
    exact congrArg Prod.snd (Except.ok.inj hok)
  have husers : (b.Transaction env tx nonce).2.users =
      Function.update (Function.update b.users tx.From
        (some { fromUser with Balance := wrapInt (fromUser.Balance - tx.Amount),
                              Nonce := newNonce, UpdatedAt := env.now 1 }))
        tx.To (some { toUser with Balance := wrapInt (toUser.Balance + tx.Amount),
                                  UpdatedAt := env.now 0 }) := by
    rw [heq, hfa, hta]
  have hto : (b.Transaction env tx nonce).2.users tx.To =
      some { toUser with Balance := wrapInt (toUser.Balance + tx.Amount),
                         UpdatedAt := env.now 0 } := by
    rw [husers, Function.update_same]
  refine ⟨hto, ⟨_, hto, rfl, rfl, rfl, rfl, rfl⟩, ?_, ?_, ?_⟩
  · unfold bank.nonceOf
    rw [hto, ht]
    rfl
  · unfold bank.nonceOf
    rw [husers, Function.update_noteq hne, Function.update_same, ← hn]
    rfl
  · intro a ha
    unfold bank.nonceOf
    rw [husers]
    by_cases hat : a = tx.To
    · subst hat
      rw [Function.update_same, ht]
      rfl
    · rw [Function.update_noteq hat, Function.update_noteq ha]

/-- Witness of C28: after the transfer of 10 from "a" to "b" the record of "b"
still holds its nonce "n2" and the record of "a" holds the returned nonce. -/
theorem C28_witness :
    ((twoAccounts 100 10).Transaction (envOf []) (transferTx "a" "b" 10) "n1").2.users "b" =
      some { acctB 10 with Balance := 20 } ∧
    ((twoAccounts 100 10).Transaction (envOf []) (transferTx "a" "b" 10) "n1").2.nonceOf "b" =
      some "n2" ∧
    ((twoAccounts 100 10).Transaction (envOf []) (transferTx "a" "b" 10) "n1").2.nonceOf "a" =
      some zeroNonce :=
  ⟨by rfl,
   (C28_receiver_keeps_nonce (twoAccounts 100 10) (envOf []) (transferTx "a" "b" 10) "n1"
      zeroNonce (acctA 100 "n1") (acctB 10) { transferTx "a" "b" 10 with ID := 1, State := 1 }
      (twoAccounts_keyed 100 10) (by rfl) (by rfl) (by decide) (by rfl)).2.2.1,
   (C28_receiver_keeps_nonce (twoAccounts 100 10) (envOf []) (transferTx "a" "b" 10) "n1"
      zeroNonce (acctA 100 "n1") (acctB 10) { transferTx "a" "b" 10 with ID := 1, State := 1 }
      (twoAccounts_keyed 100 10) (by rfl) (by rfl) (by decide) (by rfl)).2.2.2.1⟩

/-- C29: for every state and every successful GetNonce(account, password),
only the Nonce and UpdatedAt fields of that account change: its identifier,
balance, password, name and creation time, every other account, the
transaction log, the ID counter and the index are unchanged. -/
theorem C29_get_nonce_frame (b : bank) (env : Env) (account pwd n : String)
    (user : proto.User) (hu : b.users account = some user)
    (hok : (b.GetNonce env account pwd).1 = .ok n) :
    (b.GetNonce env account pwd).2.users account =
      some { user with Nonce := n, UpdatedAt := env.now 0 } ∧
    (∃ u, (b.GetNonce env account pwd).2.users account = some u ∧
      u.Account = user.Account ∧ u.Balance = user.Balance ∧ u.Password = user.Password ∧
      u.Name = user.Name ∧ u.CreatedAt = user.CreatedAt) ∧
    (∀ a, a ≠ account → (b.GetNonce env account pwd).2.users a = b.users a) ∧
    (b.GetNonce env account pwd).2.txs = b.txs ∧
    (b.GetNonce env account pwd).2.count = b.count ∧
    (b.GetNonce env account pwd).2.search = b.search := by
  obtain ⟨u1, -, -, hu1, -, -, heq⟩ := GetNonce_ok_inv hok
  rw [hu] at hu1
  cases hu1
  have husers : (b.GetNonce env account pwd).2.users =
      Function.update b.users account (some { user with Nonce := n, UpdatedAt := env.now 0 }) := by
    rw [heq]
  have hacc : (b.GetNonce env account pwd).2.users account =
      some { user with Nonce := n, UpdatedAt := env.now 0 } := by
    rw [husers, Function.update_same]
  refine ⟨hacc, ⟨_, hacc, rfl, rfl, rfl, rfl, rfl⟩, ?_, ?_, ?_, ?_⟩
  · intro a ha
    rw [husers, Function.update_noteq ha]
  · rw [heq]
  · rw [heq]
  · rw [heq]

/-- Witness of C29: GetNonce on "a" with "b" alongside. -/
theorem C29_witness :
    ((twoAccounts 100 10).GetNonce (envOf []) "a" "pw").2.users "a" =
      some (acctA 100 zeroNonce) ∧
    ((twoAccounts 100 10).GetNonce (envOf []) "a" "pw").2.users "b" = some (acctB 10) ∧
    ((twoAccounts 100 10).GetNonce (envOf []) "a" "pw").2.count = 1 :=
  ⟨(C29_get_nonce_frame (twoAccounts 100 10) (envOf []) "a" "pw" zeroNonce (acctA 100 "n1")
      (by rfl) (by rfl)).1,
   by rfl,
   (C29_get_nonce_frame (twoAccounts 100 10) (envOf []) "a" "pw" zeroNonce (acctA 100 "n1")
      (by rfl) (by rfl)).2.2.2.2.1⟩

/-! ## C30: every index entry is in the log -/

/-- A call that commits extends index sequences only by the identifier it
commits under. -/
theorem step_search_mem (b : bank) (env : Env) (op : Op) (t : proto.Transaction)
    (h : b.stepTx env op = some t) :
    ∀ a id, id ∈ (b.step env op).search.Get a → id ∈ b.search.Get a ∨ id = b.count := by
  intro a id
  cases op with
  | getBalance x => simp [bank.stepTx] at h
  | getTransactions x => simp [bank.stepTx] at h
  | call c =>
    cases c with
    | createAccount user => simp [bank.stepTx, bank.committed] at h
    | getNonce account pwd => simp [bank.stepTx, bank.committed] at h
    | deposit tx nonce =>
      show id ∈ (b.Deposit env tx nonce).2.search.Get a → _
      cases hr : (b.Deposit env tx nonce).1 with
      | error e => simp [bank.stepTx, bank.committed, hr] at h
      | ok r =>
        obtain ⟨user, newNonce, -, -, -, -, -, -, -, heq⟩ := Deposit_ok_inv hr
        rw [heq]
        show id ∈ (b.search.Add user.Account b.count).Get a → _
        rw [search_Get_Add]
        split
        · intro hm
          rename_i hax
          rw [hax]
          simpa using hm
        · intro hm; exact Or.inl hm
    | withdraw tx nonce =>
      show id ∈ (b.Withdraw env tx nonce).2.search.Get a → _
      cases hr : (b.Withdraw env tx nonce).1 with
      | error e => simp [bank.stepTx, bank.committed, hr] at h
      | ok r =>
        obtain ⟨user, newNonce, -, -, -, -, -, -, -, -, heq⟩ := Withdraw_ok_inv hr
        rw [heq]
        show id ∈ (b.search.Add user.Account b.count).Get a → _
        rw [search_Get_Add]
        split
        · intro hm
          rename_i hax
          rw [hax]
          simpa using hm
        · intro hm; exact Or.inl hm
    | transaction tx nonce =>
      show id ∈ (b.Transaction env tx nonce).2.search.Get a → _
      cases hr : (b.Transaction env tx nonce).1 with
      | error e => simp [bank.stepTx, bank.committed, hr] at h
      | ok r =>
        obtain ⟨f, u, newNonce, -, -, -, -, -, -, -, -, -, heq⟩ := Transaction_ok_inv hr
        rw [heq]
        show id ∈ ((b.search.Add f.Account b.count).Add u.Account b.count).Get a → _
        rw [search_Get_Add, search_Get_Add, search_Get_Add]
        intro hm
        by_cases hau : a = u.Account
        · subst hau
          by_cases huf : u.Account = f.Account
          · rw [huf] at hm ⊢
            simp only [if_true, List.mem_append, List.mem_singleton] at hm
            rcases hm with (hm | hm) | hm
            · exact Or.inl hm
            · exact Or.inr hm
            · exact Or.inr hm
          · simp only [if_true, huf, if_false, List.mem_append, List.mem_singleton] at hm
            exact hm
        · by_cases haf : a = f.Account
          · subst haf
            simp only [hau, if_false, if_true, List.mem_append, List.mem_singleton] at hm
            exact hm
          · simp only [hau, if_false, haf] at hm
            exact Or.inl hm

/-- One call keeps every index entry a key of the log. -/
theorem indexInLog_step (b : bank) (env : Env) (op : Op)
    (h : ∀ a id, id ∈ b.search.Get a → (b.txs id).isSome = true) :
    ∀ a id, id ∈ (b.step env op).search.Get a → ((b.step env op).txs id).isSome = true := by
  intro a id hm
  cases hc : b.stepTx env op with
  | none =>
    obtain ⟨-, h2, h3⟩ := step_no_commit b env op hc
    rw [h3] at hm
    rw [h2]
    exact h a id hm
  | some t =>
    obtain ⟨-, htxs, -⟩ := step_commit b env op t hc
    rw [htxs]
    by_cases hid : id = b.count
    · rw [hid, Function.update_same]
      rfl
    · rw [Function.update_noteq hid]
      rcases step_search_mem b env op t hc a id hm with h1 | h1
      · exact h a id h1
      · exact absurd h1 hid

theorem indexInLog_run (cs : List (Env × Op)) : ∀ (b : bank),
    (∀ a id, id ∈ b.search.Get a → (b.txs id).isSome = true) →
    ∀ a id, id ∈ (b.run cs).search.Get a → ((b.run cs).txs id).isSome = true := by
  induction cs with
  | nil => intro b h; exact h
  | cons eo rest ih =>
    intro b h
    exact ih _ (indexInLog_step b eo.1 eo.2 h)

theorem filterMap_length_of_isSome {α β : Type} (f : α → Option β) (l : List α)
    (h : ∀ x ∈ l, (f x).isSome = true) : (l.filterMap f).length = l.length := by
  induction l with
  | nil => rfl
  | cons x rest ih =>
    obtain ⟨y, hy⟩ := Option.isSome_iff_exists.mp (h x (List.mem_cons_self _ _))
    rw [List.filterMap_cons, hy]
    simp only [List.length_cons]
    rw [ih (fun z hz => h z (List.mem_cons_of_mem _ hz))]

/-- C30: in every state reached from NewBank's initial state by sequential
engine calls, every transaction identifier in any account's index sequence is a
key of the transaction log, so GetTransactions of an existing account skips no
index entry: it returns no error and a history as long as the account's index
sequence. -/
theorem C30_index_entries_are_logged (cs : List (Env × Op)) :
    (∀ a id, id ∈ (NewBank.run cs).search.Get a →
      ((NewBank.run cs).txs id).isSome = true) ∧
    (∀ a u, (NewBank.run cs).users a = some u →
      ((NewBank.run cs).GetTransactions a).2 = none ∧
      ((NewBank.run cs).GetTransactions a).1.length =
        ((NewBank.run cs).search.Get a).length) := by
  have hlog : ∀ a id, id ∈ (NewBank.run cs).search.Get a →
      ((NewBank.run cs).txs id).isSome = true :=
    indexInLog_run cs NewBank (by intro a id h; simp [NewBank, NewSearch, search.Get] at h)
  refine ⟨hlog, ?_⟩
  intro a u hu
  have hne := (Consistent_reached cs).named a u hu
  rw [GetTransactions_of hne hu]
  exact ⟨rfl, filterMap_length_of_isSome _ _ (hlog a)⟩

/-- Witness of C30: after the transfer of "a" to itself the index of "a" holds
the identifier 1 twice, 1 is a key of the log, and the history has the length
of the index sequence. -/
theorem C30_witness :
    (NewBank.run selfTransferRun).search.Get "a" = [1, 1] ∧
    ((NewBank.run selfTransferRun).txs 1).isSome = true ∧
    ((NewBank.run selfTransferRun).GetTransactions "a").1.length =
      ((NewBank.run selfTransferRun).search.Get "a").length :=
  ⟨by rfl,
   (C30_index_entries_are_logged selfTransferRun).1 "a" 1 (by decide),
   ((C30_index_entries_are_logged selfTransferRun).2 "a"
      { newUserA 100 with Balance := 110, Nonce := zeroNonce } (by rfl)).2⟩

/-! ## Interleaved execution: the two sections of a call -/

/-- A call run alone is its first section followed at once by its second. -/
theorem call_eq_begin_finish (b : bank) (env : Env) (c : Call) :
    b.call env c = match b.begin env c with
      | .error e => (some e, b)
      | .ok p => (errOf (b.finish env p).1, (b.finish env p).2) := by
  rcases hg : utils.GenerateNonce NonceLen env.rand with e | n
  all_goals
    cases c with
    | createAccount user =>
      simp only [bank.call, bank.begin, bank.CreateAccount, hg]
      split_ifs <;> first | rfl | (simp only [bank.finish]; split <;> rfl)
    | getNonce account pwd =>
      simp only [bank.call, bank.begin, bank.GetNonce, hg]
      split_ifs <;> try rfl
      all_goals
        cases hu : b.users account with
        | none => rfl
        | some u =>
          simp only []
          split_ifs <;> first | rfl | (simp only [bank.finish, hg]; rfl)
    | deposit tx nonce =>
      simp only [bank.call, bank.begin, bank.Deposit, hg]
      split_ifs <;> try rfl
      all_goals
        cases hu : b.users tx.To with
        | none => rfl
        | some u =>
          simp only []
          split_ifs <;> first | rfl | (simp only [bank.finish, hg]; rfl)
    | withdraw tx nonce =>
      simp only [bank.call, bank.begin, bank.Withdraw, hg]
      split_ifs <;> try rfl
      all_goals
        cases hu : b.users tx.From with
        | none => rfl
        | some u =>
          simp only []
          split_ifs <;> first | rfl | (simp only [bank.finish, hg]; rfl)
    | transaction tx nonce =>
      simp only [bank.call, bank.begin, bank.Transaction, hg]
      split_ifs <;> try rfl
      all_goals
        cases hu : b.users tx.From <;> cases hv : b.users tx.To <;> try rfl
        all_goals
          simp only []
          split_ifs <;> first | rfl | (simp only [bank.finish, hg]; rfl)

/-- The transaction a call run alone commits is the one its second section
returns. -/
theorem committed_eq_begin_finish (b : bank) (env : Env) (c : Call) :
    b.committed env c = match b.begin env c with
      | .error _ => none
      | .ok p => commitOf (b.finish env p).1 := by
  rcases hg : utils.GenerateNonce NonceLen env.rand with e | n
  all_goals
    cases c with
    | createAccount user =>
      simp only [bank.committed, bank.begin, hg]
      split_ifs <;> first | rfl | (simp only [bank.finish]; split <;> rfl)
    | getNonce account pwd =>
      simp only [bank.committed, bank.begin]
      split_ifs <;> try rfl
      all_goals
        cases hu : b.users account with
        | none => rfl
        | some u =>
          simp only []
          split_ifs <;> first | rfl | (simp only [bank.finish, hg]; rfl)
    | deposit tx nonce =>
      simp only [bank.committed, bank.begin, bank.Deposit, hg]
      split_ifs <;> try rfl
      all_goals
        cases hu : b.users tx.To with
        | none => rfl
        | some u =>
          simp only []
          split_ifs <;> first | rfl | (simp only [bank.finish, hg]; rfl)
    | withdraw tx nonce =>
      simp only [bank.committed, bank.begin, bank.Withdraw, hg]
      split_ifs <;> try rfl
      all_goals
        cases hu : b.users tx.From with
        | none => rfl
        | some u =>
          simp only []
          split_ifs <;> first | rfl | (simp only [bank.finish, hg]; rfl)
    | transaction tx nonce =>
      simp only [bank.committed, bank.begin, bank.Transaction, hg]
      split_ifs <;> try rfl
      all_goals
        cases hu : b.users tx.From <;> cases hv : b.users tx.To <;> try rfl
        all_goals
          simp only []
          split_ifs <;> first | rfl | (simp only [bank.finish, hg]; rfl)

/-- The first section of a call on a keyed ledger establishes `Pending.ok`. -/
theorem begin_ok {b : bank} (hk : b.keyed) {env : Env} {c : Call} {p : Pending}
    (h : b.begin env c = .ok p) : p.ok := by
  cases c with
  | createAccount user =>
    simp only [bank.begin] at h
    split_ifs at h with h1
    all_goals
      cases hg : utils.GenerateNonce NonceLen env.rand with
      | error e => rw [hg] at h; cases h
      | ok n =>
        rw [hg] at h
        cases h
        simpa [Pending.ok] using h1
  | getNonce account pwd =>
    simp only [bank.begin] at h
    split_ifs at h with h1 h2
    cases hu : b.users account with
    | none => rw [hu] at h; cases h
    | some u =>
      rw [hu] at h
      simp only [] at h
      split_ifs at h
      cases h
      exact ⟨by simpa using h1, hk _ _ hu⟩
  | deposit tx nonce =>
    simp only [bank.begin] at h
    split_ifs at h with h1 h2 h3 h4
    cases hu : b.users tx.To with
    | none => rw [hu] at h; cases h
    | some u =>
      rw [hu] at h
      simp only [] at h
      split_ifs at h
      cases h
      exact ⟨by simpa using h1, by simpa using h2, hk _ _ hu⟩
  | withdraw tx nonce =>
    simp only [bank.begin] at h
    split_ifs at h with h1 h2 h3 h4
    cases hu : b.users tx.From with
    | none => rw [hu] at h; cases h
    | some u =>
      rw [hu] at h
      simp only [] at h
      split_ifs at h
      cases h
      exact ⟨by simpa using h1, by simpa using h2, hk _ _ hu⟩
  | transaction tx nonce =>
    simp only [bank.begin] at h
    split_ifs at h with h1 h2 h3 h4
    cases hu : b.users tx.From with
    | none => rw [hu] at h; cases h
    | some u =>
      cases hv : b.users tx.To with
      | none => rw [hu, hv] at h; cases h
      | some v =>
        rw [hu, hv] at h
        simp only [] at h
        split_ifs at h
        cases h
        exact ⟨by simpa using h1, by simpa using h2, hk _ _ hu, hk _ _ hv⟩

/-- The second section of a call keeps the ledger consistent with the commits
made so far, extended by the transaction it commits, if any: also when the
local copies it writes back are out of date. -/
theorem Consistent_finish {T : List proto.Transaction} {b : bank} (h : b.Consistent T)
    (env : Env) {p : Pending} (hp : p.ok) :
    (b.finish env p).2.Consistent (T ++ (commitOf (b.finish env p).1).toList) := by
  cases p with
  | createAccount user =>
    simp only [bank.finish]
    cases hu : b.users user.Account with
    | some u => simpa [commitOf] using h
    | none =>
      simp only [commitOf, Option.toList, List.append_nil]
      exact Consistent_users h (keyed_update h.keyed rfl) (nonempty_update h.named hp)
  | getNonce account user =>
    simp only [bank.finish]
    cases hg : utils.GenerateNonce NonceLen env.rand with
    | error e => simpa [commitOf] using h
    | ok n =>
      simp only [commitOf, Option.toList, List.append_nil]
      exact Consistent_users h (keyed_update h.keyed hp.2) (nonempty_update h.named hp.1)
  | deposit tx user =>
    obtain ⟨hfrom, hto, hacc⟩ := hp
    simp only [bank.finish]
    cases hg : utils.GenerateNonce NonceLen env.rand with
    | error e => simpa [commitOf] using h
    | ok n =>
      simp only [commitOf, Option.toList]
      refine Consistent_commit h (keyed_update h.keyed rfl)
        (nonempty_update h.named (by rw [hacc]; exact hto)) rfl ?_
      intro a ha
      rw [search_Get_Add, hacc]
      have hne : tx.From ≠ a := ne_of_IsEmpty ha hfrom
      by_cases hat : a = tx.To
      · subst hat; simp [touches, hne]
      · simp [touches, hne, hat, Ne.symm hat]
  | withdraw tx user =>
    obtain ⟨hfrom, hto, hacc⟩ := hp
    simp only [bank.finish]
    cases hg : utils.GenerateNonce NonceLen env.rand with
    | error e => simpa [commitOf] using h
    | ok n =>
      simp only [commitOf, Option.toList]
      refine Consistent_commit h (keyed_update h.keyed rfl)
        (nonempty_update h.named (by rw [hacc]; exact hfrom)) rfl ?_
      intro a ha
      rw [search_Get_Add, hacc]
      have hne : tx.To ≠ a := ne_of_IsEmpty ha hto
      by_cases hat : a = tx.From
      · subst hat; simp [touches, hne]
      · simp [touches, hne, hat, Ne.symm hat]
  | transaction tx f u =>
    obtain ⟨hfrom, hto, hfa, hua⟩ := hp
    simp only [bank.finish]
    cases hg : utils.GenerateNonce NonceLen env.rand with
    | error e => simpa [commitOf] using h
    | ok n =>
      simp only [commitOf, Option.toList]
      refine Consistent_commit h (keyed_update (keyed_update h.keyed ?_) ?_)
        (nonempty_update (nonempty_update h.named ?_) ?_) rfl ?_
      · rfl
      · rfl
      · rw [hfa]; exact hfrom
      · rw [hua]; exact hto
      intro a ha
      rw [search_Get_Add, search_Get_Add, search_Get_Add, hfa, hua]
      by_cases haf : a = tx.From <;> by_cases hat : a = tx.To
      · subst haf; simp [touches, ← hat]
      · subst haf; simp [touches, hat, Ne.symm hat]
      · subst hat; simp [touches, haf, Ne.symm haf]
      · simp [touches, haf, hat, Ne.symm haf, Ne.symm hat]

theorem Conf_Consistent_init {T : List proto.Transaction} {b : bank} (h : b.Consistent T) :
    (Conf.init b).Consistent T :=
  ⟨h, by intro tid p hp; cases hp⟩

/-- One event keeps the configuration consistent with the commits made so far,
extended by the transaction committed at the event, if any. -/
theorem Conf_Consistent_step {T : List proto.Transaction} {c : Conf} (h : c.Consistent T)
    (e : Event) : (c.step e).Consistent (T ++ ((c.reply e).bind commitOf).toList) := by
  obtain ⟨hb, hp⟩ := h
  cases e with
  | begin tid env call =>
    simp only [Conf.step, Conf.reply]
    cases hpt : c.pending tid with
    | some p => simpa using ⟨hb, hp⟩
    | none =>
      cases hbeg : c.ledger.begin env call with
      | error err => simpa [commitOf] using ⟨hb, hp⟩
      | ok p =>
        simp only [Option.bind, Option.toList, List.append_nil]
        refine ⟨hb, ?_⟩
        intro t q hq
        by_cases ht : t = tid
        · subst ht
          have hq2 : Function.update c.pending t (some p) t = some q := hq
          rw [Function.update_same] at hq2
          cases hq2
          exact begin_ok hb.keyed hbeg
        · have hq2 : Function.update c.pending tid (some p) t = some q := hq
          rw [Function.update_noteq ht] at hq2
          exact hp t q hq2
  | finish tid env =>
    simp only [Conf.step, Conf.reply]
    cases hpt : c.pending tid with
    | none => simpa using ⟨hb, hp⟩
    | some p =>
      simp only [Option.bind]
      refine ⟨Consistent_finish hb env (hp tid p hpt), ?_⟩
      intro t q hq
      by_cases ht : t = tid
      · subst ht
        have hq2 : Function.update c.pending t none t = some q := hq
        rw [Function.update_same] at hq2
        cases hq2
      · have hq2 : Function.update c.pending tid none t = some q := hq
        rw [Function.update_noteq ht] at hq2
        exact hp t q hq2

theorem Conf_Consistent_run {T : List proto.Transaction} {c : Conf} (h : c.Consistent T)
    (es : List Event) : (c.run es).Consistent (T ++ c.trace es) := by
  induction es generalizing T c with
  | nil => simpa [Conf.run, Conf.trace] using h
  | cons e rest ih =>
    have h1 := ih (Conf_Consistent_step h e)
    simpa [Conf.run, Conf.trace, List.append_assoc] using h1

/-- Every configuration reached from `NewBank` by an interleaved execution is
consistent with the commits of that execution. -/
theorem Conf_Consistent_reached (es : List Event) :
    ((Conf.init NewBank).run es).Consistent ((Conf.init NewBank).trace es) := by
  simpa using Conf_Consistent_run (Conf_Consistent_init Consistent_NewBank) es

theorem Conf_run_append (c : Conf) (l1 l2 : List Event) :
    c.run (l1 ++ l2) = (c.run l1).run l2 := by
  induction l1 generalizing c with
  | nil => rfl
  | cons e rest ih => exact ih _

theorem Conf_trace_append (c : Conf) (l1 l2 : List Event) :
    c.trace (l1 ++ l2) = c.trace l1 ++ (c.run l1).trace l2 := by
  induction l1 generalizing c with
  | nil => rfl
  | cons e rest ih =>
    show _ ++ (c.step e).trace (rest ++ l2) = (_ ++ (c.step e).trace rest) ++ _
    rw [ih, List.append_assoc]
    rfl

theorem pending_reset (p : Pending) :
    Function.update (Function.update (fun _ : Nat => (none : Option Pending)) 0 (some p)) 0 none
      = fun _ => none := by
  funext t
  by_cases ht : t = 0
  · subst ht; rw [Function.update_same]
  · rw [Function.update_noteq ht, Function.update_noteq ht]

/-- A call run alone, both sections on one thread, is the sequential call. -/
theorem seq_step (b : bank) (env : Env) (op : Op) :
    (Conf.init b).run (seqEvents (env, op)) = Conf.init (b.step env op) ∧
    (Conf.init b).trace (seqEvents (env, op)) = (b.stepTx env op).toList := by
  cases op with
  | getBalance a => exact ⟨rfl, rfl⟩
  | getTransactions a => exact ⟨rfl, rfl⟩
  | call c =>
    have h1 := call_eq_begin_finish b env c
    have h2 := committed_eq_begin_finish b env c
    show (((Conf.init b).step (.begin 0 env c)).step (.finish 0 env)) = Conf.init (b.call env c).2 ∧
      (((Conf.init b).reply (.begin 0 env c)).bind commitOf).toList ++
        (((((Conf.init b).step (.begin 0 env c)).reply (.finish 0 env)).bind commitOf).toList
          ++ []) = (b.committed env c).toList
    cases hbeg : b.begin env c with
    | error err =>
      rw [hbeg] at h1 h2
      rw [h1, h2]
      simp [Conf.step, Conf.reply, Conf.init, hbeg, commitOf]
    | ok p =>
      rw [hbeg] at h1 h2
      rw [h1, h2]
      simp [Conf.step, Conf.reply, Conf.init, hbeg, pending_reset]

theorem seq_run (ops : List (Env × Op)) : ∀ b : bank,
    (Conf.init b).run (ops.flatMap seqEvents) = Conf.init (b.run ops) ∧
    (Conf.init b).trace (ops.flatMap seqEvents) = b.trace ops := by
  induction ops with
  | nil => intro b; exact ⟨rfl, rfl⟩
  | cons eo rest ih =>
    intro b
    obtain ⟨h1, h2⟩ := seq_step b eo.1 eo.2
    obtain ⟨h3, h4⟩ := ih (b.step eo.1 eo.2)
    rw [List.flatMap_cons, Conf_run_append, Conf_trace_append, h1, h2, h3, h4]
    exact ⟨rfl, rfl⟩

/-- Two overlapping calls: the second section of the second call runs on the
ledger the first call left, with the copies read before the first call wrote. -/
theorem overlap_run (b : bank) (e1 e2 : Env) (c1 c2 : Call) (p1 p2 : Pending)
    (h1 : b.begin e1 c1 = .ok p1) (h2 : b.begin e2 c2 = .ok p2) :
    (Conf.init b).trace (overlap e1 c1 e2 c2) =
      (commitOf (b.finish e1 p1).1).toList ++
        (commitOf ((b.finish e1 p1).2.finish e2 p2).1).toList ∧
    ((Conf.init b).run (overlap e1 c1 e2 c2)).ledger = ((b.finish e1 p1).2.finish e2 p2).2 := by
  simp [overlap, Conf.trace, Conf.run, Conf.step, Conf.reply, Conf.init, h1, h2,
    Function.update]

/-! ## C21: two calls presenting the same nonce -/

/-- C21, where the code departs from it: from A = 203 (nonce "n1") and B = 10,
a transfer of 100 from A to B and a deposit of 100 to A that both present "n1"
and overlap (both pass the check under the read lock before either takes the
write lock) both succeed, each returning a fresh nonce, and leave A = 303 and
B = 110: the deposit is added to the balance read before the transfer and the
debit is lost.  Run one after the other, the second call returns ErrVerify and
the balances are 103 and 110, as the claim requires. -/
theorem C21_same_nonce_both_succeed :
    (Conf.init (twoAccounts 203 10)).replies
        (overlap (envOf [1]) (.transaction (transferTx "a" "b" 100) "n1")
          (envOf [2]) (.deposit (depositTx 100) "n1")) =
      [.ok (.moved { transferTx "a" "b" 100 with ID := 1, State := 1 } "AQAAAAAAAAAAAA=="),
       .ok (.moved { depositTx 100 with ID := 2, State := 1 } "AgAAAAAAAAAAAA==")] ∧
    ((Conf.init (twoAccounts 203 10)).run
        (overlap (envOf [1]) (.transaction (transferTx "a" "b" 100) "n1")
          (envOf [2]) (.deposit (depositTx 100) "n1"))).ledger.GetBalance "a" = .ok 303 ∧
    ((Conf.init (twoAccounts 203 10)).run
        (overlap (envOf [1]) (.transaction (transferTx "a" "b" 100) "n1")
          (envOf [2]) (.deposit (depositTx 100) "n1"))).ledger.GetBalance "b" = .ok 110 ∧
    (Conf.init (twoAccounts 203 10)).replies
        (inOrder (envOf [1]) (.transaction (transferTx "a" "b" 100) "n1")
          (envOf [2]) (.deposit (depositTx 100) "n1")) =
      [.ok (.moved { transferTx "a" "b" 100 with ID := 1, State := 1 } "AQAAAAAAAAAAAA=="),
       .error .ErrVerify] ∧
    ((Conf.init (twoAccounts 203 10)).run
        (inOrder (envOf [1]) (.transaction (transferTx "a" "b" 100) "n1")
          (envOf [2]) (.deposit (depositTx 100) "n1"))).ledger.GetBalance "a" = .ok 103 ∧
    ((Conf.init (twoAccounts 203 10)).run
        (inOrder (envOf [1]) (.transaction (transferTx "a" "b" 100) "n1")
          (envOf [2]) (.deposit (depositTx 100) "n1"))).ledger.GetBalance "b" = .ok 110 :=
  ⟨by rfl, by rfl, by rfl, by rfl, by rfl, by rfl⟩

/-! ## C22: identifiers under interleaved execution -/

theorem begin_deposit_eq {b : bank} {env : Env} {tx : proto.Transaction} {nonce : String}
    {user : proto.User} (h1 : utils.IsEmpty tx.From = true) (h2 : utils.IsEmpty tx.To = false)
    (h3 : 0 < tx.Amount) (h4 : utils.IsEmpty nonce = false)
    (hu : b.users tx.To = some user) (hn : user.Nonce = nonce) :
    b.begin env (.deposit tx nonce) = .ok (.deposit tx user) := by
  simp [bank.begin, h1, h2, h3, h4, hu, hn]

/-- Overlapping deposits of 1 to "a" and to "b", each presenting the nonce
"AAAAAAAAAAAAAA==" its account holds: the identifiers they receive and the
record the second one stores. -/
theorem overlap_deposits (s : bank) (ua ub : proto.User)
    (hua : s.users "a" = some ua) (hub : s.users "b" = some ub)
    (hna : ua.Nonce = zeroNonce) (hnb : ub.Nonce = zeroNonce) :
    ((Conf.init s).trace (overlap (envOf []) (.deposit (depositTx 1) zeroNonce)
      (envOf []) (.deposit { depositTx 1 with To := "b" } zeroNonce))).map (fun t => t.ID) =
      [s.count, wrapUint64 (s.count + 1)] ∧
    ((Conf.init s).run (overlap (envOf []) (.deposit (depositTx 1) zeroNonce)
      (envOf []) (.deposit { depositTx 1 with To := "b" } zeroNonce))).ledger.txs
        (wrapUint64 (s.count + 1)) = some (depositRecB (wrapUint64 (s.count + 1))) := by
  obtain ⟨ht, hr⟩ := overlap_run s (envOf []) (envOf []) (.deposit (depositTx 1) zeroNonce)
    (.deposit { depositTx 1 with To := "b" } zeroNonce) (.deposit (depositTx 1) ua)
    (.deposit { depositTx 1 with To := "b" } ub)
    (begin_deposit_eq (by decide) (by decide) (by decide) (by decide) hua hna)
    (begin_deposit_eq (by decide) (by decide) (by decide) (by decide) hub hnb)
  rw [ht, hr]
  have hg : utils.GenerateNonce NonceLen (envOf []).rand = .ok zeroNonce := by rfl
  refine ⟨by rfl, ?_⟩
  simp only [bank.finish, hg]
  rw [Function.update_same]
  rfl

theorem longRun_first (n : Nat) :
    (NewBank.trace (longRun n))[0]? = some { depositTx 1 with ID := 1, State := 1 } := by
  have h0 : NewBank.trace [(envOf [], .call (.createAccount (newUserA 1))),
      (envOf [], .call (.createAccount (newUserB 1))), depositOp "a"] =
      [{ depositTx 1 with ID := 1, State := 1 }] := by rfl
  unfold longRun
  rw [trace_append, h0]
  simp

theorem longRun_record_one (n : Nat) (hn : n + 1 < 18446744073709551616) :
    (NewBank.run (longRun n)).txs 1 = some { depositTx 1 with ID := 1, State := 1 } := by
  have hlog := (Consistent_reached (longRun n)).log (by rw [(longRun_facts n).1]; exact hn) 1
  rw [hlog]
  exact longRun_first n

theorem overlap_deposits_at (s : bank) (ua ub : proto.User) (k k1 : Nat)
    (r : proto.Transaction)
    (hua : s.users "a" = some ua) (hub : s.users "b" = some ub)
    (hna : ua.Nonce = zeroNonce) (hnb : ub.Nonce = zeroNonce) (hc : s.count = k)
    (hk : wrapUint64 (k + 1) = k1) (hrec : s.txs 1 = some r) :
    (Conf.init s).ledger.count = k ∧
    ((Conf.init s).trace (overlap (envOf []) (.deposit (depositTx 1) zeroNonce)
      (envOf []) (.deposit { depositTx 1 with To := "b" } zeroNonce))).map (fun t => t.ID) =
      [k, k1] ∧
    (Conf.init s).ledger.txs 1 = some r ∧
    ((Conf.init s).run (overlap (envOf []) (.deposit (depositTx 1) zeroNonce)
      (envOf []) (.deposit { depositTx 1 with To := "b" } zeroNonce))).ledger.txs k1 =
        some (depositRecB k1) := by
  subst hc
  subst hk
  obtain ⟨h1, h2⟩ := overlap_deposits s ua ub hua hub hna hnb
  exact ⟨rfl, h1, hrec, h2⟩

theorem overlap_at_last_identifier :
    ((Conf.init NewBank).run
      ((longRun 18446744073709551613).flatMap seqEvents)).ledger.count =
        18446744073709551615 ∧
    (((Conf.init NewBank).run ((longRun 18446744073709551613).flatMap seqEvents)).trace
      (overlap (envOf []) (.deposit (depositTx 1) zeroNonce)
        (envOf []) (.deposit { depositTx 1 with To := "b" } zeroNonce))).map (fun t => t.ID) =
      [18446744073709551615, 0] := by
  obtain ⟨hlen, ⟨u, hu, -, hn⟩, ha, -⟩ := longRun_facts 18446744073709551613
  have hc : (NewBank.run (longRun 18446744073709551613)).count = 18446744073709551615 := by
    rw [(Consistent_reached (longRun 18446744073709551613)).count_eq, hlen]
  have hrec := longRun_record_one 18446744073709551613 (by decide)
  rw [(seq_run (longRun 18446744073709551613) NewBank).1]
  obtain ⟨h1, h2, -, -⟩ := overlap_deposits_at _ _ u 18446744073709551615 0 _ ha hu rfl hn hc
    (by decide) hrec
  exact ⟨h1, h2⟩

theorem overlap_at_identifier_zero :
    ((Conf.init NewBank).run
      ((longRun 18446744073709551614).flatMap seqEvents)).ledger.txs 1 =
        some { depositTx 1 with ID := 1, State := 1 } ∧
    (((Conf.init NewBank).run ((longRun 18446744073709551614).flatMap seqEvents)).run
      (overlap (envOf []) (.deposit (depositTx 1) zeroNonce)
        (envOf []) (.deposit { depositTx 1 with To := "b" } zeroNonce))).ledger.txs 1 =
      some (depositRecB 1) := by
  obtain ⟨hlen, ⟨u, hu, -, hn⟩, ha, -⟩ := longRun_facts 18446744073709551614
  have hc : (NewBank.run (longRun 18446744073709551614)).count = 0 := by
    rw [(Consistent_reached (longRun 18446744073709551614)).count_eq, hlen]
  have hrec := longRun_record_one 18446744073709551614 (by decide)
  rw [(seq_run (longRun 18446744073709551614) NewBank).1]
  obtain ⟨-, -, h3, h4⟩ := overlap_deposits_at _ _ u 0 1 _ ha hu rfl hn hc (by decide) hrec
  exact ⟨h3, h4⟩

/-- Beyond the capacity of any log: after 2^64 - 2 movements the counter is
2^64 - 1, and two overlapping deposits are assigned 2^64 - 1 and 0; after
2^64 - 1 movements the counter is 0, and of two overlapping deposits the second
is assigned 1 and overwrites the record logged under 1. -/
theorem overlap_wraps_in_long_run :
    ((Conf.init NewBank).run
      ((longRun 18446744073709551613).flatMap seqEvents)).ledger.count =
        18446744073709551615 ∧
    (((Conf.init NewBank).run ((longRun 18446744073709551613).flatMap seqEvents)).trace
      (overlap (envOf []) (.deposit (depositTx 1) zeroNonce)
        (envOf []) (.deposit { depositTx 1 with To := "b" } zeroNonce))).map (fun t => t.ID) =
      [18446744073709551615, 0] ∧
    ((Conf.init NewBank).run
      ((longRun 18446744073709551614).flatMap seqEvents)).ledger.txs 1 =
        some { depositTx 1 with ID := 1, State := 1 } ∧
    (((Conf.init NewBank).run ((longRun 18446744073709551614).flatMap seqEvents)).run
      (overlap (envOf []) (.deposit (depositTx 1) zeroNonce)
        (envOf []) (.deposit { depositTx 1 with To := "b" } zeroNonce))).ledger.txs 1 =
      some (depositRecB 1) :=
  ⟨overlap_at_last_identifier.1, overlap_at_last_identifier.2,
    overlap_at_identifier_zero.1, overlap_at_identifier_zero.2⟩

/-- C22: in an interleaved execution from NewBank's initial state, the N
movements that commit during any stretch of the execution, however their
sections overlap, are assigned, in the order of their commits, the identifiers
firstID, firstID + 1, ..., firstID + N - 1, where firstID is the counter at the
start of the stretch; the identifiers are pairwise distinct, each returned
record is stored under its identifier at the end of the stretch, and every
record logged at its start is still logged unchanged.  The execution is any
whose log the program can hold: one with fewer than 2^64 successful movements
in total. -/
theorem C22_concurrent_identifiers (es1 es2 : List Event)
    (hN : ((Conf.init NewBank).trace es1).length +
      (((Conf.init NewBank).run es1).trace es2).length < 18446744073709551616) :
    (((Conf.init NewBank).run es1).trace es2).map (fun t => t.ID) =
      List.range' ((Conf.init NewBank).run es1).ledger.count
        (((Conf.init NewBank).run es1).trace es2).length ∧
    ((((Conf.init NewBank).run es1).trace es2).map (fun t => t.ID)).Nodup ∧
    (∀ t ∈ ((Conf.init NewBank).run es1).trace es2,
      (((Conf.init NewBank).run es1).run es2).ledger.txs t.ID = some t) ∧
    (∀ k t, ((Conf.init NewBank).run es1).ledger.txs k = some t →
      (((Conf.init NewBank).run es1).run es2).ledger.txs k = some t) := by
  have H1 := (Conf_Consistent_reached es1).1
  have H2 := (Conf_Consistent_run (Conf_Consistent_reached es1) es2).1
  generalize (Conf.init NewBank).trace es1 = T1 at hN H1 H2
  generalize (Conf.init NewBank).run es1 = c1 at hN H1 H2 ⊢
  generalize c1.trace es2 = T2 at hN H2 ⊢
  generalize (c1.run es2).ledger = b2 at H2 ⊢
  have hids : T2.map (fun t => t.ID) = List.range' c1.ledger.count T2.length := by
    apply List.ext_getElem
    · simp
    · intro i h1 h2
      have hi : i < T2.length := by simpa using h1
      have hget : (T1 ++ T2)[T1.length + i]? = some T2[i] := by
        rw [List.getElem?_append_right (by omega)]
        simp [hi]
      have hid := H2.ids _ _ hget
      rw [List.getElem_map, List.getElem_range', hid, H1.count_eq]
      omega
  refine ⟨hids, ?_, ?_, ?_⟩
  · rw [hids]
    exact List.nodup_range' _ _
  · intro t ht
    exact logged_of_mem H2 (by simpa using hN) t (List.mem_append_right _ ht)
  · intro k t hk
    rw [H1.log (by omega) k] at hk
    rw [H2.log (by simpa using hN) k]
    by_cases hk0 : k = 0
    · simp [hk0] at hk
    · simp only [hk0, if_false] at hk ⊢
      have hlt : k - 1 < T1.length := by
        by_contra hge
        rw [List.getElem?_eq_none (by omega)] at hk
        cases hk
      rw [List.getElem?_append_left hlt]
      exact hk

theorem C22_witness :
    ((Conf.init NewBank).run
        [.begin 0 (envOf []) (.createAccount (newUserA 1)), .finish 0 (envOf []),
         .begin 0 (envOf []) (.createAccount (newUserB 1)), .finish 0 (envOf [])]).ledger.count
      = 1 ∧
    (((Conf.init NewBank).run
        [.begin 0 (envOf []) (.createAccount (newUserA 1)), .finish 0 (envOf []),
         .begin 0 (envOf []) (.createAccount (newUserB 1)), .finish 0 (envOf [])]).trace
      (overlap (envOf []) (.deposit (depositTx 1) zeroNonce)
        (envOf []) (.deposit { depositTx 1 with To := "b" } zeroNonce))).map (fun t => t.ID)
      = [1, 2] ∧
    ((((Conf.init NewBank).run
        [.begin 0 (envOf []) (.createAccount (newUserA 1)), .finish 0 (envOf []),
         .begin 0 (envOf []) (.createAccount (newUserB 1)), .finish 0 (envOf [])]).trace
      (overlap (envOf []) (.deposit (depositTx 1) zeroNonce)
        (envOf []) (.deposit { depositTx 1 with To := "b" } zeroNonce))).map (fun t => t.ID)
      = List.range' ((Conf.init NewBank).run
        [.begin 0 (envOf []) (.createAccount (newUserA 1)), .finish 0 (envOf []),
         .begin 0 (envOf []) (.createAccount (newUserB 1)), .finish 0 (envOf [])]).ledger.count
        (((Conf.init NewBank).run
        [.begin 0 (envOf []) (.createAccount (newUserA 1)), .finish 0 (envOf []),
         .begin 0 (envOf []) (.createAccount (newUserB 1)), .finish 0 (envOf [])]).trace
      (overlap (envOf []) (.deposit (depositTx 1) zeroNonce)
        (envOf []) (.deposit { depositTx 1 with To := "b" } zeroNonce))).length) :=
  ⟨by rfl, by rfl,
   (C22_concurrent_identifiers
      [.begin 0 (envOf []) (.createAccount (newUserA 1)), .finish 0 (envOf []),
       .begin 0 (envOf []) (.createAccount (newUserB 1)), .finish 0 (envOf [])]
      (overlap (envOf []) (.deposit (depositTx 1) zeroNonce)
        (envOf []) (.deposit { depositTx 1 with To := "b" } zeroNonce))
      (by decide)).1⟩

/-! ## C23: two calls changing the balance of one account -/

/-- C23, where the code departs from it: from A = 203 (nonce "n1") and B = 10
(nonce "n2"), a transfer of 100 from A to B and a deposit of 50 to B that
overlap both succeed, and B ends at 60, not at 10 + 100 + 50 = 160: the deposit
writes back the balance it read before the transfer, and the transfer's credit
is lost.  Run one after the other, both succeed and B ends at 160. -/
theorem C23_concurrent_credit_is_lost :
    (Conf.init (twoAccounts 203 10)).replies
        (overlap (envOf [1]) (.transaction (transferTx "a" "b" 100) "n1")
          (envOf [2]) (.deposit { depositTx 50 with To := "b" } "n2")) =
      [.ok (.moved { transferTx "a" "b" 100 with ID := 1, State := 1 } "AQAAAAAAAAAAAA=="),
       .ok (.moved { depositTx 50 with To := "b", ID := 2, State := 1 } "AgAAAAAAAAAAAA==")] ∧
    ((Conf.init (twoAccounts 203 10)).run
        (overlap (envOf [1]) (.transaction (transferTx "a" "b" 100) "n1")
          (envOf [2]) (.deposit { depositTx 50 with To := "b" } "n2"))).ledger.GetBalance "b" =
      .ok 60 ∧
    ((Conf.init (twoAccounts 203 10)).run
        (overlap (envOf [1]) (.transaction (transferTx "a" "b" 100) "n1")
          (envOf [2]) (.deposit { depositTx 50 with To := "b" } "n2"))).ledger.GetBalance "a" =
      .ok 103 ∧
    (Conf.init (twoAccounts 203 10)).replies
        (inOrder (envOf [1]) (.transaction (transferTx "a" "b" 100) "n1")
          (envOf [2]) (.deposit { depositTx 50 with To := "b" } "n2")) =
      [.ok (.moved { transferTx "a" "b" 100 with ID := 1, State := 1 } "AQAAAAAAAAAAAA=="),
       .ok (.moved { depositTx 50 with To := "b", ID := 2, State := 1 } "AgAAAAAAAAAAAA==")] ∧
    ((Conf.init (twoAccounts 203 10)).run
        (inOrder (envOf [1]) (.transaction (transferTx "a" "b" 100) "n1")
          (envOf [2]) (.deposit { depositTx 50 with To := "b" } "n2"))).ledger.GetBalance "b" =
      .ok 160 :=
  ⟨by rfl, by rfl, by rfl, by rfl, by rfl⟩

/-! ## C31: `IsEmpty` and strings made of spaces -/

/-- C31: IsEmpty(s) is true exactly when every character of s is the space
U+0020, the empty string included; a string containing any other character,
a tab or a newline for instance, is not empty.  Hence every engine operation
rejects an identifier, a password or a nonce made only of spaces where it
requires one: the call returns an error and leaves the ledger as it was, and
the error is the one for the empty field whenever the checks made before it
pass. -/
theorem C31_spaces_only_is_empty :
    (∀ s : String, utils.IsEmpty s = true ↔ ∀ c ∈ s.data, c = ' ') ∧
    utils.IsEmpty "" = true ∧
    (∀ (s : String) (c : Char), c ∈ s.data → c ≠ ' ' → utils.IsEmpty s = false) ∧
    (∀ s : String, '\t' ∈ s.data ∨ '\n' ∈ s.data → utils.IsEmpty s = false) ∧
    (∀ (b : bank) (env : Env) (x : String), (∀ c ∈ x.data, c = ' ') →
      (∀ user : proto.User, user.Account = x →
        b.CreateAccount env user = (.error .ErrEmptyAccount, b)) ∧
      (∀ user : proto.User, utils.IsEmpty user.Account = false → user.Password = x →
        b.CreateAccount env user = (.error .ErrEmptyPwd, b)) ∧
      (∀ pwd : String, b.GetNonce env x pwd = (.error .ErrEmptyAccount, b)) ∧
      (∀ account : String, utils.IsEmpty account = false →
        b.GetNonce env account x = (.error .ErrEmptyPwd, b)) ∧
      b.GetBalance x = .error .ErrEmptyAccount ∧
      b.GetTransactions x = ([], some .ErrEmptyAccount) ∧
      (∀ (tx : proto.Transaction) (nonce : String), utils.IsEmpty tx.From = true →
        tx.To = x → b.Deposit env tx nonce = (.error .ErrToAccount, b)) ∧
      (∀ tx : proto.Transaction, utils.IsEmpty tx.From = true →
        utils.IsEmpty tx.To = false → 0 < tx.Amount →
        b.Deposit env tx x = (.error .ErrEmptyNonce, b)) ∧
      (∀ (tx : proto.Transaction) (nonce : String), tx.From = x →
        b.Withdraw env tx nonce = (.error .ErrFromAccount, b)) ∧
      (∀ tx : proto.Transaction, utils.IsEmpty tx.From = false →
        utils.IsEmpty tx.To = true → 0 < tx.Amount →
        b.Withdraw env tx x = (.error .ErrEmptyNonce, b)) ∧
      (∀ (tx : proto.Transaction) (nonce : String), tx.From = x →
        b.Transaction env tx nonce = (.error .ErrFromAccount, b)) ∧
      (∀ (tx : proto.Transaction) (nonce : String), utils.IsEmpty tx.From = false →
        tx.To = x → b.Transaction env tx nonce = (.error .ErrToAccount, b)) ∧
      (∀ tx : proto.Transaction, utils.IsEmpty tx.From = false →
        utils.IsEmpty tx.To = false → 0 < tx.Amount →
        b.Transaction env tx x = (.error .ErrEmptyNonce, b)) ∧
      (∀ (tx : proto.Transaction) (nonce : String), tx.To = x ∨ nonce = x →
        ∃ e, b.Deposit env tx nonce = (.error e, b)) ∧
      (∀ (tx : proto.Transaction) (nonce : String), tx.From = x ∨ nonce = x →
        ∃ e, b.Withdraw env tx nonce = (.error e, b)) ∧
      (∀ (tx : proto.Transaction) (nonce : String), tx.From = x ∨ tx.To = x ∨ nonce = x →
        ∃ e, b.Transaction env tx nonce = (.error e, b)) ∧
      (∀ user : proto.User, user.Account = x ∨ user.Password = x →
        ∃ e, b.CreateAccount env user = (.error e, b)) ∧
      (∀ account pwd : String, account = x ∨ pwd = x →
        ∃ e, b.GetNonce env account pwd = (.error e, b))) := by
  have hne : ∀ (s : String) (c : Char), c ∈ s.data → c ≠ ' ' → utils.IsEmpty s = false := by
    intro s c hc hcs
    rw [Bool.eq_false_iff]
    intro h
    exact hcs ((IsEmpty_iff s).1 h c hc)
  refine ⟨IsEmpty_iff, by decide, hne, ?_, ?_⟩
  · intro s h
    rcases h with h | h
    · exact hne s _ h (by decide)
    · exact hne s _ h (by decide)
  intro b env x hsp
  have hx : utils.IsEmpty x = true := (IsEmpty_iff x).2 hsp
  refine ⟨?_, ?_, ?_, ?_, ?_, ?_, ?_, ?_, ?_, ?_, ?_, ?_, ?_, ?_, ?_, ?_, ?_, ?_⟩
  · intro user hu
    subst hu
    simp [bank.CreateAccount, hx]
  · intro user ha hp
    subst hp
    simp [bank.CreateAccount, ha, hx]
  · intro pwd
    simp [bank.GetNonce, hx]
  · intro account ha
    simp [bank.GetNonce, ha, hx]
  · simp [bank.GetBalance, hx]
  · simp [bank.GetTransactions, hx]
  · intro tx nonce hf ht
    subst ht
    simp [bank.Deposit, hf, hx]
  · intro tx hf ht ha
    simp [bank.Deposit, hf, ht, ha, hx]
  · intro tx nonce hf
    subst hf
    simp [bank.Withdraw, hx]
  · intro tx hf ht ha
    simp [bank.Withdraw, hf, ht, ha, hx]
  · intro tx nonce hf
    subst hf
    simp [bank.Transaction, hx]
  · intro tx nonce hf ht
    subst ht
    simp [bank.Transaction, hf, hx]
  · intro tx hf ht ha
    simp [bank.Transaction, hf, ht, ha, hx]
  · intro tx nonce h
    unfold bank.Deposit
    rcases h with h | h <;> subst h <;> split_ifs <;>
      exact ⟨_, rfl⟩
  · intro tx nonce h
    unfold bank.Withdraw
    rcases h with h | h <;> subst h <;> split_ifs <;>
      exact ⟨_, rfl⟩
  · intro tx nonce h
    unfold bank.Transaction
    rcases h with h | h | h <;> subst h <;> split_ifs <;>
      exact ⟨_, rfl⟩
  · intro user h
    unfold bank.CreateAccount
    rcases h with h | h <;> subst h <;> split_ifs <;>
      exact ⟨_, rfl⟩
  · intro account pwd h
    unfold bank.GetNonce
    rcases h with h | h <;> subst h <;> split_ifs <;>
      exact ⟨_, rfl⟩

theorem C31_witness :
    (∀ c ∈ "  ".data, c = ' ') ∧
    (oneAccount 100).GetBalance "  " = .error .ErrEmptyAccount ∧
    (oneAccount 100).Deposit (envOf []) (depositTx 5) "  " =
      (.error .ErrEmptyNonce, oneAccount 100) ∧
    utils.IsEmpty " \t" = false ∧
    utils.IsEmpty "a" = false :=
  ⟨by decide,
   (C31_spaces_only_is_empty.2.2.2.2 (oneAccount 100) (envOf []) "  " (by decide)).2.2.2.2.1,
   (C31_spaces_only_is_empty.2.2.2.2 (oneAccount 100) (envOf []) "  "
      (by decide)).2.2.2.2.2.2.2.1 (depositTx 5) (by decide) (by decide) (by decide),
   C31_spaces_only_is_empty.2.2.1 " \t" '\t' (by decide) (by decide),
   C31_spaces_only_is_empty.2.2.1 "a" 'a' (by decide) (by decide)⟩

end services
